import Mathlib

/-!
The bplus record writer (`src/writer.c`)

A shallow embedding of `bp__writer_create`, `bp__writer_read`,
`bp__writer_write` and `bp__writer_find`, and theorems about them.

Conventions of the embedding.

* `uint32_t` values are `Nat`s; every place where the C code can wrap or
  truncate carries an explicit `% UINT32_MOD`.
* The file behind `w->fd` is the list of its bytes.  The file is opened with
  `O_APPEND`, so `write` always appends at the real end of the file.
* What the operating system and the allocator do is not decided by the
  program; it is given by an oracle `Sys`, asked with the number of the
  call (`tick`), so that every sequence of short writes, failed reads and
  failed allocations is covered.
* `snappy` is an external library; it is the parameter `Snappy`.
* `sizeof(w->padding)` is the parameter `ALIGN`.
* Out-parameters are returned in the result.  A pointer that is only written
  by some paths (`offset`, `csize`) is an `Option`: `none` means that the
  function did not store anything through it.
* `size_t` and `ssize_t` are wider than `uint32_t` (64 bits) and lengths stay
  below `2^64`, so only the `uint32_t` conversions can lose anything.
* A buffer given to `bp__writer_write` holds at least `size` bytes; the model
  writes the first `size` bytes of what the pointer points to.
* `free` is not modelled: no claim is about the heap.
* `bp__writer_find` loops for ever when `size` is `0` and nothing matches, so
  its loop is iterated a given number of times (`fuel`); the theorems say
  which fuel is enough.  `trace` fields are ghost state: the calls made, in
  order.

The definitions come first; the theorems follow, the helper lemmas before the
theorems that use them.
-/

namespace Bplus

/-- One byte of a file or of a buffer. -/
abbrev Byte := UInt8

/-- Number of values of a `uint32_t`. -/
def UINT32_MOD : Nat := 4294967296

/-- Modelled from the spec: `bplus.h`, which defines the error codes, is not
among the sources.  The kinds are those of the error taxonomy of the spec
(section 7); the code only relies on `BP_OK` being `0` and on the others being
non-zero (`if (ret) return ret;`). -/
def BP_OK : Int := 0

/-- Modelled from the spec: `FileError` (open, seek or close failed). -/
def BP_EFILE : Int := 257

/-- Modelled from the spec: `OutOfBoundsError`. -/
def BP_EFILEREAD_OOB : Int := 258

/-- Modelled from the spec: `FileReadError`. -/
def BP_EFILEREAD : Int := 259

/-- Modelled from the spec: `FileWriteError`. -/
def BP_EFILEWRITE : Int := 260

/-- Modelled from the spec: `AllocationError`. -/
def BP_EALLOC : Int := 513

/-- Modelled from the spec: `CompressionError`. -/
def BP_ESNAPPYC : Int := 769

/-- Modelled from the spec: `DecompressionError`. -/
def BP_ESNAPPYD : Int := 770

/-- Modelled from the spec: the declaration of `bp__writer_t`
(`private/writer.h`) is not among the sources.  `filesize` is the tracked end
of the file, a `uint32_t` like the `offset` it is copied to; `padding` is the
contents of the `char padding[ALIGN]` member; `file` stands for `fd`: the bytes
of the file the descriptor refers to.  `tick` is a ghost field: the number of
system and allocator calls made so far. -/
structure bp__writer_t where
  file : List Byte
  filesize : Nat
  padding : List Byte
  tick : Nat
  deriving DecidableEq

/-- A `void*` as the writer sees it: `NULL`, memory owned by the caller (the
seed given to `bp__writer_find`, the payload given to `bp__writer_write`), or a
buffer that `bp__writer_read` obtained from `malloc`. -/
inductive Ptr where
  | null : Ptr
  | user (mem : List Byte) : Ptr
  | heap (buf : List Byte) : Ptr
  deriving DecidableEq

/-- The bytes a pointer points to. -/
def Ptr.bytes : Ptr → List Byte
  | .null => []
  | .user mem => mem
  | .heap buf => buf

/-- The environment: what each call of `write`, `pread` and `malloc` does.
`write t count` and `pread t count` give the number of bytes the call number
`t` is able to transfer (`none`: the call fails with `-1`); `malloc t n` tells
whether the call number `t` returns a buffer. -/
structure Sys where
  write : Nat → Nat → Option Nat
  pread : Nat → Nat → Option Nat
  malloc : Nat → Nat → Bool
  open_ok : Bool
  lseek_ok : Bool

/-- The snappy library (`snappy-c.h`), external to the repository.  `compress`
and `uncompress` get the input and the capacity of the output buffer and give
the output, or `none` when they do not return `SNAPPY_OK`. -/
structure Snappy where
  max_compressed_length : Nat → Nat
  compress : List Byte → Nat → Option (List Byte)
  uncompressed_length : List Byte → Option Nat
  uncompress : List Byte → Nat → Option (List Byte)

/-- The call `write(w->fd, buf, count)` on a file opened with `O_APPEND`: the value
returned and the handle afterwards. -/
def sys_write (os : Sys) (w : bp__writer_t) (buf : List Byte) (count : Nat) :
    Int × bp__writer_t :=
  match os.write w.tick count with
  | none => (-1, { w with tick := w.tick + 1 })
  | some n =>
    (((min n count : Nat) : Int),
      { w with file := w.file ++ buf.take (min n count), tick := w.tick + 1 })

/-- The call `pread(w->fd, cdata, count, offset)`: the value returned, the bytes put in
the buffer, and the handle afterwards. -/
def sys_pread (os : Sys) (w : bp__writer_t) (count offset : Nat) :
    Int × List Byte × bp__writer_t :=
  match os.pread w.tick count with
  | none => (-1, [], { w with tick := w.tick + 1 })
  | some n =>
    ((((((w.file.drop offset).take count).take n).length : Nat) : Int),
      ((w.file.drop offset).take count).take n,
      { w with tick := w.tick + 1 })

/-- The call `malloc(n)`: whether a buffer was returned, and the handle afterwards. -/
def sys_malloc (os : Sys) (w : bp__writer_t) (n : Nat) : Bool × bp__writer_t :=
  (os.malloc w.tick n, { w with tick := w.tick + 1 })

/-- Source function `bp__writer_create` (lines 12 to 29): `disk` is the content of the file `filename` (empty
when the file is created).  On success `filesize` is the length of the file,
stored in a `uint32_t`, and the padding buffer is zeroed. -/
def bp__writer_create (ALIGN : Nat) (os : Sys) (w : bp__writer_t)
    (disk : List Byte) : Int × bp__writer_t :=
  if os.open_ok = false then (BP_EFILE, w)
  else if os.lseek_ok = false then (BP_EFILE, { w with file := disk })
  else
    (BP_OK,
      { file := disk
        filesize := disk.length % UINT32_MOD
        padding := List.replicate ALIGN 0
        tick := w.tick })

/-- What `bp__writer_read` returns: the `int`, the values of `*size` and
`*data` afterwards, and the handle. -/
structure ReadResult where
  ret : Int
  size : Nat
  data : Ptr
  w : bp__writer_t
  deriving DecidableEq

/-- Source function `bp__writer_read(w, offset, &size, &data)` (lines 38 to 92). -/
def bp__writer_read (ALIGN : Nat) (sn : Snappy) (os : Sys) (w : bp__writer_t)
    (offset size : Nat) (data : Ptr) : ReadResult :=
  if w.filesize < (offset + size) % UINT32_MOD then
    ⟨BP_EFILEREAD_OOB, size, data, w⟩
  else if size = 0 then ⟨BP_OK, size, data, w⟩
  else
    let m := sys_malloc os w size
    if m.1 = false then ⟨BP_EALLOC, size, data, m.2⟩
    else
      let r := sys_pread os m.2 size offset
      if r.1 ≠ (size : Int) then ⟨BP_EFILEREAD, size, data, r.2.2⟩
      else if size ≤ ALIGN then ⟨BP_OK, size, .heap r.2.1, r.2.2⟩
      else
        match sn.uncompressed_length r.2.1 with
        | none => ⟨BP_ESNAPPYD, size, data, r.2.2⟩
        | some usize =>
          let m2 := sys_malloc os r.2.2 usize
          if m2.1 = false then ⟨BP_EALLOC, size, data, m2.2⟩
          else
            match sn.uncompress r.2.1 usize with
            | none => ⟨BP_ESNAPPYD, size, data, m2.2⟩
            | some u => ⟨BP_OK, u.length % UINT32_MOD, .heap u, m2.2⟩

/-- What `bp__writer_write` returns: the `int`, the handle, and what was stored
through `offset` and `csize` (`none`: nothing was stored). -/
structure WriteResult where
  ret : Int
  w : bp__writer_t
  offset : Option Nat
  csize : Option Nat
  deriving DecidableEq

/-- Lines 110 to 142 of `bp__writer_write`: what follows the padding. -/
def write_payload (ALIGN : Nat) (sn : Snappy) (os : Sys) (w : bp__writer_t)
    (size : Nat) (data : Ptr) : WriteResult :=
  if size = 0 then ⟨BP_OK, w, none, none⟩
  else if size ≤ ALIGN then
    let r := sys_write os w data.bytes size
    if r.1 ≠ (size : Int) then ⟨BP_EFILEWRITE, r.2, none, some size⟩
    else
      ⟨BP_OK, { r.2 with filesize := (r.2.filesize + r.1.toNat) % UINT32_MOD },
        some r.2.filesize, some size⟩
  else
    let max_csize := sn.max_compressed_length size
    let m := sys_malloc os w max_csize
    if m.1 = false then ⟨BP_EALLOC, m.2, none, none⟩
    else
      match sn.compress (data.bytes.take size) max_csize with
      | none => ⟨BP_ESNAPPYC, m.2, none, none⟩
      | some compressed =>
        let csize := compressed.length % UINT32_MOD
        let r := sys_write os m.2 compressed compressed.length
        if r.1 ≠ (csize : Int) then ⟨BP_EFILEWRITE, r.2, none, some csize⟩
        else
          ⟨BP_OK,
            { r.2 with filesize := (r.2.filesize + r.1.toNat) % UINT32_MOD },
            some r.2.filesize, some csize⟩

/-- Source function `bp__writer_write(w, size, data, &offset, &csize)` (lines 95 to
143): the padding phase, then `write_payload`. -/
def bp__writer_write (ALIGN : Nat) (sn : Snappy) (os : Sys) (w : bp__writer_t)
    (size : Nat) (data : Ptr) : WriteResult :=
  let padding := (ALIGN - w.filesize % ALIGN) % UINT32_MOD
  if padding ≠ ALIGN then
    let r := sys_write os w w.padding padding
    if r.1 ≠ (padding : Int) then ⟨BP_EFILEWRITE, r.2, none, none⟩
    else
      write_payload ALIGN sn os
        { r.2 with filesize := (r.2.filesize + padding) % UINT32_MOD } size data
  else write_payload ALIGN sn os w size data

/-- What a callback (`bp__writer_cb`) returns: its `int`, and the handle and the
state of the caller as the callback left them. -/
structure CbResult (κ : Type) where
  ret : Int
  w : bp__writer_t
  user : κ

/-- A callback `int (*bp__writer_cb)(bp__writer_t* w, void* data)`.  The
callback is code of the caller: it may use the handle and it may have a state
of its own, of type `κ`. -/
abbrev bp__writer_cb (κ : Type) := κ → bp__writer_t → Ptr → CbResult κ

/-- What `bp__writer_find` did, in order: a call of `bp__writer_read` with its
arguments `offset` and `*size` and what it returned (the `int`, `*size` and
`*data` afterwards), a call of `seek`, a call of `miss` (the argument `data`
and the `int` returned). -/
inductive Event where
  | read (offset size : Nat) (ret : Int) (size_out : Nat) (data : Ptr) : Event
  | seek (data : Ptr) (ret : Int) : Event
  | miss (data : Ptr) (ret : Int) : Event
  deriving DecidableEq

/-- The variables of `bp__writer_find` while it is in the loop; `running` is
false once the loop has been left (by `break` or by its condition), `trace` is
the ghost record of the calls made. -/
structure Loop (κ : Type) where
  w : bp__writer_t
  user : κ
  offset : Nat
  size_tmp : Nat
  data : Ptr
  ret : Int
  running : Bool
  trace : List Event

/-- One test of `while (offset >= size)` and, when it holds, one run of the
body (lines 162 to 170). -/
def find_iter {κ : Type} (ALIGN : Nat) (sn : Snappy) (os : Sys) (size : Nat)
    (seek : bp__writer_cb κ) (s : Loop κ) : Loop κ :=
  if s.running = false then s
  else if s.offset ≥ size then
    let r := bp__writer_read ALIGN sn os s.w (s.offset - size) s.size_tmp s.data
    let ev := Event.read (s.offset - size) s.size_tmp r.ret r.size r.data
    if r.ret ≠ 0 then
      { s with w := r.w, size_tmp := r.size, data := r.data, ret := r.ret,
               running := false, trace := s.trace ++ [ev] }
    else
      let q := seek s.user r.w r.data
      if q.ret = 0 then
        { s with w := q.w, user := q.user, size_tmp := r.size, data := r.data,
                 ret := r.ret, running := false,
                 trace := s.trace ++ [ev, Event.seek r.data q.ret] }
      else
        { s with w := q.w, user := q.user, size_tmp := r.size, data := r.data,
                 ret := r.ret, offset := s.offset - size,
                 trace := s.trace ++ [ev, Event.seek r.data q.ret] }
  else { s with running := false }

/-- The loop of `bp__writer_find` run for at most `n` tests of its
condition. -/
def find_loop {κ : Type} (ALIGN : Nat) (sn : Snappy) (os : Sys) (size : Nat)
    (seek : bp__writer_cb κ) : Nat → Loop κ → Loop κ
  | 0, s => s
  | n + 1, s => find_loop ALIGN sn os size seek n (find_iter ALIGN sn os size seek s)

/-- What `bp__writer_find` returns: the `int`, the handle and the state of the
caller afterwards, and the ghost record of the calls it made. -/
structure FindResult (κ : Type) where
  ret : Int
  w : bp__writer_t
  user : κ
  trace : List Event
  deriving DecidableEq

/-- The variables of `bp__writer_find` on entering the loop (lines 158 and
159), after the padding write left the handle `w`. -/
def find_init {κ : Type} (w : bp__writer_t) (size : Nat) (data : Ptr) (user : κ) :
    Loop κ :=
  { w := w, user := user, offset := w.filesize, size_tmp := size, data := data,
    ret := 0, running := true, trace := [] }

/-- Lines 172 to 177 of `bp__writer_find`: what follows the loop. -/
def find_finish {κ : Type} (size : Nat) (miss : bp__writer_cb κ) (s : Loop κ) :
    FindResult κ :=
  if s.offset < size then
    let m := miss s.user s.w s.data
    ⟨m.ret, m.w, m.user, s.trace ++ [Event.miss s.data m.ret]⟩
  else ⟨s.ret, s.w, s.user, s.trace⟩

/-- Source function `bp__writer_find(w, size, data, seek, miss)` (lines 146 to
178), with the loop allowed `fuel` tests of its condition: `none` when the loop
is still running after them. -/
def bp__writer_find {κ : Type} (ALIGN : Nat) (sn : Snappy) (os : Sys) (fuel : Nat)
    (w : bp__writer_t) (size : Nat) (data : Ptr) (seek miss : bp__writer_cb κ)
    (user : κ) : Option (FindResult κ) :=
  let p := bp__writer_write ALIGN sn os w 0 Ptr.null
  if p.ret ≠ 0 then some ⟨p.ret, p.w, user, []⟩
  else
    let s := find_loop ALIGN sn os size seek fuel (find_init p.w size data user)
    if s.running = true then none
    else some (find_finish size miss s)

/-- The padding that `bp__writer_write` emits at tracked size `f`: the number
of bytes up to the next multiple of `ALIGN`, `0` when `f` is one. -/
def pad_len (ALIGN f : Nat) : Nat := (ALIGN - f % ALIGN) % ALIGN

/-- The least multiple of `ALIGN` that is at least `f`. -/
def align_up (ALIGN f : Nat) : Nat := f + pad_len ALIGN f

/-- The bytes `[offset, offset + size)` of a file. -/
def slot (file : List Byte) (offset size : Nat) : List Byte :=
  (file.drop offset).take size

/-- An environment in which every `write` and `pread` transfers all the bytes
asked for and every `malloc` returns a buffer. -/
def Sys.reliable : Sys :=
  { write := fun _ count => some count
    pread := fun _ count => some count
    malloc := fun _ _ => true
    open_ok := true
    lseek_ok := true }

/-- A handle on a fresh empty file, as `bp__writer_create` leaves it. -/
def fresh (ALIGN : Nat) : bp__writer_t :=
  { file := [], filesize := 0, padding := List.replicate ALIGN 0, tick := 0 }

/-- A callback without state that leaves the handle alone and answers `0`
exactly on the buffers listed in `accepted`. -/
def seek_in (accepted : List (List Byte)) : bp__writer_cb Unit :=
  fun u w data => ⟨if data.bytes ∈ accepted then 0 else 1, w, u⟩

/-- A callback without state that leaves the handle alone and always returns
`ret`. -/
def cb_const (ret : Int) : bp__writer_cb Unit :=
  fun u w _ => ⟨ret, w, u⟩

/-- Whether the call number `t` of `write`, asked for `count` bytes, writes
them all. -/
def Sys.write_all (os : Sys) (t count : Nat) : Bool :=
  match os.write t count with
  | none => false
  | some n => decide (count ≤ n)

/-- Whether the call number `t` of `pread`, asked for `count` bytes, is able to
transfer them all. -/
def Sys.pread_all (os : Sys) (t count : Nat) : Bool :=
  match os.pread t count with
  | none => false
  | some n => decide (count ≤ n)

/-- The handle is one that `bp__writer_create` made for a buffer of `ALIGN`
bytes: `filesize` is a `uint32_t` and the padding buffer holds zeros. -/
def bp__writer_t.wf (ALIGN : Nat) (w : bp__writer_t) : Prop :=
  w.filesize < UINT32_MOD ∧ w.padding = List.replicate ALIGN 0

/-- The handle after a complete padding write: `pad_len` zero bytes appended,
`filesize` advanced by as many in `uint32_t` arithmetic, one more call made;
the handle itself when no padding is due. -/
def padded (ALIGN : Nat) (w : bp__writer_t) : bp__writer_t :=
  if pad_len ALIGN w.filesize = 0 then w
  else
    { w with
      file := w.file ++ List.replicate (pad_len ALIGN w.filesize) 0
      filesize := (w.filesize + pad_len ALIGN w.filesize) % UINT32_MOD
      tick := w.tick + 1 }

/-- A handle whose file holds five bytes, all tracked. -/
def w_five : bp__writer_t :=
  { file := [7, 7, 7, 7, 7], filesize := 5, padding := List.replicate 4 0, tick := 0 }

/-- A handle whose file holds 4294967294 bytes, all tracked: `filesize` is two
bytes below `2^32`, and two bytes of padding are due for `ALIGN = 4`. -/
def w_full : bp__writer_t :=
  { file := List.replicate 4294967294 0, filesize := 4294967294,
    padding := List.replicate 4 0, tick := 0 }

/-- Output of the codec `Snappy.runs`: a run of up to 65535 equal bytes becomes
the four bytes `1, b, n / 256, n % 256`; anything else is stored behind a `0`
byte. -/
def runs_encode (p : List Byte) : List Byte :=
  match p with
  | [] => [0]
  | b :: t =>
    if t.all (fun x => x == b) = true ∧ t.length + 1 < 65536 then
      [1, b, UInt8.ofNat ((t.length + 1) / 256), UInt8.ofNat ((t.length + 1) % 256)]
    else 0 :: b :: t

/-- Decoder of `Snappy.runs`; `none` on what `runs_encode` never produces. -/
def runs_decode (c : List Byte) : Option (List Byte) :=
  match c with
  | [] => none
  | h :: rest =>
    if h = 0 then some rest
    else if h = 1 then
      match rest with
      | [b, hi, lo] => some (List.replicate (hi.toNat * 256 + lo.toNat) b)
      | _ => none
    else none

/-- A small lossless codec standing for snappy in concrete runs: it shortens
runs of equal bytes and fails when the output buffer is too small. -/
def Snappy.runs : Snappy :=
  { max_compressed_length := fun n => n + 4
    compress := fun p cap =>
      if (runs_encode p).length ≤ cap then some (runs_encode p) else none
    uncompressed_length := fun c => (runs_decode c).map List.length
    uncompress := fun c cap =>
      match runs_decode c with
      | none => none
      | some u => if u.length ≤ cap then some u else none }

/-- The law of a lossless codec, as `bp__writer_write` and `bp__writer_read`
use it: what `compress` produced in a buffer of the maximal length is
decompressed to the input, and the length query gives the input's length. -/
def Snappy.lossless (sn : Snappy) : Prop :=
  ∀ p c, sn.compress p (sn.max_compressed_length p.length) = some c →
    sn.uncompressed_length c = some p.length ∧ sn.uncompress c p.length = some p

/-- An environment that is reliable except that the call number `t`, when it is
a `write`, writes `k` bytes only. -/
def Sys.short_at (t k : Nat) : Sys :=
  { Sys.reliable with write := fun i count => if i = t then some k else some count }

/-- An environment that is reliable except that the call number `t`, when it is
a `pread`, fails. -/
def Sys.pread_fails_at (t : Nat) : Sys :=
  { Sys.reliable with pread := fun i count => if i = t then none else some count }

/-- A codec whose `compress` and `uncompress` never return `SNAPPY_OK`. -/
def Snappy.failing : Snappy :=
  { max_compressed_length := fun n => n + 4
    compress := fun _ _ => none
    uncompressed_length := fun _ => none
    uncompress := fun _ _ => none }

/-- The payload of the scenario of the spec: 2000 bytes `x`. -/
def xs_2000 : List Byte := List.replicate 2000 120

/-- What holds of the loop variables of `bp__writer_find` as to failed reads:
`miss` is not called inside the loop; while the loop runs no read has failed;
once it is left, a failed read is the last call made, its value is in `ret`,
and `offset` is still at least `size`. -/
def fail_inv {κ : Type} (size : Nat) (s : Loop κ) : Prop :=
  (∀ d m, Event.miss d m ∉ s.trace) ∧
  (s.running = true → ∀ off sz ret so d, Event.read off sz ret so d ∈ s.trace → ret = 0) ∧
  (s.running = false → ∀ off sz ret so d, Event.read off sz ret so d ∈ s.trace → ret ≠ 0 →
    s.trace.getLast? = some (Event.read off sz ret so d) ∧ s.ret = ret ∧ size ≤ s.offset)

/-- A handle whose file holds eight tracked bytes, two slots of four. -/
def w_eight : bp__writer_t :=
  { file := [1, 1, 1, 1, 2, 2, 2, 2], filesize := 8, padding := List.replicate 4 0, tick := 0 }

/-- What holds of the loop variables of `bp__writer_find` after `j` slots of
`s` bytes were read and rejected, the scan having started at `F`: the loop is
running, `offset` is `F - j * s`, `size_tmp` is still `s`, `ret` is `0`, `miss`
was not called, and (for `j > 0`) the last two calls are the read of the slot at
`offset` and `seek` on the buffer it returned, which `data` still points to. -/
def scan_inv {κ : Type} (F s j : Nat) (st : Loop κ) : Prop :=
  st.running = true ∧ st.offset + j * s = F ∧ st.size_tmp = s ∧ st.ret = 0 ∧
  (∀ d m, Event.miss d m ∉ st.trace) ∧
  (0 < j → ∃ T q, st.trace = T ++ [Event.read st.offset s 0 s st.data, Event.seek st.data q])

/-- A call that does not end the scan: a read that returned `0`, a `seek` that
returned a non-zero value. -/
def Event.rejected : Event → Bool
  | .read _ _ ret _ _ => decide (ret = 0)
  | .seek _ q => decide (q ≠ 0)
  | .miss _ _ => true

/-- Every read of the trace returned `0` and every `seek` a non-zero value. -/
def all_rejected (trace : List Event) : Prop :=
  ∀ e ∈ trace, e.rejected = true

/-- The handle after the payloads of the list were written one after the other
with `bp__writer_write`. -/
def after_writes (ALIGN : Nat) (sn : Snappy) (os : Sys) :
    bp__writer_t → List (List Byte) → bp__writer_t
  | w, [] => w
  | w, p :: ps =>
    after_writes ALIGN sn os (bp__writer_write ALIGN sn os w p.length (Ptr.user p)).w ps

/-- What the writes of the payloads of the list returned, in order. -/
def rets_of_writes (ALIGN : Nat) (sn : Snappy) (os : Sys) :
    bp__writer_t → List (List Byte) → List Int
  | _, [] => []
  | w, p :: ps =>
    (bp__writer_write ALIGN sn os w p.length (Ptr.user p)).ret ::
      rets_of_writes ALIGN sn os (bp__writer_write ALIGN sn os w p.length (Ptr.user p)).w ps

/-- A sequence of calls of `bp__writer_write`, each given by its `size` and
`data`: the handle before each call and what the call returned. -/
def run_writes (ALIGN : Nat) (sn : Snappy) (os : Sys) :
    bp__writer_t → List (Nat × Ptr) → List (bp__writer_t × WriteResult)
  | _, [] => []
  | w, rq :: rest =>
    (w, bp__writer_write ALIGN sn os w rq.1 rq.2) ::
      run_writes ALIGN sn os (bp__writer_write ALIGN sn os w rq.1 rq.2).w rest

/-- The handle after a sequence of calls of `bp__writer_write`. -/
def end_writes (ALIGN : Nat) (sn : Snappy) (os : Sys) :
    bp__writer_t → List (Nat × Ptr) → bp__writer_t
  | w, [] => w
  | w, rq :: rest =>
    end_writes ALIGN sn os (bp__writer_write ALIGN sn os w rq.1 rq.2).w rest

/-- The call did not wrap `filesize`: the aligned old `filesize`, plus `csize`
when the call succeeded, is below `2^32`. -/
def no_wrap (ALIGN : Nat) (p : bp__writer_t × WriteResult) : Prop :=
  align_up ALIGN p.1.filesize + (if p.2.ret = BP_OK then p.2.csize.getD 0 else 0) < UINT32_MOD

instance (ALIGN : Nat) (p : bp__writer_t × WriteResult) : Decidable (no_wrap ALIGN p) :=
  inferInstanceAs (Decidable (_ < _))

/-- The call wrote a record: it returned `BP_OK` and stored an `offset` (which
it does exactly when `size` is not zero). -/
def is_record (r : WriteResult) : Prop :=
  r.ret = BP_OK ∧ r.offset ≠ none

instance (r : WriteResult) : Decidable (is_record r) :=
  inferInstanceAs (Decidable (_ ∧ _))

/-- A call of the scan on a slot of `s` bytes of padding that does not end it: a
successful read that yields `s` zero bytes, or `seek` rejecting such a
buffer. -/
def Event.is_pad (s : Nat) : Event → Prop
  | .read _ _ ret _ d => ret = 0 ∧ d = Ptr.heap (List.replicate s 0)
  | .seek d q => d = Ptr.heap (List.replicate s 0) ∧ q ≠ 0
  | .miss _ _ => False

/-- A handle whose file holds eight tracked bytes: the five bytes the codec
`Snappy.runs` makes of `[9, 9, 8, 7]`, then three more. -/
def w_rec : bp__writer_t :=
  { file := [0, 9, 9, 8, 7, 2, 0, 0], filesize := 8, padding := List.replicate 4 0, tick := 0 }

/-- Whether the event is a call of `bp__writer_read`. -/
def Event.is_read : Event → Bool
  | .read _ _ _ _ _ => true
  | _ => false

/-- Whether the event is a call of `seek`. -/
def Event.is_seek : Event → Bool
  | .seek _ _ => true
  | _ => false

/-- Whether the event is a call of `miss`. -/
def Event.is_miss : Event → Bool
  | .miss _ _ => true
  | _ => false

/-- Number of calls of `bp__writer_read` in a trace. -/
def reads (trace : List Event) : Nat := trace.countP Event.is_read

/-- Number of calls of `seek` in a trace. -/
def seeks (trace : List Event) : Nat := trace.countP Event.is_seek

/-- Number of calls of `miss` in a trace. -/
def misses (trace : List Event) : Nat := trace.countP Event.is_miss

/-- What holds of the loop variables of `bp__writer_find` as to the number of
calls, the scan having started at `F` with slot size `s`: no more calls of
`seek` than reads, no call of `miss`, every read so far had its slot inside
`[0, F)`, and while the loop runs `offset` is `F` less `s` for each read. -/
def count_inv {κ : Type} (F s : Nat) (st : Loop κ) : Prop :=
  seeks st.trace ≤ reads st.trace ∧ misses st.trace = 0 ∧ reads st.trace * s ≤ F ∧
  (st.running = true → st.offset + reads st.trace * s = F)

/-- A call of the scan with slot size `0` that makes no progress: an empty read
at `F` that returns `0` and leaves `*size = 0` and `*data = seed`, or `seek` on
the seed returning a non-zero value. -/
def Event.is_idle (F : Nat) (seed : Ptr) : Event → Prop
  | .read off sz ret so d => off = F ∧ sz = 0 ∧ ret = 0 ∧ so = 0 ∧ d = seed
  | .seek d q => d = seed ∧ q ≠ 0
  | .miss _ _ => False

/-- What holds of `data` in the loop of `bp__writer_find`, for a scan of slot
size `size` started at `F` with the seed `seed`: before the first read `data`
is the seed; after a read, the last two calls are a successful read and `seek`
on the buffer it left in `data`, a buffer from `malloc`. -/
def seed_inv {κ : Type} (size F : Nat) (seed : Ptr) (st : Loop κ) : Prop :=
  (st.running = true →
    (st.trace = [] ∧ st.data = seed ∧ st.offset = F ∧ st.size_tmp = size) ∨
    (size ≤ F ∧ ∃ T off sz so q b,
      st.trace = T ++ [Event.read off sz 0 so (Ptr.heap b), Event.seek (Ptr.heap b) q] ∧
      st.data = Ptr.heap b)) ∧
  (st.running = false → st.offset < size →
    (F < size ∧ st.trace = [] ∧ st.data = seed) ∨
    (size ≤ F ∧ ∃ T off sz so q b,
      st.trace = T ++ [Event.read off sz 0 so (Ptr.heap b), Event.seek (Ptr.heap b) q] ∧
      st.data = Ptr.heap b))

/-- The calls of a scan down from `F` in slots of `s` bytes, from the slot
number `k` (counted from the end of the file, the last slot being number 0) on,
in which every read succeeded and returned the bytes of its slot in `file`, and
`seek` gave the answers of the list in order: for each answer the read of the
slot at `F - (k + 1) * s` with `*size = s` and the call of `seek` on the buffer. -/
def scan_trace (file : List Byte) (F s : Nat) : Nat → List Int → List Event
  | _, [] => []
  | k, q :: qs =>
    Event.read (F - (k + 1) * s) s 0 s (Ptr.heap (slot file (F - (k + 1) * s) s)) ::
      Event.seek (Ptr.heap (slot file (F - (k + 1) * s) s)) q ::
      scan_trace file F s (k + 1) qs

/-- What holds of the loop variables of `bp__writer_find` after `n` tests of the
loop condition, for a slot size of at most `ALIGN`, the scan having started at
`F` on the bytes `file`: the calls made so far are those of `scan_trace` for
answers of `seek` that are all non-zero, followed by nothing (the loop is running
or was left by its condition), by a failed read, or by the read and the call of
`seek` that answered `0`. -/
def order_inv {κ : Type} (file : List Byte) (F s n : Nat) (st : Loop κ) : Prop :=
  st.w.file = file ∧
  ∃ qs : List Int, (∀ q ∈ qs, q ≠ 0) ∧ qs.length * s ≤ F ∧
    ((st.running = true ∧ qs.length = n ∧ st.offset + n * s = F ∧ st.size_tmp = s ∧
        st.ret = 0 ∧ st.trace = scan_trace file F s 0 qs) ∨
     (st.running = false ∧ st.offset < s ∧ F < (qs.length + 1) * s ∧
        st.trace = scan_trace file F s 0 qs) ∨
     (st.running = false ∧ s ≤ st.offset ∧ st.ret ≠ 0 ∧ (qs.length + 1) * s ≤ F ∧
        ∃ so d, st.trace = scan_trace file F s 0 qs ++
          [Event.read (F - (qs.length + 1) * s) s st.ret so d]) ∨
     (st.running = false ∧ s ≤ st.offset ∧ st.ret = 0 ∧ (qs.length + 1) * s ≤ F ∧
        st.trace = scan_trace file F s 0 (qs ++ [0])))


theorem pad_len_lt {ALIGN : Nat} (f : Nat) (hA : 0 < ALIGN) : pad_len ALIGN f < ALIGN := by
  unfold pad_len
  exact Nat.mod_lt _ hA

theorem pad_len_eq_zero_iff {ALIGN : Nat} (f : Nat) (hA : 0 < ALIGN) :
    pad_len ALIGN f = 0 ↔ f % ALIGN = 0 := by
  unfold pad_len
  have h := Nat.mod_lt f hA
  constructor
  · intro h0
    by_contra hne
    have : ALIGN - f % ALIGN < ALIGN := by omega
    rw [Nat.mod_eq_of_lt this] at h0
    omega
  · intro h0
    rw [h0]; simp

theorem pad_len_of_ne {ALIGN : Nat} (f : Nat) (hA : 0 < ALIGN) (h : f % ALIGN ≠ 0) :
    pad_len ALIGN f = ALIGN - f % ALIGN := by
  unfold pad_len
  have := Nat.mod_lt f hA
  exact Nat.mod_eq_of_lt (by omega)

theorem align_up_mod {ALIGN : Nat} (f : Nat) (hA : 0 < ALIGN) :
    align_up ALIGN f % ALIGN = 0 := by
  unfold align_up
  by_cases h : f % ALIGN = 0
  · rw [(pad_len_eq_zero_iff f hA).2 h]; simpa using h
  · rw [pad_len_of_ne f hA h]
    have hlt := Nat.mod_lt f hA
    have : f + (ALIGN - f % ALIGN) = ALIGN * (f / ALIGN + 1) := by
      have := Nat.div_add_mod f ALIGN
      rw [Nat.mul_add, Nat.mul_one]; omega
    rw [this]; exact Nat.mul_mod_right _ _

/-- The `uint32_t padding` computed on line 101 differs from `ALIGN` exactly when
padding is due, and is then `pad_len`. -/
theorem padding_var {ALIGN : Nat} (f : Nat) (hA : 0 < ALIGN) (hA32 : ALIGN < UINT32_MOD) :
    ((ALIGN - f % ALIGN) % UINT32_MOD = ALIGN ↔ pad_len ALIGN f = 0) ∧
    (pad_len ALIGN f ≠ 0 → (ALIGN - f % ALIGN) % UINT32_MOD = pad_len ALIGN f) := by
  have hlt := Nat.mod_lt f hA
  have h1 : (ALIGN - f % ALIGN) % UINT32_MOD = ALIGN - f % ALIGN :=
    Nat.mod_eq_of_lt (by omega)
  rw [h1, pad_len_eq_zero_iff f hA]
  refine ⟨by omega, fun h => ?_⟩
  rw [pad_len_of_ne f hA]
  intro h0; exact h ((pad_len_eq_zero_iff f hA).2 h0)

theorem sys_write_all {os : Sys} {w : bp__writer_t} {count : Nat} (buf : List Byte)
    (h : os.write_all w.tick count = true) :
    sys_write os w buf count =
      ((count : Int), { w with file := w.file ++ buf.take count, tick := w.tick + 1 }) := by
  unfold Sys.write_all at h
  unfold sys_write
  cases hw : os.write w.tick count with
  | none => rw [hw] at h; simp at h
  | some n =>
    rw [hw] at h
    have hn : count ≤ n := by simpa using h
    simp [Nat.min_eq_right hn]

theorem sys_write_short {os : Sys} {w : bp__writer_t} {count : Nat} (buf : List Byte)
    (h : os.write_all w.tick count = false) :
    (sys_write os w buf count).1 ≠ (count : Int) ∧
    (sys_write os w buf count).2.filesize = w.filesize ∧
    (sys_write os w buf count).2.padding = w.padding ∧
    (sys_write os w buf count).2.tick = w.tick + 1 ∧
    ∃ k, (sys_write os w buf count).2.file = w.file ++ buf.take k := by
  unfold Sys.write_all at h
  unfold sys_write
  cases hw : os.write w.tick count with
  | none =>
    rw [hw] at h
    refine ⟨by simp, rfl, rfl, rfl, 0, by simp⟩
  | some n =>
    rw [hw] at h
    have hn : n < count := by simpa using h
    refine ⟨?_, rfl, rfl, rfl, n, ?_⟩
    · simp [Nat.min_eq_left (Nat.le_of_lt hn)]; omega
    · simp [Nat.min_eq_left (Nat.le_of_lt hn)]

/-- When the padding write (if one is due) is complete, `bp__writer_write`
continues after line 108 with the padded handle. -/
theorem write_eq_payload_of_padded {ALIGN : Nat} (sn : Snappy) (os : Sys) (w : bp__writer_t)
    (size : Nat) (data : Ptr) (hA : 0 < ALIGN) (hA32 : ALIGN < UINT32_MOD)
    (hz : w.padding = List.replicate ALIGN 0)
    (hio : pad_len ALIGN w.filesize ≠ 0 →
      os.write_all w.tick (pad_len ALIGN w.filesize) = true) :
    bp__writer_write ALIGN sn os w size data =
      write_payload ALIGN sn os (padded ALIGN w) size data := by
  obtain ⟨hiff, hval⟩ := padding_var w.filesize hA hA32
  unfold bp__writer_write padded
  by_cases hp : pad_len ALIGN w.filesize = 0
  · simp only [hiff.2 hp, hp, ne_eq, not_true_eq_false, if_false, if_true]
  · have hne : ¬ (ALIGN - w.filesize % ALIGN) % UINT32_MOD = ALIGN := fun h => hp (hiff.1 h)
    have hlt := pad_len_lt w.filesize hA
    have hne2 : ¬ pad_len ALIGN w.filesize = ALIGN := by omega
    simp only [ne_eq, hne2, not_false_eq_true, if_true, hp, if_false, hval hp,
      sys_write_all w.padding (hio hp), not_true_eq_false]
    rw [hz, List.take_replicate, Nat.min_eq_left (Nat.le_of_lt hlt)]

/-- When the padding write is short or fails, `bp__writer_write` stops on line
106. -/
theorem write_of_pad_short {ALIGN : Nat} (sn : Snappy) (os : Sys) (w : bp__writer_t)
    (size : Nat) (data : Ptr) (hA : 0 < ALIGN) (hA32 : ALIGN < UINT32_MOD)
    (hp : pad_len ALIGN w.filesize ≠ 0)
    (hio : os.write_all w.tick (pad_len ALIGN w.filesize) = false) :
    bp__writer_write ALIGN sn os w size data =
      ⟨BP_EFILEWRITE, (sys_write os w w.padding (pad_len ALIGN w.filesize)).2, none, none⟩ := by
  obtain ⟨hiff, hval⟩ := padding_var w.filesize hA hA32
  have hne : ¬ (ALIGN - w.filesize % ALIGN) % UINT32_MOD = ALIGN := fun h => hp (hiff.1 h)
  have hne2 : ¬ pad_len ALIGN w.filesize = ALIGN := by
    have := pad_len_lt w.filesize hA; omega
  unfold bp__writer_write
  simp only [ne_eq, hne2, not_false_eq_true, if_true, hval hp,
    (sys_write_short w.padding hio).1]

theorem padded_filesize {ALIGN : Nat} (w : bp__writer_t) (hfs : w.filesize < UINT32_MOD) :
    (padded ALIGN w).filesize = (w.filesize + pad_len ALIGN w.filesize) % UINT32_MOD := by
  unfold padded
  split
  · rename_i h; rw [h, Nat.add_zero, Nat.mod_eq_of_lt hfs]
  · rfl

theorem padded_file {ALIGN : Nat} (w : bp__writer_t) :
    (padded ALIGN w).file = w.file ++ List.replicate (pad_len ALIGN w.filesize) 0 := by
  unfold padded
  split
  · rename_i h; rw [h]; simp
  · rfl

theorem padded_padding {ALIGN : Nat} (w : bp__writer_t) :
    (padded ALIGN w).padding = w.padding := by
  unfold padded
  split <;> rfl

theorem padded_tick {ALIGN : Nat} (w : bp__writer_t) :
    (padded ALIGN w).tick = if pad_len ALIGN w.filesize = 0 then w.tick else w.tick + 1 := by
  unfold padded
  split <;> rfl

/-- The handle `w_full` after its two bytes of padding: the file has `2^32`
bytes and `filesize` has wrapped to `0`. -/
theorem w_full_padded :
    (padded 4 w_full).filesize = 0 ∧ (padded 4 w_full).file = w_full.file ++ [0, 0] ∧
    (padded 4 w_full).tick = 1 := by
  have hp : pad_len 4 w_full.filesize = 2 := by decide
  have hfs := @padded_filesize 4 w_full (by decide)
  have hfile := @padded_file 4 w_full
  have htick := @padded_tick 4 w_full
  rw [hp] at hfs hfile htick
  exact ⟨hfs, hfile, htick⟩

/-- C7, counterexample.  `ALIGN = 4`, a file of 4294967294 bytes, all tracked,
every call of the environment succeeding: the zero-length write returns `BP_OK`
and appends the two zero bytes of padding that are due, but `filesize` is `0`
afterwards, not the old `filesize` plus two. -/
theorem zero_length_write_wraps :
    w_full.file.length = w_full.filesize ∧
    (4 - w_full.filesize % 4) % 4 = 2 ∧
    (bp__writer_write 4 Snappy.runs Sys.reliable w_full 0 Ptr.null).ret = BP_OK ∧
    (bp__writer_write 4 Snappy.runs Sys.reliable w_full 0 Ptr.null).w.file =
      w_full.file ++ [0, 0] ∧
    (bp__writer_write 4 Snappy.runs Sys.reliable w_full 0 Ptr.null).w.filesize = 0 ∧
    (bp__writer_write 4 Snappy.runs Sys.reliable w_full 0 Ptr.null).w.filesize ≠
      w_full.filesize + 2 := by
  have hw : bp__writer_write 4 Snappy.runs Sys.reliable w_full 0 Ptr.null =
      ⟨BP_OK, padded 4 w_full, none, none⟩ := by
    rw [write_eq_payload_of_padded Snappy.runs Sys.reliable w_full 0 Ptr.null (by decide)
      (by decide) rfl (fun _ => rfl)]
    unfold write_payload
    rw [if_pos rfl]
  obtain ⟨hfs, hfile, -⟩ := w_full_padded
  rw [hw]
  refine ⟨List.length_replicate _ _, by decide, rfl, hfile, hfs, ?_⟩
  show (padded 4 w_full).filesize ≠ _
  rw [hfs]
  decide

/-- C7, amended. A zero-length `bp__writer_write` whose padding write (if one is
due) is complete returns `BP_OK`, stores nothing through `offset` and `csize`,
does not depend on the payload pointer, and appends exactly
`(ALIGN - filesize mod ALIGN) mod ALIGN` zero bytes to the file.  The new
`filesize` is the old one plus that amount modulo `2^32`: it is advanced by
exactly that amount when the sum is below `2^32`.  When `filesize` is already a
multiple of `ALIGN` the handle is not changed at all. -/
theorem zero_length_write_pads_only (ALIGN : Nat) (sn : Snappy) (os : Sys)
    (w : bp__writer_t) (data : Ptr) (hA : 0 < ALIGN) (hA32 : ALIGN < UINT32_MOD)
    (hwf : w.wf ALIGN)
    (hio : pad_len ALIGN w.filesize ≠ 0 →
      os.write_all w.tick (pad_len ALIGN w.filesize) = true) :
    (bp__writer_write ALIGN sn os w 0 data).ret = BP_OK ∧
    (bp__writer_write ALIGN sn os w 0 data).offset = none ∧
    (bp__writer_write ALIGN sn os w 0 data).csize = none ∧
    bp__writer_write ALIGN sn os w 0 data = bp__writer_write ALIGN sn os w 0 Ptr.null ∧
    (bp__writer_write ALIGN sn os w 0 data).w.file =
      w.file ++ List.replicate ((ALIGN - w.filesize % ALIGN) % ALIGN) 0 ∧
    (bp__writer_write ALIGN sn os w 0 data).w.filesize =
      (w.filesize + (ALIGN - w.filesize % ALIGN) % ALIGN) % UINT32_MOD ∧
    (w.filesize + (ALIGN - w.filesize % ALIGN) % ALIGN < UINT32_MOD →
      (bp__writer_write ALIGN sn os w 0 data).w.filesize =
        w.filesize + (ALIGN - w.filesize % ALIGN) % ALIGN) ∧
    (bp__writer_write ALIGN sn os w 0 data).w.padding = w.padding ∧
    (w.filesize % ALIGN = 0 → (bp__writer_write ALIGN sn os w 0 data).w = w) := by
  have key : ∀ d : Ptr, bp__writer_write ALIGN sn os w 0 d = ⟨BP_OK, padded ALIGN w, none, none⟩ := by
    intro d
    rw [write_eq_payload_of_padded sn os w 0 d hA hA32 hwf.2 hio]
    simp [write_payload]
  have hfs := @padded_filesize ALIGN w hwf.1
  have hfile := @padded_file ALIGN w
  unfold pad_len at hfs hfile
  rw [key data, key Ptr.null]
  refine ⟨rfl, rfl, rfl, rfl, hfile, hfs, ?_, padded_padding w, ?_⟩
  · intro hlt
    show (padded ALIGN w).filesize = _
    rw [hfs, Nat.mod_eq_of_lt hlt]
  · intro h0
    show padded ALIGN w = w
    unfold padded
    rw [if_pos ((pad_len_eq_zero_iff w.filesize hA).2 h0)]

/-- Witness of C7 as amended: five tracked bytes, `ALIGN = 4`: three zero bytes
are appended and `filesize` becomes 8. -/
theorem zero_length_write_pads_only_witness :
    (bp__writer_write 4 Snappy.runs Sys.reliable w_five 0 (Ptr.user [9])).ret = BP_OK ∧
    (bp__writer_write 4 Snappy.runs Sys.reliable w_five 0 (Ptr.user [9])).w.file =
      [7, 7, 7, 7, 7, 0, 0, 0] ∧
    (bp__writer_write 4 Snappy.runs Sys.reliable w_five 0 (Ptr.user [9])).w.filesize = 8 := by
  have h := zero_length_write_pads_only 4 Snappy.runs Sys.reliable w_five (Ptr.user [9])
    (by decide) (by decide) ⟨by decide, rfl⟩ (fun _ => by decide)
  refine ⟨h.1, ?_, ?_⟩
  · rw [h.2.2.2.2.1]; decide
  · rw [h.2.2.2.2.2.2.1 (by decide)]; decide

theorem align_up_least {ALIGN : Nat} (f : Nat) (hA : 0 < ALIGN) :
    ALIGN ∣ align_up ALIGN f ∧ f ≤ align_up ALIGN f ∧
      ∀ m, ALIGN ∣ m → f ≤ m → align_up ALIGN f ≤ m := by
  refine ⟨Nat.dvd_of_mod_eq_zero (align_up_mod f hA), Nat.le_add_right _ _, ?_⟩
  intro m hm hfm
  obtain ⟨k, rfl⟩ := hm
  unfold align_up
  by_cases h : f % ALIGN = 0
  · rw [(pad_len_eq_zero_iff f hA).2 h]; exact hfm
  · rw [pad_len_of_ne f hA h]
    have hlt := Nat.mod_lt f hA
    have hdm := Nat.div_add_mod f ALIGN
    have hk : f / ALIGN < k := by
      by_contra hk
      have hk2 : k ≤ f / ALIGN := Nat.le_of_not_lt hk
      have h3 : ALIGN * k ≤ ALIGN * (f / ALIGN) := Nat.mul_le_mul_left _ hk2
      omega
    have h4 : ALIGN * (f / ALIGN + 1) ≤ ALIGN * k := Nat.mul_le_mul_left _ hk
    rw [Nat.mul_add, Nat.mul_one] at h4
    omega

/-- The raw path of `write_payload` (lines 114 to 116, 136 to 142) when the
write is complete. -/
theorem write_payload_raw {ALIGN : Nat} (sn : Snappy) (os : Sys) (w : bp__writer_t)
    (size : Nat) (data : Ptr) (h0 : size ≠ 0) (hle : size ≤ ALIGN)
    (hio : os.write_all w.tick size = true) :
    write_payload ALIGN sn os w size data =
      ⟨BP_OK,
        { w with
          file := w.file ++ data.bytes.take size
          filesize := (w.filesize + size) % UINT32_MOD
          tick := w.tick + 1 },
        some w.filesize, some size⟩ := by
  unfold write_payload
  simp [h0, hle, sys_write_all data.bytes hio]

/-- The compressed path of `write_payload` (lines 117 to 142) when the buffer is
allocated, the codec returns `SNAPPY_OK` with an output shorter than `2^32`
bytes and the write is complete. -/
theorem write_payload_compressed {ALIGN : Nat} (sn : Snappy) (os : Sys) (w : bp__writer_t)
    (size : Nat) (data : Ptr) (c : List Byte) (hgt : ALIGN < size)
    (hm : os.malloc w.tick (sn.max_compressed_length size) = true)
    (hc : sn.compress (data.bytes.take size) (sn.max_compressed_length size) = some c)
    (hc32 : c.length < UINT32_MOD)
    (hio : os.write_all (w.tick + 1) c.length = true) :
    write_payload ALIGN sn os w size data =
      ⟨BP_OK,
        { w with
          file := w.file ++ c
          filesize := (w.filesize + c.length) % UINT32_MOD
          tick := w.tick + 2 },
        some w.filesize, some c.length⟩ := by
  have h0 : size ≠ 0 := by omega
  have hle : ¬ size ≤ ALIGN := by omega
  unfold write_payload
  simp only [h0, hle, if_false, sys_malloc, hm, hc, Nat.mod_eq_of_lt hc32]
  rw [sys_write_all c hio]
  simp

theorem runs_decode_encode (p : List Byte) : runs_decode (runs_encode p) = some p := by
  cases p with
  | nil => rfl
  | cons b t =>
    by_cases h : t.all (fun x => x == b) = true ∧ t.length + 1 < 65536
    · simp only [runs_encode]
      rw [if_pos h]
      obtain ⟨hall, hlen⟩ := h
      have hrep : b :: t = List.replicate (t.length + 1) b := by
        rw [List.eq_replicate_iff]
        simp only [List.all_eq_true, beq_iff_eq] at hall
        refine ⟨rfl, ?_⟩
        intro x hx
        rcases List.mem_cons.1 hx with h1 | h1
        · exact h1
        · exact hall x h1
      have hhi : (UInt8.ofNat ((t.length + 1) / 256)).toNat = (t.length + 1) / 256 := by
        show (t.length + 1) / 256 % 256 = _
        exact Nat.mod_eq_of_lt (by omega)
      have hlo : (UInt8.ofNat ((t.length + 1) % 256)).toNat = (t.length + 1) % 256 := by
        show (t.length + 1) % 256 % 256 = _
        exact Nat.mod_eq_of_lt (Nat.mod_lt _ (by decide))
      have hsum : (t.length + 1) / 256 * 256 + (t.length + 1) % 256 = t.length + 1 :=
        Nat.div_add_mod' _ _
      simp only [runs_decode]
      rw [if_neg (by decide), if_pos trivial, hhi, hlo, hsum, ← hrep]
    · simp only [runs_encode]
      rw [if_neg h]
      simp [runs_decode]

theorem runs_encode_length_le (p : List Byte) : (runs_encode p).length ≤ p.length + 4 := by
  cases p with
  | nil => simp [runs_encode]
  | cons b t =>
    simp only [runs_encode]
    split <;> simp

/-- The codec `Snappy.runs` is lossless. -/
theorem runs_lossless : Snappy.runs.lossless := by
  intro p c h
  have hc : c = runs_encode p := by
    simp only [Snappy.runs] at h
    rw [if_pos (runs_encode_length_le p)] at h
    exact (Option.some.inj h).symm
  subst hc
  simp [Snappy.runs, runs_decode_encode]

theorem padded_filesize_of_lt {ALIGN : Nat} (w : bp__writer_t)
    (h : align_up ALIGN w.filesize < UINT32_MOD) :
    (padded ALIGN w).filesize = align_up ALIGN w.filesize := by
  have hfs : w.filesize < UINT32_MOD := Nat.lt_of_le_of_lt (Nat.le_add_right _ _) h
  rw [padded_filesize w hfs]
  exact Nat.mod_eq_of_lt h

/-- A complete raw write on a handle whose `filesize` is the length of the
file, below `2^32`: what is returned and what the handle is afterwards. -/
theorem write_record_raw {ALIGN : Nat} (sn : Snappy) (os : Sys) (w : bp__writer_t)
    (p : List Byte) (hA : 0 < ALIGN) (hA32 : ALIGN < UINT32_MOD) (hwf : w.wf ALIGN)
    (hlen : w.file.length = w.filesize) (hp : 1 ≤ p.length)
    (hpad : pad_len ALIGN w.filesize ≠ 0 →
      os.write_all w.tick (pad_len ALIGN w.filesize) = true)
    (hle : p.length ≤ ALIGN)
    (hio : os.write_all (padded ALIGN w).tick p.length = true)
    (hfit : align_up ALIGN w.filesize + p.length < UINT32_MOD) :
    (bp__writer_write ALIGN sn os w p.length (Ptr.user p)).ret = BP_OK ∧
    (bp__writer_write ALIGN sn os w p.length (Ptr.user p)).offset =
      some (align_up ALIGN w.filesize) ∧
    (bp__writer_write ALIGN sn os w p.length (Ptr.user p)).csize = some p.length ∧
    (bp__writer_write ALIGN sn os w p.length (Ptr.user p)).w.filesize =
      align_up ALIGN w.filesize + p.length ∧
    (bp__writer_write ALIGN sn os w p.length (Ptr.user p)).w.file =
      w.file ++ List.replicate (align_up ALIGN w.filesize - w.filesize) 0 ++ p ∧
    slot (bp__writer_write ALIGN sn os w p.length (Ptr.user p)).w.file
      (align_up ALIGN w.filesize) p.length = p := by
  have hsub : align_up ALIGN w.filesize - w.filesize = pad_len ALIGN w.filesize := by
    unfold align_up; omega
  have hflen : (padded ALIGN w).file.length = align_up ALIGN w.filesize := by
    rw [padded_file, List.length_append, List.length_replicate, hlen]; rfl
  have hslot : slot ((padded ALIGN w).file ++ p) (align_up ALIGN w.filesize) p.length = p := by
    unfold slot
    rw [← hflen, List.drop_left, List.take_length]
  have hfs := padded_filesize_of_lt w (Nat.lt_of_le_of_lt (Nat.le_add_right _ _) hfit)
  rw [write_eq_payload_of_padded sn os w _ _ hA hA32 hwf.2 hpad,
    write_payload_raw sn os _ _ _ (by omega) hle hio]
  simp only [Ptr.bytes, List.take_length, hfs, Nat.mod_eq_of_lt hfit, hsub]
  refine ⟨trivial, trivial, trivial, trivial, ?_, hslot⟩
  rw [padded_file]

/-- A complete compressed write on a handle whose `filesize` is the length of
the file, below `2^32`: what is returned and what the handle is afterwards. -/
theorem write_record_compressed {ALIGN : Nat} (sn : Snappy) (os : Sys) (w : bp__writer_t)
    (p c : List Byte) (hA : 0 < ALIGN) (hA32 : ALIGN < UINT32_MOD) (hwf : w.wf ALIGN)
    (hlen : w.file.length = w.filesize)
    (hpad : pad_len ALIGN w.filesize ≠ 0 →
      os.write_all w.tick (pad_len ALIGN w.filesize) = true)
    (hgt : ALIGN < p.length)
    (hm : os.malloc (padded ALIGN w).tick (sn.max_compressed_length p.length) = true)
    (hc : sn.compress p (sn.max_compressed_length p.length) = some c)
    (hio : os.write_all ((padded ALIGN w).tick + 1) c.length = true)
    (hfit : align_up ALIGN w.filesize + c.length < UINT32_MOD) :
    (bp__writer_write ALIGN sn os w p.length (Ptr.user p)).ret = BP_OK ∧
    (bp__writer_write ALIGN sn os w p.length (Ptr.user p)).offset =
      some (align_up ALIGN w.filesize) ∧
    (bp__writer_write ALIGN sn os w p.length (Ptr.user p)).csize = some c.length ∧
    (bp__writer_write ALIGN sn os w p.length (Ptr.user p)).w.filesize =
      align_up ALIGN w.filesize + c.length ∧
    (bp__writer_write ALIGN sn os w p.length (Ptr.user p)).w.file =
      w.file ++ List.replicate (align_up ALIGN w.filesize - w.filesize) 0 ++ c ∧
    slot (bp__writer_write ALIGN sn os w p.length (Ptr.user p)).w.file
      (align_up ALIGN w.filesize) c.length = c := by
  have hsub : align_up ALIGN w.filesize - w.filesize = pad_len ALIGN w.filesize := by
    unfold align_up; omega
  have hflen : (padded ALIGN w).file.length = align_up ALIGN w.filesize := by
    rw [padded_file, List.length_append, List.length_replicate, hlen]; rfl
  have hslot : slot ((padded ALIGN w).file ++ c) (align_up ALIGN w.filesize) c.length = c := by
    unfold slot
    rw [← hflen, List.drop_left, List.take_length]
  have hfs := padded_filesize_of_lt w (Nat.lt_of_le_of_lt (Nat.le_add_right _ _) hfit)
  have hc32 : c.length < UINT32_MOD := Nat.lt_of_le_of_lt (Nat.le_add_left _ _) hfit
  have hc2 : sn.compress ((Ptr.user p).bytes.take p.length)
      (sn.max_compressed_length p.length) = some c := by
    simpa [Ptr.bytes] using hc
  rw [write_eq_payload_of_padded sn os w _ _ hA hA32 hwf.2 hpad,
    write_payload_compressed sn os _ _ _ c hgt hm hc2 hc32 hio]
  simp only [hfs, Nat.mod_eq_of_lt hfit, hsub]
  refine ⟨trivial, trivial, trivial, trivial, ?_, hslot⟩
  rw [padded_file]

/-- C8, counterexample.  `ALIGN = 4`, a file of 4294967294 bytes, all tracked,
every call of the environment succeeding: the write of the two bytes `[1, 2]`
returns `BP_OK` with `offset = 0` and leaves `filesize = 2`, whereas the least
multiple of `ALIGN` that is at least the old `filesize` is `4294967296`, where
the record was appended. -/
theorem write_offset_wraps :
    w_full.file.length = w_full.filesize ∧
    align_up 4 w_full.filesize = 4294967296 ∧
    (bp__writer_write 4 Snappy.runs Sys.reliable w_full 2 (Ptr.user [1, 2])).ret = BP_OK ∧
    (bp__writer_write 4 Snappy.runs Sys.reliable w_full 2 (Ptr.user [1, 2])).offset = some 0 ∧
    (bp__writer_write 4 Snappy.runs Sys.reliable w_full 2 (Ptr.user [1, 2])).csize = some 2 ∧
    (bp__writer_write 4 Snappy.runs Sys.reliable w_full 2 (Ptr.user [1, 2])).w.filesize = 2 ∧
    (bp__writer_write 4 Snappy.runs Sys.reliable w_full 2 (Ptr.user [1, 2])).w.file =
      w_full.file ++ [0, 0] ++ [1, 2] := by
  obtain ⟨hfs, hfile, htick⟩ := w_full_padded
  rw [write_eq_payload_of_padded Snappy.runs Sys.reliable w_full 2 (Ptr.user [1, 2])
      (by decide) (by decide) rfl (fun _ => rfl),
    write_payload_raw Snappy.runs Sys.reliable (padded 4 w_full) 2 (Ptr.user [1, 2])
      (by decide) (by decide) rfl]
  refine ⟨List.length_replicate _ _, by decide, rfl, ?_, rfl, ?_, ?_⟩
  · show some (padded 4 w_full).filesize = some 0
    rw [hfs]
  · show ((padded 4 w_full).filesize + 2) % UINT32_MOD = 2
    rw [hfs]; decide
  · show (padded 4 w_full).file ++ _ = _
    rw [hfile]; rfl

/-- C8, amended. Postcondition of a successful non-empty `bp__writer_write` on a
handle whose tracked `filesize` is the length of the file, when the new end of
the file (`offset + csize`) is below `2^32`.  Raw path (`1 ≤ size ≤ ALIGN`, writes complete) and
compressed path (`size > ALIGN`, buffer allocated, codec returns `c`, writes
complete): the call returns `BP_OK`, `offset` is the least multiple of `ALIGN`
that is at least the old `filesize`, `csize` is `size`, respectively the length
of `c`, the new `filesize` is `offset + csize`, the file is the old file, then
`offset - filesize` zero bytes, then the payload, respectively `c`, and these
bytes are the bytes `[offset, offset + csize)` of the file.  When the old
`filesize` is a multiple of `ALIGN` (on a fresh file: `0`), `offset` is the old
`filesize`. -/
theorem write_postcondition (ALIGN : Nat) (sn : Snappy) (os : Sys) (w : bp__writer_t)
    (p : List Byte) (hA : 0 < ALIGN) (hA32 : ALIGN < UINT32_MOD) (hwf : w.wf ALIGN)
    (hlen : w.file.length = w.filesize) (hp : 1 ≤ p.length)
    (hpad : pad_len ALIGN w.filesize ≠ 0 →
      os.write_all w.tick (pad_len ALIGN w.filesize) = true) :
    (ALIGN ∣ align_up ALIGN w.filesize ∧ w.filesize ≤ align_up ALIGN w.filesize ∧
      ∀ m, ALIGN ∣ m → w.filesize ≤ m → align_up ALIGN w.filesize ≤ m) ∧
    (w.filesize % ALIGN = 0 → align_up ALIGN w.filesize = w.filesize) ∧
    (p.length ≤ ALIGN →
      os.write_all (padded ALIGN w).tick p.length = true →
      align_up ALIGN w.filesize + p.length < UINT32_MOD →
      (bp__writer_write ALIGN sn os w p.length (Ptr.user p)).ret = BP_OK ∧
      (bp__writer_write ALIGN sn os w p.length (Ptr.user p)).offset =
        some (align_up ALIGN w.filesize) ∧
      (bp__writer_write ALIGN sn os w p.length (Ptr.user p)).csize = some p.length ∧
      (bp__writer_write ALIGN sn os w p.length (Ptr.user p)).w.filesize =
        align_up ALIGN w.filesize + p.length ∧
      (bp__writer_write ALIGN sn os w p.length (Ptr.user p)).w.file =
        w.file ++ List.replicate (align_up ALIGN w.filesize - w.filesize) 0 ++ p ∧
      slot (bp__writer_write ALIGN sn os w p.length (Ptr.user p)).w.file
        (align_up ALIGN w.filesize) p.length = p) ∧
    (∀ c : List Byte, ALIGN < p.length →
      os.malloc (padded ALIGN w).tick (sn.max_compressed_length p.length) = true →
      sn.compress p (sn.max_compressed_length p.length) = some c →
      os.write_all ((padded ALIGN w).tick + 1) c.length = true →
      align_up ALIGN w.filesize + c.length < UINT32_MOD →
      (bp__writer_write ALIGN sn os w p.length (Ptr.user p)).ret = BP_OK ∧
      (bp__writer_write ALIGN sn os w p.length (Ptr.user p)).offset =
        some (align_up ALIGN w.filesize) ∧
      (bp__writer_write ALIGN sn os w p.length (Ptr.user p)).csize = some c.length ∧
      (bp__writer_write ALIGN sn os w p.length (Ptr.user p)).w.filesize =
        align_up ALIGN w.filesize + c.length ∧
      (bp__writer_write ALIGN sn os w p.length (Ptr.user p)).w.file =
        w.file ++ List.replicate (align_up ALIGN w.filesize - w.filesize) 0 ++ c ∧
      slot (bp__writer_write ALIGN sn os w p.length (Ptr.user p)).w.file
        (align_up ALIGN w.filesize) c.length = c) := by
  refine ⟨align_up_least w.filesize hA, ?_, ?_, ?_⟩
  · intro h0
    unfold align_up
    rw [(pad_len_eq_zero_iff w.filesize hA).2 h0, Nat.add_zero]
  · intro hle hio hfit
    exact write_record_raw sn os w p hA hA32 hwf hlen hp hpad hle hio hfit
  · intro c hgt hm hc hio hfit
    exact write_record_compressed sn os w p c hA hA32 hwf hlen hpad hgt hm hc hio hfit

/-- Witness of C8 as amended, `ALIGN = 4`, five tracked bytes: the payload
`[1, 2]` is stored raw at offset 8, and eight bytes `120` are stored as the four
bytes the codec makes of them, at offset 8. -/
theorem write_postcondition_witness :
    ((bp__writer_write 4 Snappy.runs Sys.reliable w_five 2 (Ptr.user [1, 2])).offset = some 8 ∧
      (bp__writer_write 4 Snappy.runs Sys.reliable w_five 2 (Ptr.user [1, 2])).w.file =
        [7, 7, 7, 7, 7, 0, 0, 0, 1, 2]) ∧
    ((bp__writer_write 4 Snappy.runs Sys.reliable w_five 8
        (Ptr.user [120, 120, 120, 120, 120, 120, 120, 120])).csize = some 4 ∧
      (bp__writer_write 4 Snappy.runs Sys.reliable w_five 8
        (Ptr.user [120, 120, 120, 120, 120, 120, 120, 120])).w.file =
        [7, 7, 7, 7, 7, 0, 0, 0, 1, 120, 0, 8]) := by
  have h1 := (write_postcondition 4 Snappy.runs Sys.reliable w_five [1, 2]
    (by decide) (by decide) ⟨by decide, rfl⟩ rfl (by decide) (fun _ => by decide)).2.2.1
    (by decide) (by decide) (by decide)
  have h2 := (write_postcondition 4 Snappy.runs Sys.reliable w_five
    [120, 120, 120, 120, 120, 120, 120, 120]
    (by decide) (by decide) ⟨by decide, rfl⟩ rfl (by decide) (fun _ => by decide)).2.2.2
    [1, 120, 0, 8] (by decide) (by decide) (by decide) (by decide) (by decide)
  exact ⟨⟨h1.2.1, h1.2.2.2.2.1⟩, ⟨h2.2.2.1, h2.2.2.2.2.1⟩⟩

theorem sys_write_filesize (os : Sys) (w : bp__writer_t) (buf : List Byte) (count : Nat) :
    (sys_write os w buf count).2.filesize = w.filesize := by
  unfold sys_write
  split <;> rfl

/-- C9, amended. Bookkeeping of `filesize` when `bp__writer_write` fails.
(a) The padding write is short or fails: `BP_EFILEWRITE`, `filesize` as before
the call, nothing stored through `offset` and `csize`.
(b) Padding complete, the payload write returns a count different from `csize`
(raw path: different from `size`; compressed path: different from the
`uint32_t` length of the compressed bytes): `BP_EFILEWRITE`, nothing stored
through `offset`, and `filesize` is the old one plus the padding modulo `2^32`:
the old one plus the padding only, when that sum is below `2^32`.
(c) Padding complete, buffer allocated, the codec fails: `BP_ESNAPPYC`, and
`filesize` is the old one plus the padding modulo `2^32`: the old one plus the
padding only, when that sum is below `2^32`. -/
theorem failed_write_filesize (ALIGN : Nat) (sn : Snappy) (os : Sys) (w : bp__writer_t)
    (size : Nat) (data : Ptr) (hA : 0 < ALIGN) (hA32 : ALIGN < UINT32_MOD)
    (hwf : w.wf ALIGN) :
    (pad_len ALIGN w.filesize ≠ 0 →
      os.write_all w.tick (pad_len ALIGN w.filesize) = false →
      (bp__writer_write ALIGN sn os w size data).ret = BP_EFILEWRITE ∧
      (bp__writer_write ALIGN sn os w size data).w.filesize = w.filesize ∧
      (bp__writer_write ALIGN sn os w size data).offset = none ∧
      (bp__writer_write ALIGN sn os w size data).csize = none) ∧
    ((pad_len ALIGN w.filesize ≠ 0 →
        os.write_all w.tick (pad_len ALIGN w.filesize) = true) →
      1 ≤ size → size ≤ ALIGN →
      (sys_write os (padded ALIGN w) data.bytes size).1 ≠ (size : Int) →
      (bp__writer_write ALIGN sn os w size data).ret = BP_EFILEWRITE ∧
      (bp__writer_write ALIGN sn os w size data).w.filesize =
        (w.filesize + pad_len ALIGN w.filesize) % UINT32_MOD ∧
      (w.filesize + pad_len ALIGN w.filesize < UINT32_MOD →
        (bp__writer_write ALIGN sn os w size data).w.filesize =
          w.filesize + pad_len ALIGN w.filesize) ∧
      (bp__writer_write ALIGN sn os w size data).offset = none) ∧
    (∀ c : List Byte,
      (pad_len ALIGN w.filesize ≠ 0 →
        os.write_all w.tick (pad_len ALIGN w.filesize) = true) →
      ALIGN < size →
      os.malloc (padded ALIGN w).tick (sn.max_compressed_length size) = true →
      sn.compress (data.bytes.take size) (sn.max_compressed_length size) = some c →
      (sys_write os (sys_malloc os (padded ALIGN w) (sn.max_compressed_length size)).2
        c c.length).1 ≠ ((c.length % UINT32_MOD : Nat) : Int) →
      (bp__writer_write ALIGN sn os w size data).ret = BP_EFILEWRITE ∧
      (bp__writer_write ALIGN sn os w size data).w.filesize =
        (w.filesize + pad_len ALIGN w.filesize) % UINT32_MOD ∧
      (w.filesize + pad_len ALIGN w.filesize < UINT32_MOD →
        (bp__writer_write ALIGN sn os w size data).w.filesize =
          w.filesize + pad_len ALIGN w.filesize) ∧
      (bp__writer_write ALIGN sn os w size data).offset = none) ∧
    ((pad_len ALIGN w.filesize ≠ 0 →
        os.write_all w.tick (pad_len ALIGN w.filesize) = true) →
      ALIGN < size →
      os.malloc (padded ALIGN w).tick (sn.max_compressed_length size) = true →
      sn.compress (data.bytes.take size) (sn.max_compressed_length size) = none →
      (bp__writer_write ALIGN sn os w size data).ret = BP_ESNAPPYC ∧
      (bp__writer_write ALIGN sn os w size data).w.filesize =
        (w.filesize + pad_len ALIGN w.filesize) % UINT32_MOD ∧
      (w.filesize + pad_len ALIGN w.filesize < UINT32_MOD →
        (bp__writer_write ALIGN sn os w size data).w.filesize =
          w.filesize + pad_len ALIGN w.filesize)) := by
  have hfs := @padded_filesize ALIGN w hwf.1
  refine ⟨?_, ?_, ?_, ?_⟩
  · intro hp hio
    rw [write_of_pad_short sn os w size data hA hA32 hp hio]
    exact ⟨rfl, sys_write_filesize _ _ _ _, rfl, rfl⟩
  · intro hpad h1 hle hshort
    rw [write_eq_payload_of_padded sn os w size data hA hA32 hwf.2 hpad]
    unfold write_payload
    rw [if_neg (by omega), if_pos hle]
    simp only [hshort, ne_eq, not_false_eq_true, if_true]
    have h2 : (sys_write os (padded ALIGN w) data.bytes size).2.filesize =
        (w.filesize + pad_len ALIGN w.filesize) % UINT32_MOD := by
      rw [sys_write_filesize, hfs]
    exact ⟨trivial, h2, fun hlt => by rw [h2, Nat.mod_eq_of_lt hlt], trivial⟩
  · intro c hpad hgt hm hc hshort
    rw [write_eq_payload_of_padded sn os w size data hA hA32 hwf.2 hpad]
    unfold write_payload
    rw [if_neg (by omega), if_neg (by omega)]
    have hm2 : (sys_malloc os (padded ALIGN w) (sn.max_compressed_length size)).1 = true := hm
    simp only [hm2, hc, hshort, ne_eq, not_false_eq_true, if_true, Bool.true_eq_false, if_false]
    have h2 : (sys_write os (sys_malloc os (padded ALIGN w) (sn.max_compressed_length size)).2
        c c.length).2.filesize = (w.filesize + pad_len ALIGN w.filesize) % UINT32_MOD := by
      rw [sys_write_filesize]; exact hfs
    exact ⟨trivial, h2, fun hlt => by rw [h2, Nat.mod_eq_of_lt hlt], trivial⟩
  · intro hpad hgt hm hc
    rw [write_eq_payload_of_padded sn os w size data hA hA32 hwf.2 hpad]
    unfold write_payload
    rw [if_neg (by omega), if_neg (by omega)]
    have hm2 : (sys_malloc os (padded ALIGN w) (sn.max_compressed_length size)).1 = true := hm
    simp only [hm2, hc, Bool.true_eq_false, if_false]
    have h2 : (sys_malloc os (padded ALIGN w) (sn.max_compressed_length size)).2.filesize =
        (w.filesize + pad_len ALIGN w.filesize) % UINT32_MOD := hfs
    exact ⟨trivial, h2, fun hlt => by rw [h2, Nat.mod_eq_of_lt hlt]⟩

/-- Witness of C9 as amended, `ALIGN = 4`, five tracked bytes (three bytes of
padding are due): a short padding write leaves `filesize = 5`; a short payload
write, raw or compressed, and a failing codec leave `filesize = 8`. -/
theorem failed_write_filesize_witness :
    ((bp__writer_write 4 Snappy.runs (Sys.short_at 0 1) w_five 2 (Ptr.user [1, 2])).ret =
        BP_EFILEWRITE ∧
      (bp__writer_write 4 Snappy.runs (Sys.short_at 0 1) w_five 2 (Ptr.user [1, 2])).w.filesize
        = 5) ∧
    ((bp__writer_write 4 Snappy.runs (Sys.short_at 1 1) w_five 2 (Ptr.user [1, 2])).ret =
        BP_EFILEWRITE ∧
      (bp__writer_write 4 Snappy.runs (Sys.short_at 1 1) w_five 2 (Ptr.user [1, 2])).w.filesize
        = w_five.filesize + pad_len 4 w_five.filesize) ∧
    ((bp__writer_write 4 Snappy.runs (Sys.short_at 2 3) w_five 8
        (Ptr.user [120, 120, 120, 120, 120, 120, 120, 120])).ret = BP_EFILEWRITE ∧
      (bp__writer_write 4 Snappy.runs (Sys.short_at 2 3) w_five 8
        (Ptr.user [120, 120, 120, 120, 120, 120, 120, 120])).w.filesize =
        w_five.filesize + pad_len 4 w_five.filesize) ∧
    ((bp__writer_write 4 Snappy.failing Sys.reliable w_five 8
        (Ptr.user [120, 120, 120, 120, 120, 120, 120, 120])).ret = BP_ESNAPPYC ∧
      (bp__writer_write 4 Snappy.failing Sys.reliable w_five 8
        (Ptr.user [120, 120, 120, 120, 120, 120, 120, 120])).w.filesize =
        w_five.filesize + pad_len 4 w_five.filesize) ∧
    w_five.filesize + pad_len 4 w_five.filesize = 8 := by
  have ha := (failed_write_filesize 4 Snappy.runs (Sys.short_at 0 1) w_five 2 (Ptr.user [1, 2])
    (by decide) (by decide) ⟨by decide, rfl⟩).1 (by decide) (by decide)
  have hb := (failed_write_filesize 4 Snappy.runs (Sys.short_at 1 1) w_five 2 (Ptr.user [1, 2])
    (by decide) (by decide) ⟨by decide, rfl⟩).2.1 (fun _ => by decide) (by decide) (by decide)
    (by decide)
  have hb2 := (failed_write_filesize 4 Snappy.runs (Sys.short_at 2 3) w_five 8
    (Ptr.user [120, 120, 120, 120, 120, 120, 120, 120])
    (by decide) (by decide) ⟨by decide, rfl⟩).2.2.1 [1, 120, 0, 8] (fun _ => by decide)
    (by decide) (by decide) (by decide) (by decide)
  have hc := (failed_write_filesize 4 Snappy.failing Sys.reliable w_five 8
    (Ptr.user [120, 120, 120, 120, 120, 120, 120, 120])
    (by decide) (by decide) ⟨by decide, rfl⟩).2.2.2 (fun _ => by decide)
    (by decide) (by decide) (by decide)
  exact ⟨⟨ha.1, ha.2.1⟩, ⟨hb.1, hb.2.2.1 (by decide)⟩, ⟨hb2.1, hb2.2.2.1 (by decide)⟩,
    ⟨hc.1, hc.2.2 (by decide)⟩, by decide⟩

/-- C9, counterexample.  `ALIGN = 4`, a file of 4294967294 bytes, all tracked;
the padding write is complete and the payload write of two bytes writes one
byte only: `bp__writer_write` returns `BP_EFILEWRITE` and `filesize` is `0`
afterwards, not the old `filesize` plus the two bytes of padding. -/
theorem failed_write_wraps :
    pad_len 4 w_full.filesize = 2 ∧
    (bp__writer_write 4 Snappy.runs (Sys.short_at 1 1) w_full 2 (Ptr.user [1, 2])).ret =
      BP_EFILEWRITE ∧
    (bp__writer_write 4 Snappy.runs (Sys.short_at 1 1) w_full 2 (Ptr.user [1, 2])).w.filesize
      = 0 ∧
    (bp__writer_write 4 Snappy.runs (Sys.short_at 1 1) w_full 2 (Ptr.user [1, 2])).w.filesize
      ≠ w_full.filesize + 2 := by
  obtain ⟨hfs, -, htick⟩ := w_full_padded
  have hio : (Sys.short_at 1 1).write_all (padded 4 w_full).tick 2 = false := by
    rw [htick]; rfl
  have hshort := (@sys_write_short (Sys.short_at 1 1) (padded 4 w_full) 2 [1, 2] hio).1
  have hw : bp__writer_write 4 Snappy.runs (Sys.short_at 1 1) w_full 2 (Ptr.user [1, 2]) =
      ⟨BP_EFILEWRITE, (sys_write (Sys.short_at 1 1) (padded 4 w_full) [1, 2] 2).2, none,
        some 2⟩ := by
    rw [write_eq_payload_of_padded Snappy.runs (Sys.short_at 1 1) w_full 2 (Ptr.user [1, 2])
      (by decide) (by decide) rfl (fun _ => rfl)]
    unfold write_payload
    rw [if_neg (by decide), if_pos (by decide)]
    simp only [Ptr.bytes, hshort, ne_eq, not_false_eq_true, if_true]
  rw [hw]
  refine ⟨by decide, rfl, ?_, ?_⟩
  · show (sys_write _ _ _ _).2.filesize = 0
    rw [sys_write_filesize, hfs]
  · show (sys_write _ _ _ _).2.filesize ≠ _
    rw [sys_write_filesize, hfs]
    decide

theorem sys_pread_all {os : Sys} {w : bp__writer_t} {count offset : Nat}
    (h : os.pread_all w.tick count = true) (hin : offset + count ≤ w.file.length) :
    sys_pread os w count offset =
      ((count : Int), slot w.file offset count, { w with tick := w.tick + 1 }) := by
  unfold Sys.pread_all at h
  unfold sys_pread slot
  cases hr : os.pread w.tick count with
  | none => rw [hr] at h; simp at h
  | some n =>
    rw [hr] at h
    have hn : count ≤ n := by simpa using h
    have hl : ((w.file.drop offset).take count).length = count := by
      rw [List.length_take, List.length_drop]; omega
    have ht : ((w.file.drop offset).take count).take n = (w.file.drop offset).take count := by
      rw [List.take_take, Nat.min_eq_right hn]
    simp only [ht, hl]

/-- The raw path of `bp__writer_read` (lines 45 to 61) when the request passes
the bounds check, lies inside the file, the buffer is allocated and the read is
complete. -/
theorem read_raw {ALIGN : Nat} (sn : Snappy) (os : Sys) (w : bp__writer_t)
    (offset size : Nat) (data : Ptr) (h0 : size ≠ 0) (hle : size ≤ ALIGN)
    (hb : (offset + size) % UINT32_MOD ≤ w.filesize)
    (hin : offset + size ≤ w.file.length)
    (hm : os.malloc w.tick size = true)
    (hio : os.pread_all (w.tick + 1) size = true) :
    bp__writer_read ALIGN sn os w offset size data =
      ⟨BP_OK, size, Ptr.heap (slot w.file offset size), { w with tick := w.tick + 2 }⟩ := by
  unfold bp__writer_read
  rw [if_neg (by omega), if_neg h0]
  have hp : sys_pread os (sys_malloc os w size).2 size offset =
      ((size : Int), slot w.file offset size, { w with tick := w.tick + 2 }) := by
    have := @sys_pread_all os (sys_malloc os w size).2 size offset hio hin
    rw [this]; rfl
  have hm2 : (sys_malloc os w size).1 = true := hm
  simp only [hm2, hp, Bool.true_eq_false, if_false, ne_eq, not_true_eq_false, hle, if_true]

/-- C2. The bounds check of `bp__writer_read` adds `offset` and `*size` in
`uint32_t`: on an empty file, `offset = 4294967295` and `size = 1` have the sum
`4294967296 > filesize = 0`, yet the call is not rejected with
`BP_EFILEREAD_OOB`: it allocates, calls `pread` (two calls made) and returns
`BP_EFILEREAD`. -/
theorem read_bounds_check_wraps :
    (fresh 1024).filesize < 4294967295 + 1 ∧
    (bp__writer_read 1024 Snappy.runs Sys.reliable (fresh 1024) 4294967295 1 Ptr.null).ret =
      BP_EFILEREAD ∧
    (bp__writer_read 1024 Snappy.runs Sys.reliable (fresh 1024) 4294967295 1 Ptr.null).ret ≠
      BP_EFILEREAD_OOB ∧
    (bp__writer_read 1024 Snappy.runs Sys.reliable (fresh 1024) 4294967295 1 Ptr.null).w.tick =
      (fresh 1024).tick + 2 := by
  decide

/-- Where the sum does not wrap, an out-of-bounds request is rejected on line 45:
`BP_EFILEREAD_OOB`, no call made, `*size` and `*data` as they were. -/
theorem read_oob_of_no_wrap (ALIGN : Nat) (sn : Snappy) (os : Sys) (w : bp__writer_t)
    (offset size : Nat) (data : Ptr) (hsum : offset + size < UINT32_MOD)
    (hoob : w.filesize < offset + size) :
    bp__writer_read ALIGN sn os w offset size data = ⟨BP_EFILEREAD_OOB, size, data, w⟩ := by
  unfold bp__writer_read
  rw [Nat.mod_eq_of_lt hsum, if_pos hoob]

/-- The request is rejected as out of bounds exactly when `filesize` is below the
`uint32_t` sum of `offset` and `*size`. -/
theorem read_oob_iff (ALIGN : Nat) (sn : Snappy) (os : Sys) (w : bp__writer_t)
    (offset size : Nat) (data : Ptr) :
    (bp__writer_read ALIGN sn os w offset size data).ret = BP_EFILEREAD_OOB ↔
      w.filesize < (offset + size) % UINT32_MOD := by
  constructor
  · intro h
    by_contra hn
    unfold bp__writer_read at h
    rw [if_neg hn] at h
    dsimp only at h
    repeat' split at h
    all_goals simp [BP_OK, BP_EFILEREAD_OOB, BP_EALLOC, BP_EFILEREAD, BP_ESNAPPYD] at h
  · intro h
    unfold bp__writer_read
    rw [if_pos h]

/-- The decompressing path of `bp__writer_read` (lines 62 to 81) when the request
passes the bounds check, lies inside the file, both buffers are allocated, the
read is complete and the codec returns `SNAPPY_OK` twice. -/
theorem read_compressed {ALIGN : Nat} (sn : Snappy) (os : Sys) (w : bp__writer_t)
    (offset size : Nat) (data : Ptr) (usize : Nat) (u : List Byte) (hgt : ALIGN < size)
    (hb : (offset + size) % UINT32_MOD ≤ w.filesize)
    (hin : offset + size ≤ w.file.length)
    (hm : os.malloc w.tick size = true)
    (hio : os.pread_all (w.tick + 1) size = true)
    (hul : sn.uncompressed_length (slot w.file offset size) = some usize)
    (hm2 : os.malloc (w.tick + 2) usize = true)
    (hun : sn.uncompress (slot w.file offset size) usize = some u) :
    bp__writer_read ALIGN sn os w offset size data =
      ⟨BP_OK, u.length % UINT32_MOD, Ptr.heap u, { w with tick := w.tick + 3 }⟩ := by
  unfold bp__writer_read
  rw [if_neg (by omega), if_neg (by omega)]
  have hp : sys_pread os (sys_malloc os w size).2 size offset =
      ((size : Int), slot w.file offset size, { w with tick := w.tick + 2 }) := by
    have := @sys_pread_all os (sys_malloc os w size).2 size offset hio hin
    rw [this]; rfl
  have hm1 : (sys_malloc os w size).1 = true := hm
  have hle : ¬ size ≤ ALIGN := by omega
  simp only [hm1, hp, Bool.true_eq_false, if_false, ne_eq, not_true_eq_false, hle, hul]
  have hm3 : (sys_malloc os { w with tick := w.tick + 2 } usize).1 = true := hm2
  simp only [hm3, Bool.true_eq_false, if_false, hun]
  rfl

/-- Where the round trip holds.  On a handle whose `filesize` is the length of
the file, with every write, read and allocation succeeding and the end of the
file below `2^32`: a payload of at most `ALIGN` bytes is read back as it was
written; a longer payload is read back as it was written when the codec is
lossless and its compressed length exceeds `ALIGN`. -/
theorem round_trip_where_sizes_agree (ALIGN : Nat) (sn : Snappy) (os : Sys)
    (w : bp__writer_t) (p : List Byte) (data : Ptr)
    (hA : 0 < ALIGN) (hA32 : ALIGN < UINT32_MOD) (hwf : w.wf ALIGN)
    (hlen : w.file.length = w.filesize) (hp : 1 ≤ p.length)
    (hw : ∀ t n, os.write_all t n = true) (hr : ∀ t n, os.pread_all t n = true)
    (hm : ∀ t n, os.malloc t n = true) :
    (p.length ≤ ALIGN → align_up ALIGN w.filesize + p.length < UINT32_MOD →
      (bp__writer_write ALIGN sn os w p.length (Ptr.user p)).ret = BP_OK ∧
      (bp__writer_write ALIGN sn os w p.length (Ptr.user p)).offset =
        some (align_up ALIGN w.filesize) ∧
      (bp__writer_write ALIGN sn os w p.length (Ptr.user p)).csize = some p.length ∧
      (bp__writer_read ALIGN sn os (bp__writer_write ALIGN sn os w p.length (Ptr.user p)).w
        (align_up ALIGN w.filesize) p.length data).ret = BP_OK ∧
      (bp__writer_read ALIGN sn os (bp__writer_write ALIGN sn os w p.length (Ptr.user p)).w
        (align_up ALIGN w.filesize) p.length data).size = p.length ∧
      (bp__writer_read ALIGN sn os (bp__writer_write ALIGN sn os w p.length (Ptr.user p)).w
        (align_up ALIGN w.filesize) p.length data).data = Ptr.heap p) ∧
    (∀ c : List Byte, ALIGN < p.length → p.length < UINT32_MOD → sn.lossless →
      sn.compress p (sn.max_compressed_length p.length) = some c →
      ALIGN < c.length → align_up ALIGN w.filesize + c.length < UINT32_MOD →
      (bp__writer_write ALIGN sn os w p.length (Ptr.user p)).ret = BP_OK ∧
      (bp__writer_write ALIGN sn os w p.length (Ptr.user p)).offset =
        some (align_up ALIGN w.filesize) ∧
      (bp__writer_write ALIGN sn os w p.length (Ptr.user p)).csize = some c.length ∧
      (bp__writer_read ALIGN sn os (bp__writer_write ALIGN sn os w p.length (Ptr.user p)).w
        (align_up ALIGN w.filesize) c.length data).ret = BP_OK ∧
      (bp__writer_read ALIGN sn os (bp__writer_write ALIGN sn os w p.length (Ptr.user p)).w
        (align_up ALIGN w.filesize) c.length data).size = p.length ∧
      (bp__writer_read ALIGN sn os (bp__writer_write ALIGN sn os w p.length (Ptr.user p)).w
        (align_up ALIGN w.filesize) c.length data).data = Ptr.heap p) := by
  have hge := (align_up_least w.filesize hA).2.1
  constructor
  · intro hle hfit
    obtain ⟨hret, hoff, hcs, hfs, hfile, hslot⟩ := write_record_raw sn os w p hA hA32 hwf hlen
      hp (fun _ => hw _ _) hle (hw _ _) hfit
    have hflen : (bp__writer_write ALIGN sn os w p.length (Ptr.user p)).w.file.length =
        align_up ALIGN w.filesize + p.length := by
      rw [hfile]; simp only [List.length_append, List.length_replicate]; omega
    have hrd := @read_raw ALIGN sn os (bp__writer_write ALIGN sn os w p.length (Ptr.user p)).w
      (align_up ALIGN w.filesize) p.length data (by omega) hle
      (by rw [Nat.mod_eq_of_lt hfit, hfs]) (by rw [hflen]) (hm _ _) (hr _ _)
    rw [hrd, hslot]
    exact ⟨hret, hoff, hcs, rfl, rfl, rfl⟩
  · intro c hgt hp32 hll hc hcgt hfit
    obtain ⟨hret, hoff, hcs, hfs, hfile, hslot⟩ := write_record_compressed sn os w p c hA hA32
      hwf hlen (fun _ => hw _ _) hgt (hm _ _) hc (hw _ _) hfit
    have hflen : (bp__writer_write ALIGN sn os w p.length (Ptr.user p)).w.file.length =
        align_up ALIGN w.filesize + c.length := by
      rw [hfile]; simp only [List.length_append, List.length_replicate]; omega
    obtain ⟨hul, hun⟩ := hll p c hc
    have hrd := @read_compressed ALIGN sn os
      (bp__writer_write ALIGN sn os w p.length (Ptr.user p)).w
      (align_up ALIGN w.filesize) c.length data p.length p hcgt
      (by rw [Nat.mod_eq_of_lt hfit, hfs]) (by rw [hflen]) (hm _ _) (hr _ _)
      (by rw [hslot]; exact hul) (hm _ _) (by rw [hslot]; exact hun)
    rw [hrd]
    exact ⟨hret, hoff, hcs, rfl, Nat.mod_eq_of_lt hp32, rfl⟩

/-- C1. Reading back a compressed record whose compressed length is at most
`ALIGN`.  Let `p` be longer than `ALIGN`, let the codec compress it to `c` with
`1 ≤ length c ≤ ALIGN`, and let every write, read and allocation succeed.  Then
`bp__writer_write` succeeds with `(offset, csize) = (align_up filesize, length c)`
and `bp__writer_read (offset, csize)` succeeds, but takes the branch for
uncompressed chunks: it yields the compressed bytes `c` and `*size = length c`,
which is not the length of `p`, and the bytes are not `p`. -/
theorem read_after_compressed_write_small (ALIGN : Nat) (sn : Snappy) (os : Sys)
    (w : bp__writer_t) (p c : List Byte) (data : Ptr)
    (hA : 0 < ALIGN) (hA32 : ALIGN < UINT32_MOD) (hwf : w.wf ALIGN)
    (hlen : w.file.length = w.filesize) (hgt : ALIGN < p.length)
    (hpad : pad_len ALIGN w.filesize ≠ 0 →
      os.write_all w.tick (pad_len ALIGN w.filesize) = true)
    (hm : os.malloc (padded ALIGN w).tick (sn.max_compressed_length p.length) = true)
    (hc : sn.compress p (sn.max_compressed_length p.length) = some c)
    (hio : os.write_all ((padded ALIGN w).tick + 1) c.length = true)
    (hfit : align_up ALIGN w.filesize + c.length < UINT32_MOD)
    (hc1 : 1 ≤ c.length) (hcle : c.length ≤ ALIGN)
    (hm2 : os.malloc (bp__writer_write ALIGN sn os w p.length (Ptr.user p)).w.tick c.length
      = true)
    (hrd : os.pread_all ((bp__writer_write ALIGN sn os w p.length (Ptr.user p)).w.tick + 1)
      c.length = true) :
    (bp__writer_write ALIGN sn os w p.length (Ptr.user p)).ret = BP_OK ∧
    (bp__writer_write ALIGN sn os w p.length (Ptr.user p)).offset =
      some (align_up ALIGN w.filesize) ∧
    (bp__writer_write ALIGN sn os w p.length (Ptr.user p)).csize = some c.length ∧
    (bp__writer_read ALIGN sn os (bp__writer_write ALIGN sn os w p.length (Ptr.user p)).w
      (align_up ALIGN w.filesize) c.length data).ret = BP_OK ∧
    (bp__writer_read ALIGN sn os (bp__writer_write ALIGN sn os w p.length (Ptr.user p)).w
      (align_up ALIGN w.filesize) c.length data).size = c.length ∧
    (bp__writer_read ALIGN sn os (bp__writer_write ALIGN sn os w p.length (Ptr.user p)).w
      (align_up ALIGN w.filesize) c.length data).data = Ptr.heap c ∧
    (bp__writer_read ALIGN sn os (bp__writer_write ALIGN sn os w p.length (Ptr.user p)).w
      (align_up ALIGN w.filesize) c.length data).size ≠ p.length ∧
    (bp__writer_read ALIGN sn os (bp__writer_write ALIGN sn os w p.length (Ptr.user p)).w
      (align_up ALIGN w.filesize) c.length data).data ≠ Ptr.heap p := by
  have hw := write_record_compressed sn os w p c hA hA32 hwf hlen hpad hgt hm hc hio hfit
  obtain ⟨hret, hoff, hcs, hfs, hfile, hslot⟩ := hw
  have hle := (align_up_least w.filesize hA).2.1
  have hflen : (bp__writer_write ALIGN sn os w p.length (Ptr.user p)).w.file.length =
      align_up ALIGN w.filesize + c.length := by
    rw [hfile]; simp only [List.length_append, List.length_replicate]; omega
  have hr := @read_raw ALIGN sn os
    (bp__writer_write ALIGN sn os w p.length (Ptr.user p)).w
    (align_up ALIGN w.filesize) c.length data (by omega) hcle
    (by rw [Nat.mod_eq_of_lt hfit, hfs]) (by rw [hflen]) hm2 hrd
  rw [hr, hslot]
  refine ⟨hret, hoff, hcs, rfl, rfl, rfl, ?_, ?_⟩
  · show c.length ≠ p.length
    omega
  · intro h
    have : c = p := by injection h
    rw [this] at hcle
    omega

theorem runs_encode_replicate (b : Byte) (n : Nat) (h : n + 1 < 65536) :
    runs_encode (List.replicate (n + 1) b) =
      [1, b, UInt8.ofNat ((n + 1) / 256), UInt8.ofNat ((n + 1) % 256)] := by
  rw [List.replicate_succ]
  simp only [runs_encode, List.length_replicate]
  rw [if_pos]
  refine ⟨?_, h⟩
  rw [List.all_eq_true]
  intro x hx
  rw [List.eq_of_mem_replicate hx]
  exact beq_self_eq_true b

theorem runs_compress_xs_2000 :
    Snappy.runs.compress xs_2000 (Snappy.runs.max_compressed_length xs_2000.length) =
      some [1, 120, 7, 208] := by
  have he : runs_encode xs_2000 = [1, 120, 7, 208] :=
    runs_encode_replicate 120 1999 (by decide)
  have hl : xs_2000.length = 2000 := List.length_replicate _ _
  simp only [Snappy.runs, he, hl]
  decide

/-- Instance of C1 with the scenario of the spec: `ALIGN = 1024`, a fresh file,
the payload of 2000 bytes `x`, a lossless codec that makes four bytes of it.
The write returns `(0, 4)`; the read of `(0, 4)` succeeds with the four
compressed bytes and `*size = 4`, not with the 2000 bytes. -/
theorem read_after_compressed_write_small_witness :
    Snappy.runs.lossless ∧
    (bp__writer_write 1024 Snappy.runs Sys.reliable (fresh 1024) 2000 (Ptr.user xs_2000)).ret
      = BP_OK ∧
    (bp__writer_write 1024 Snappy.runs Sys.reliable (fresh 1024) 2000 (Ptr.user xs_2000)).offset
      = some 0 ∧
    (bp__writer_write 1024 Snappy.runs Sys.reliable (fresh 1024) 2000 (Ptr.user xs_2000)).csize
      = some 4 ∧
    (bp__writer_read 1024 Snappy.runs Sys.reliable
      (bp__writer_write 1024 Snappy.runs Sys.reliable (fresh 1024) 2000 (Ptr.user xs_2000)).w
      0 4 Ptr.null).ret = BP_OK ∧
    (bp__writer_read 1024 Snappy.runs Sys.reliable
      (bp__writer_write 1024 Snappy.runs Sys.reliable (fresh 1024) 2000 (Ptr.user xs_2000)).w
      0 4 Ptr.null).size = 4 ∧
    (bp__writer_read 1024 Snappy.runs Sys.reliable
      (bp__writer_write 1024 Snappy.runs Sys.reliable (fresh 1024) 2000 (Ptr.user xs_2000)).w
      0 4 Ptr.null).data = Ptr.heap [1, 120, 7, 208] := by
  have hl : xs_2000.length = 2000 := List.length_replicate _ _
  have h := read_after_compressed_write_small 1024 Snappy.runs Sys.reliable (fresh 1024)
    xs_2000 [1, 120, 7, 208] Ptr.null (by decide) (by decide) ⟨by decide, rfl⟩ rfl
    (by rw [hl]; decide) (fun _ => rfl) rfl runs_compress_xs_2000 rfl (by decide) (by decide)
    (by decide) rfl rfl
  rw [hl] at h
  exact ⟨runs_lossless, h.1, h.2.1, h.2.2.1, h.2.2.2.1, h.2.2.2.2.1, h.2.2.2.2.2.1⟩

theorem find_iter_stopped {κ : Type} (ALIGN : Nat) (sn : Snappy) (os : Sys) (size : Nat)
    (seek : bp__writer_cb κ) (s : Loop κ) (h : s.running = false) :
    find_iter ALIGN sn os size seek s = s := by
  unfold find_iter
  rw [if_pos h]

theorem find_loop_stopped {κ : Type} (ALIGN : Nat) (sn : Snappy) (os : Sys) (size : Nat)
    (seek : bp__writer_cb κ) (n : Nat) (s : Loop κ) (h : s.running = false) :
    find_loop ALIGN sn os size seek n s = s := by
  induction n with
  | zero => rfl
  | succ n ih => rw [find_loop, find_iter_stopped ALIGN sn os size seek s h, ih]

theorem find_loop_succ {κ : Type} (ALIGN : Nat) (sn : Snappy) (os : Sys) (size : Nat)
    (seek : bp__writer_cb κ) (n : Nat) (s : Loop κ) :
    find_loop ALIGN sn os size seek (n + 1) s =
      find_iter ALIGN sn os size seek (find_loop ALIGN sn os size seek n s) := by
  induction n generalizing s with
  | zero => rfl
  | succ n ih =>
    rw [find_loop, ih (find_iter ALIGN sn os size seek s)]
    rfl

theorem find_loop_add {κ : Type} (ALIGN : Nat) (sn : Snappy) (os : Sys) (size : Nat)
    (seek : bp__writer_cb κ) (m n : Nat) (s : Loop κ) :
    find_loop ALIGN sn os size seek (m + n) s =
      find_loop ALIGN sn os size seek n (find_loop ALIGN sn os size seek m s) := by
  induction n with
  | zero => rfl
  | succ n ih => rw [← Nat.add_assoc, find_loop_succ, ih, find_loop_succ]

/-- A property of the loop variables that one test-and-body keeps holds after
any number of them. -/
theorem find_loop_induct {κ : Type} (ALIGN : Nat) (sn : Snappy) (os : Sys) (size : Nat)
    (seek : bp__writer_cb κ) (P : Loop κ → Prop)
    (hstep : ∀ s, P s → P (find_iter ALIGN sn os size seek s)) (n : Nat) (s : Loop κ)
    (h : P s) : P (find_loop ALIGN sn os size seek n s) := by
  induction n generalizing s with
  | zero => exact h
  | succ n ih => exact ih _ (hstep s h)

/-- The four ways one test-and-body of the loop goes from a running state: the
condition fails; the read fails; the read succeeds and `seek` returns `0`; the
read succeeds and `seek` returns a non-zero value. -/
theorem find_iter_cases {κ : Type} (ALIGN : Nat) (sn : Snappy) (os : Sys) (size : Nat)
    (seek : bp__writer_cb κ) (s : Loop κ) (h : s.running = true) :
    (s.offset < size ∧ find_iter ALIGN sn os size seek s = { s with running := false }) ∨
    (size ≤ s.offset ∧
      (bp__writer_read ALIGN sn os s.w (s.offset - size) s.size_tmp s.data).ret ≠ 0 ∧
      find_iter ALIGN sn os size seek s =
        { s with
          w := (bp__writer_read ALIGN sn os s.w (s.offset - size) s.size_tmp s.data).w
          size_tmp := (bp__writer_read ALIGN sn os s.w (s.offset - size) s.size_tmp s.data).size
          data := (bp__writer_read ALIGN sn os s.w (s.offset - size) s.size_tmp s.data).data
          ret := (bp__writer_read ALIGN sn os s.w (s.offset - size) s.size_tmp s.data).ret
          running := false
          trace := s.trace ++ [Event.read (s.offset - size) s.size_tmp
            (bp__writer_read ALIGN sn os s.w (s.offset - size) s.size_tmp s.data).ret
            (bp__writer_read ALIGN sn os s.w (s.offset - size) s.size_tmp s.data).size
            (bp__writer_read ALIGN sn os s.w (s.offset - size) s.size_tmp s.data).data] }) ∨
    (size ≤ s.offset ∧
      (bp__writer_read ALIGN sn os s.w (s.offset - size) s.size_tmp s.data).ret = 0 ∧
      (seek s.user (bp__writer_read ALIGN sn os s.w (s.offset - size) s.size_tmp s.data).w
        (bp__writer_read ALIGN sn os s.w (s.offset - size) s.size_tmp s.data).data).ret = 0 ∧
      find_iter ALIGN sn os size seek s =
        { s with
          w := (seek s.user
            (bp__writer_read ALIGN sn os s.w (s.offset - size) s.size_tmp s.data).w
            (bp__writer_read ALIGN sn os s.w (s.offset - size) s.size_tmp s.data).data).w
          user := (seek s.user
            (bp__writer_read ALIGN sn os s.w (s.offset - size) s.size_tmp s.data).w
            (bp__writer_read ALIGN sn os s.w (s.offset - size) s.size_tmp s.data).data).user
          size_tmp := (bp__writer_read ALIGN sn os s.w (s.offset - size) s.size_tmp s.data).size
          data := (bp__writer_read ALIGN sn os s.w (s.offset - size) s.size_tmp s.data).data
          ret := 0
          running := false
          trace := s.trace ++ [Event.read (s.offset - size) s.size_tmp 0
            (bp__writer_read ALIGN sn os s.w (s.offset - size) s.size_tmp s.data).size
            (bp__writer_read ALIGN sn os s.w (s.offset - size) s.size_tmp s.data).data,
            Event.seek (bp__writer_read ALIGN sn os s.w (s.offset - size) s.size_tmp s.data).data
              0] }) ∨
    (size ≤ s.offset ∧
      (bp__writer_read ALIGN sn os s.w (s.offset - size) s.size_tmp s.data).ret = 0 ∧
      (seek s.user (bp__writer_read ALIGN sn os s.w (s.offset - size) s.size_tmp s.data).w
        (bp__writer_read ALIGN sn os s.w (s.offset - size) s.size_tmp s.data).data).ret ≠ 0 ∧
      find_iter ALIGN sn os size seek s =
        { s with
          w := (seek s.user
            (bp__writer_read ALIGN sn os s.w (s.offset - size) s.size_tmp s.data).w
            (bp__writer_read ALIGN sn os s.w (s.offset - size) s.size_tmp s.data).data).w
          user := (seek s.user
            (bp__writer_read ALIGN sn os s.w (s.offset - size) s.size_tmp s.data).w
            (bp__writer_read ALIGN sn os s.w (s.offset - size) s.size_tmp s.data).data).user
          size_tmp := (bp__writer_read ALIGN sn os s.w (s.offset - size) s.size_tmp s.data).size
          data := (bp__writer_read ALIGN sn os s.w (s.offset - size) s.size_tmp s.data).data
          ret := 0
          offset := s.offset - size
          trace := s.trace ++ [Event.read (s.offset - size) s.size_tmp 0
            (bp__writer_read ALIGN sn os s.w (s.offset - size) s.size_tmp s.data).size
            (bp__writer_read ALIGN sn os s.w (s.offset - size) s.size_tmp s.data).data,
            Event.seek (bp__writer_read ALIGN sn os s.w (s.offset - size) s.size_tmp s.data).data
              (seek s.user
                (bp__writer_read ALIGN sn os s.w (s.offset - size) s.size_tmp s.data).w
                (bp__writer_read ALIGN sn os s.w (s.offset - size) s.size_tmp s.data).data).ret] })
    := by
  have hr : ¬ s.running = false := by rw [h]; decide
  unfold find_iter
  rw [if_neg hr]
  by_cases hc : s.offset ≥ size
  · rw [if_pos hc]
    by_cases h1 : (bp__writer_read ALIGN sn os s.w (s.offset - size) s.size_tmp s.data).ret = 0
    · by_cases h2 : (seek s.user
          (bp__writer_read ALIGN sn os s.w (s.offset - size) s.size_tmp s.data).w
          (bp__writer_read ALIGN sn os s.w (s.offset - size) s.size_tmp s.data).data).ret = 0
      · right; right; left
        refine ⟨hc, h1, h2, ?_⟩
        simp only [h1, h2, ne_eq, not_true_eq_false, if_false, if_true]
      · right; right; right
        refine ⟨hc, h1, h2, ?_⟩
        simp only [h1, h2, ne_eq, not_true_eq_false, if_false, if_true]
    · right; left
      refine ⟨hc, h1, ?_⟩
      simp only [h1, ne_eq, not_false_eq_true, if_true]
  · left
    rw [if_neg hc]
    exact ⟨Nat.lt_of_not_le hc, rfl⟩

theorem fail_inv_init {κ : Type} (w : bp__writer_t) (size : Nat) (data : Ptr) (user : κ) :
    fail_inv size (find_init w size data user) := by
  refine ⟨?_, ?_, ?_⟩
  · intro d m h; simp [find_init] at h
  · intro _ off sz ret so d h; simp [find_init] at h
  · intro _ off sz ret so d h; simp [find_init] at h

theorem fail_inv_iter {κ : Type} (ALIGN : Nat) (sn : Snappy) (os : Sys) (size : Nat)
    (seek : bp__writer_cb κ) (s : Loop κ) (h : fail_inv size s) :
    fail_inv size (find_iter ALIGN sn os size seek s) := by
  cases hrun : s.running with
  | false => rw [find_iter_stopped ALIGN sn os size seek s hrun]; exact h
  | true =>
    obtain ⟨hmiss, hgood, -⟩ := h
    have hgood := hgood hrun
    rcases find_iter_cases ALIGN sn os size seek s hrun with
      ⟨_, he⟩ | ⟨hc, hr, he⟩ | ⟨hc, hr, hq, he⟩ | ⟨hc, hr, hq, he⟩
    · rw [he]
      refine ⟨hmiss, fun _ => hgood, ?_⟩
      intro _ off sz ret so d hmem hne
      exact absurd (hgood off sz ret so d hmem) hne
    · rw [he]
      refine ⟨?_, ?_, ?_⟩
      · intro d m hmem
        rcases List.mem_append.1 hmem with hmem | hmem
        · exact hmiss d m hmem
        · simp at hmem
      · intro hcontra; cases hcontra
      · intro _ off sz ret so d hmem hne
        rcases List.mem_append.1 hmem with hmem | hmem
        · exact absurd (hgood off sz ret so d hmem) hne
        · rw [List.mem_singleton] at hmem
          refine ⟨?_, ?_, hc⟩
          · rw [hmem]; simp
          · injection hmem with _ _ h3 _ _
            exact h3.symm
    · rw [he]
      refine ⟨?_, ?_, ?_⟩
      · intro d m hmem
        rcases List.mem_append.1 hmem with hmem | hmem
        · exact hmiss d m hmem
        · simp at hmem
      · intro hcontra; cases hcontra
      · intro _ off sz ret so d hmem hne
        rcases List.mem_append.1 hmem with hmem | hmem
        · exact absurd (hgood off sz ret so d hmem) hne
        · simp at hmem
          exact absurd hmem.2.2.1 hne
    · rw [he]
      refine ⟨?_, ?_, ?_⟩
      · intro d m hmem
        rcases List.mem_append.1 hmem with hmem | hmem
        · exact hmiss d m hmem
        · simp at hmem
      · intro _ off sz ret so d hmem
        rcases List.mem_append.1 hmem with hmem | hmem
        · exact hgood off sz ret so d hmem
        · simp at hmem
          exact hmem.2.2.1
      · intro hcontra
        rw [hrun] at hcontra; cases hcontra

/-- C10. `bp__writer_find` propagates failures.  If the pad-only write fails,
`bp__writer_find` returns its error, whatever the fuel, and calls neither
`bp__writer_read` nor a callback.  If the pad-only write succeeds and, after
`fuel` tests of the loop condition, some `bp__writer_read` of the scan has
returned a non-zero `ret`, then `bp__writer_find` returns (with that fuel and
with any larger one) exactly `ret`; that read is the last call it made, so
`seek` is not called on that slot or later; and `miss` is never called. -/
theorem find_propagates_failure {κ : Type} (ALIGN : Nat) (sn : Snappy) (os : Sys)
    (w : bp__writer_t) (size : Nat) (data : Ptr) (seek miss : bp__writer_cb κ) (user : κ) :
    ((bp__writer_write ALIGN sn os w 0 Ptr.null).ret ≠ 0 →
      ∀ fuel, bp__writer_find ALIGN sn os fuel w size data seek miss user =
        some ⟨(bp__writer_write ALIGN sn os w 0 Ptr.null).ret,
          (bp__writer_write ALIGN sn os w 0 Ptr.null).w, user, []⟩) ∧
    ((bp__writer_write ALIGN sn os w 0 Ptr.null).ret = 0 →
      ∀ fuel off sz ret so d,
        Event.read off sz ret so d ∈
          (find_loop ALIGN sn os size seek fuel
            (find_init (bp__writer_write ALIGN sn os w 0 Ptr.null).w size data user)).trace →
        ret ≠ 0 →
        ∃ r : FindResult κ,
          (∀ k, fuel ≤ k →
            bp__writer_find ALIGN sn os k w size data seek miss user = some r) ∧
          r.ret = ret ∧
          r.trace.getLast? = some (Event.read off sz ret so d) ∧
          ∀ d2 m, Event.miss d2 m ∉ r.trace) := by
  constructor
  · intro hne fuel
    unfold bp__writer_find
    simp only [hne, ne_eq, not_false_eq_true, if_true]
  · intro hok fuel off sz ret so d hmem hret
    have hinv := find_loop_induct ALIGN sn os size seek (fail_inv size)
      (fail_inv_iter ALIGN sn os size seek) fuel _
      (fail_inv_init (bp__writer_write ALIGN sn os w 0 Ptr.null).w size data user)
    obtain ⟨hmiss, hgood, hbad⟩ := hinv
    have hstop : (find_loop ALIGN sn os size seek fuel
        (find_init (bp__writer_write ALIGN sn os w 0 Ptr.null).w size data user)).running
        = false := by
      cases hrun : (find_loop ALIGN sn os size seek fuel
        (find_init (bp__writer_write ALIGN sn os w 0 Ptr.null).w size data user)).running with
      | false => rfl
      | true => exact absurd (hgood hrun off sz ret so d hmem) hret
    obtain ⟨hlast, hr, hoff⟩ := hbad hstop off sz ret so d hmem hret
    refine ⟨find_finish size miss (find_loop ALIGN sn os size seek fuel
      (find_init (bp__writer_write ALIGN sn os w 0 Ptr.null).w size data user)), ?_, ?_, ?_, ?_⟩
    · intro k hk
      obtain ⟨j, rfl⟩ := Nat.exists_eq_add_of_le hk
      unfold bp__writer_find
      simp only [hok, ne_eq, not_true_eq_false, if_false]
      rw [find_loop_add, find_loop_stopped ALIGN sn os size seek j _ hstop]
      simp only [hstop, Bool.false_eq_true, if_false]
    · unfold find_finish
      rw [if_neg (by omega)]
      exact hr
    · unfold find_finish
      rw [if_neg (by omega)]
      exact hlast
    · unfold find_finish
      rw [if_neg (by omega)]
      exact hmiss

/-- Witness of C10, `ALIGN = 4`.  On a file of two slots, with a `seek` that
rejects everything, the second `pread` (call number 3) fails: `bp__writer_find`
returns `BP_EFILEREAD`, the failed read is its last call, `miss` is not called.
On five tracked bytes with a short padding write, `bp__writer_find` returns
`BP_EFILEWRITE` and calls nothing. -/
theorem find_propagates_failure_witness :
    (∃ r : FindResult Unit,
      bp__writer_find 4 Snappy.runs (Sys.pread_fails_at 3) 2 w_eight 4 (Ptr.user [])
        (cb_const 1) (cb_const 0) () = some r ∧
      r.ret = BP_EFILEREAD ∧
      r.trace.getLast? = some (Event.read 0 4 BP_EFILEREAD 4 (Ptr.heap [2, 2, 2, 2])) ∧
      ∀ d2 m, Event.miss d2 m ∉ r.trace) ∧
    bp__writer_find 4 Snappy.runs (Sys.short_at 0 1) 0 w_five 4 (Ptr.user [])
      (cb_const 1) (cb_const 0) () =
      some ⟨BP_EFILEWRITE,
        (bp__writer_write 4 Snappy.runs (Sys.short_at 0 1) w_five 0 Ptr.null).w, (), []⟩ := by
  have h := find_propagates_failure 4 Snappy.runs (Sys.pread_fails_at 3) w_eight 4 (Ptr.user [])
    (cb_const 1) (cb_const 0) ()
  have h2 := find_propagates_failure 4 Snappy.runs (Sys.short_at 0 1) w_five 4 (Ptr.user [])
    (cb_const 1) (cb_const 0) ()
  refine ⟨?_, h2.1 (by decide) 0⟩
  obtain ⟨r, hr, hret, hlast, hmiss⟩ := h.2 (by decide) 2 0 4 BP_EFILEREAD 4
    (Ptr.heap [2, 2, 2, 2]) (by decide) (by decide)
  exact ⟨r, hr 2 (Nat.le_refl _), hret, hlast, hmiss⟩

theorem sys_pread_file (os : Sys) (w : bp__writer_t) (count offset : Nat) :
    (sys_pread os w count offset).2.2.file = w.file ∧
    (sys_pread os w count offset).2.2.filesize = w.filesize ∧
    (sys_pread os w count offset).2.2.padding = w.padding := by
  unfold sys_pread
  split <;> exact ⟨rfl, rfl, rfl⟩

/-- When `pread` returns `count`, the buffer holds the bytes
`[offset, offset + count)` of the file. -/
theorem sys_pread_data (os : Sys) (w : bp__writer_t) (count offset : Nat)
    (h : (sys_pread os w count offset).1 = (count : Int)) :
    (sys_pread os w count offset).2.1 = slot w.file offset count := by
  unfold sys_pread at h ⊢
  unfold slot
  cases hr : os.pread w.tick count with
  | none =>
    rw [hr] at h
    simp only at h
    omega
  | some n =>
    rw [hr] at h
    simp only at h ⊢
    have hl : (((w.file.drop offset).take count).take n).length = count := by exact_mod_cast h
    rw [List.take_take] at hl ⊢
    rw [List.length_take, List.length_drop] at hl
    have : min n count = count := by omega
    rw [this]

/-- A call of `bp__writer_read` never changes the file, `filesize` or the padding
buffer. -/
theorem read_preserves (ALIGN : Nat) (sn : Snappy) (os : Sys) (w : bp__writer_t)
    (offset size : Nat) (data : Ptr) :
    (bp__writer_read ALIGN sn os w offset size data).w.file = w.file ∧
    (bp__writer_read ALIGN sn os w offset size data).w.filesize = w.filesize ∧
    (bp__writer_read ALIGN sn os w offset size data).w.padding = w.padding := by
  have hp := sys_pread_file os (sys_malloc os w size).2 size offset
  unfold bp__writer_read
  dsimp only
  repeat' split
  all_goals first
    | exact ⟨rfl, rfl, rfl⟩
    | exact hp

/-- A successful `bp__writer_read` of at most `ALIGN` bytes leaves `*size` as it
was; when the size is not zero, `*data` is a buffer with the bytes
`[offset, offset + size)` of the file. -/
theorem read_ok_raw (ALIGN : Nat) (sn : Snappy) (os : Sys) (w : bp__writer_t)
    (offset size : Nat) (data : Ptr) (hle : size ≤ ALIGN)
    (hok : (bp__writer_read ALIGN sn os w offset size data).ret = 0) :
    (bp__writer_read ALIGN sn os w offset size data).size = size ∧
    (size ≠ 0 →
      (bp__writer_read ALIGN sn os w offset size data).data =
        Ptr.heap (slot w.file offset size)) := by
  unfold bp__writer_read at hok ⊢
  dsimp only at hok ⊢
  split at hok
  · simp [BP_EFILEREAD_OOB] at hok
  · rw [if_neg (by assumption)]
    split at hok
    · rename_i h0
      rw [if_pos h0]
      exact ⟨rfl, fun h => absurd h0 h⟩
    · rename_i h0
      rw [if_neg h0]
      split at hok
      · simp [BP_EALLOC] at hok
      · rename_i hm
        rw [if_neg hm]
        split at hok
        · simp [BP_EFILEREAD] at hok
        · rename_i hr
          rw [if_neg hr, if_pos hle]
          refine ⟨rfl, fun _ => ?_⟩
          have hr2 : (sys_pread os (sys_malloc os w size).2 size offset).1 = (size : Int) := by
            by_contra hcon; exact hr hcon
          rw [sys_pread_data os _ size offset hr2]
          rfl

theorem all_rejected_spec {trace : List Event} (h : all_rejected trace) :
    (∀ off sz ret so d, Event.read off sz ret so d ∈ trace → ret = 0) ∧
    (∀ d q, Event.seek d q ∈ trace → q ≠ 0) := by
  constructor
  · intro off sz ret so d hmem
    simpa [Event.rejected] using h _ hmem
  · intro d q hmem
    simpa [Event.rejected] using h _ hmem

/-- As long as every read succeeds and every slot is rejected, the scan reads
slot after slot downwards. -/
theorem scan_rejected {κ : Type} (ALIGN : Nat) (sn : Snappy) (os : Sys) (s : Nat)
    (seek : bp__writer_cb κ) (w : bp__writer_t) (data : Ptr) (user : κ)
    (hle : s ≤ ALIGN)
    (hrej : ∀ n, all_rejected (find_loop ALIGN sn os s seek n (find_init w s data user)).trace)
    (j : Nat) (hj : j * s ≤ w.filesize) :
    scan_inv w.filesize s j (find_loop ALIGN sn os s seek j (find_init w s data user)) := by
  induction j with
  | zero =>
    refine ⟨rfl, ?_, rfl, rfl, ?_, ?_⟩
    · simp [find_loop, find_init]
    · intro d m h; simp [find_loop, find_init] at h
    · intro h; omega
  | succ j ih =>
    have hj2 : j * s ≤ w.filesize := by
      have : j * s ≤ (j + 1) * s := Nat.mul_le_mul_right _ (Nat.le_succ j)
      omega
    obtain ⟨hrun, hoff, hsz, hret, hmiss, -⟩ := ih hj2
    have hmul : (j + 1) * s = j * s + s := by rw [Nat.add_mul, Nat.one_mul]
    have hR := hrej (j + 1)
    rw [find_loop_succ] at hR ⊢
    obtain ⟨hR1, hR2⟩ := all_rejected_spec hR
    generalize find_loop ALIGN sn os s seek j (find_init w s data user) = st
      at hrun hoff hsz hret hmiss hR1 hR2 ⊢
    rcases find_iter_cases ALIGN sn os s seek _ hrun with
      ⟨hc, _⟩ | ⟨hc, hr, he⟩ | ⟨hc, hr, hq, he⟩ | ⟨hc, hr, hq, he⟩
    · omega
    · rw [he] at hR1
      exact absurd (hR1 _ _ _ _ _ (List.mem_append_right _ (List.mem_singleton.2 rfl))) hr
    · rw [he] at hR2
      exact absurd rfl (hR2 _ 0 (List.mem_append_right _
        (List.mem_cons_of_mem _ (List.mem_singleton.2 rfl))))
    · rw [hsz] at he hr
      have hsize := (read_ok_raw ALIGN sn os _ _ s _ hle hr).1
      rw [he]
      refine ⟨hrun, ?_, ?_, rfl, ?_, ?_⟩
      · show _ - s + (j + 1) * s = _
        omega
      · exact hsize
      · intro d m hmem
        rcases List.mem_append.1 hmem with hmem | hmem
        · exact hmiss d m hmem
        · simp at hmem
      · intro _
        refine ⟨st.trace, (seek st.user
          (bp__writer_read ALIGN sn os st.w (st.offset - s) s st.data).w
          (bp__writer_read ALIGN sn os st.w (st.offset - s) s st.data).data).ret, ?_⟩
        show st.trace ++ [Event.read (st.offset - s) s 0
            (bp__writer_read ALIGN sn os st.w (st.offset - s) s st.data).size _, _] = _
        rw [hsize]

/-- With a `seek` that leaves the file alone, the file is the same all along the
scan, and after each rejected slot `data` points to a buffer with the bytes
of that slot. -/
theorem scan_rejected_bytes {κ : Type} (ALIGN : Nat) (sn : Snappy) (os : Sys) (s : Nat)
    (seek : bp__writer_cb κ) (w : bp__writer_t) (data : Ptr) (user : κ)
    (hs : 1 ≤ s) (hle : s ≤ ALIGN)
    (hrej : ∀ n, all_rejected (find_loop ALIGN sn os s seek n (find_init w s data user)).trace)
    (hseek : ∀ u w2 d, (seek u w2 d).w.file = w2.file)
    (j : Nat) (hj : j * s ≤ w.filesize) :
    (find_loop ALIGN sn os s seek j (find_init w s data user)).w.file = w.file ∧
    (0 < j → (find_loop ALIGN sn os s seek j (find_init w s data user)).data =
      Ptr.heap (slot w.file
        (find_loop ALIGN sn os s seek j (find_init w s data user)).offset s)) := by
  induction j with
  | zero => exact ⟨rfl, fun h => absurd h (Nat.lt_irrefl 0)⟩
  | succ j ih =>
    have hj2 : j * s ≤ w.filesize := by
      have : j * s ≤ (j + 1) * s := Nat.mul_le_mul_right _ (Nat.le_succ j)
      omega
    obtain ⟨hfile, -⟩ := ih hj2
    obtain ⟨hrun, -, hsz, -, -, -⟩ := scan_rejected ALIGN sn os s seek w data user hle hrej j hj2
    obtain ⟨hrun2, -, -, -, -, -⟩ :=
      scan_rejected ALIGN sn os s seek w data user hle hrej (j + 1) hj
    rw [find_loop_succ] at hrun2 ⊢
    generalize find_loop ALIGN sn os s seek j (find_init w s data user) = st
      at hrun hsz hfile hrun2 ⊢
    rcases find_iter_cases ALIGN sn os s seek _ hrun with
      ⟨_, he⟩ | ⟨_, _, he⟩ | ⟨_, _, _, he⟩ | ⟨hc, hr, hq, he⟩
    · rw [he] at hrun2; cases hrun2
    · rw [he] at hrun2; cases hrun2
    · rw [he] at hrun2; cases hrun2
    · rw [hsz] at he hr
      rw [he]
      have hraw := (read_ok_raw ALIGN sn os st.w (st.offset - s) s st.data hle hr).2 (by omega)
      have hpres := (read_preserves ALIGN sn os st.w (st.offset - s) s st.data).1
      refine ⟨?_, fun _ => ?_⟩
      · show (seek _ _ _).w.file = _
        rw [hseek, hpres, hfile]
      · show (bp__writer_read ALIGN sn os st.w (st.offset - s) s st.data).data = _
        rw [hraw, hfile]

/-- C4. The miss path of `bp__writer_find`.  Let the pad-only write succeed
and leave the handle `pw` with `filesize = F`, let `1 ≤ s ≤ ALIGN` and `s ≤ F`,
and let every read of the scan succeed and `seek` reject every slot it is
given.  Then `bp__writer_find` returns as soon as the fuel is more than `F / s`,
and what it returns is what `miss` returned.  Its trace ends with the read of
the slot at offset `F mod s` (size `s`), `seek` on the buffer `d` this read
returned, and the call of `miss` on that same buffer `d`; `miss` is called
nowhere else.  If `seek` leaves the file alone, `d` holds the bytes
`[F mod s, F mod s + s)` of the padded file. -/
theorem find_miss_path {κ : Type} (ALIGN : Nat) (sn : Snappy) (os : Sys)
    (w pw : bp__writer_t) (s F : Nat) (data : Ptr) (seek miss : bp__writer_cb κ) (user : κ)
    (hs : 1 ≤ s) (hle : s ≤ ALIGN)
    (hret : (bp__writer_write ALIGN sn os w 0 Ptr.null).ret = 0)
    (hpw : pw = (bp__writer_write ALIGN sn os w 0 Ptr.null).w)
    (hF : F = pw.filesize) (hsF : s ≤ F)
    (hrej : ∀ n, all_rejected
      (find_loop ALIGN sn os s seek n (find_init pw s data user)).trace) :
    ∃ (T : List Event) (d : Ptr) (q : Int) (u : κ) (lw : bp__writer_t),
      (∀ k, F / s + 1 ≤ k →
        bp__writer_find ALIGN sn os k w s data seek miss user =
          some ⟨(miss u lw d).ret, (miss u lw d).w, (miss u lw d).user,
            T ++ [Event.read (F % s) s 0 s d, Event.seek d q,
              Event.miss d (miss u lw d).ret]⟩) ∧
      q ≠ 0 ∧
      (∀ d2 m2, Event.miss d2 m2 ∉ T) ∧
      ((∀ u2 w2 d2, (seek u2 w2 d2).w.file = w2.file) →
        d = Ptr.heap (slot pw.file (F % s) s)) := by
  have hspos : 0 < s := hs
  have hN : F / s * s ≤ pw.filesize := by rw [← hF]; exact Nat.div_mul_le_self F s
  have hNpos : 0 < F / s := Nat.div_pos hsF hspos
  have hinv := scan_rejected ALIGN sn os s seek pw data user hle hrej (F / s) hN
  obtain ⟨hrun, hoff, hsz, hr0, hmiss, htr⟩ := hinv
  obtain ⟨T, q, hT⟩ := htr hNpos
  have hoff2 : (find_loop ALIGN sn os s seek (F / s) (find_init pw s data user)).offset
      = F % s := by
    have h1 := Nat.div_add_mod F s
    have h2 : s * (F / s) = F / s * s := Nat.mul_comm _ _
    omega
  have hlt : F % s < s := Nat.mod_lt F hspos
  have hq : q ≠ 0 := by
    have hmem : Event.seek
        (find_loop ALIGN sn os s seek (F / s) (find_init pw s data user)).data q ∈
        (find_loop ALIGN sn os s seek (F / s) (find_init pw s data user)).trace := by
      rw [hT]
      exact List.mem_append_right _ (List.mem_cons_of_mem _ (List.mem_singleton.2 rfl))
    exact (all_rejected_spec (hrej (F / s))).2 _ q hmem
  have hTmiss : ∀ d2 m2, Event.miss d2 m2 ∉ T := by
    intro d2 m2 hmem
    exact hmiss d2 m2 (by rw [hT]; exact List.mem_append_left _ hmem)
  refine ⟨T, (find_loop ALIGN sn os s seek (F / s) (find_init pw s data user)).data, q,
    (find_loop ALIGN sn os s seek (F / s) (find_init pw s data user)).user,
    (find_loop ALIGN sn os s seek (F / s) (find_init pw s data user)).w, ?_, hq, hTmiss, ?_⟩
  · intro k hk
    obtain ⟨i, rfl⟩ := Nat.exists_eq_add_of_le hk
    unfold bp__writer_find
    simp only [hret, ne_eq, not_true_eq_false, if_false]
    rw [← hpw, find_loop_add, find_loop_succ]
    rw [hoff2] at hT
    generalize find_loop ALIGN sn os s seek (F / s) (find_init pw s data user) = st
      at hrun hoff2 hT ⊢
    have hstep : find_iter ALIGN sn os s seek st = { st with running := false } := by
      rcases find_iter_cases ALIGN sn os s seek st hrun with
        ⟨_, he⟩ | ⟨hc, _, _⟩ | ⟨hc, _, _, _⟩ | ⟨hc, _, _, _⟩
      · exact he
      · omega
      · omega
      · omega
    rw [hstep, find_loop_stopped ALIGN sn os s seek i _ rfl]
    simp only [Bool.false_eq_true, if_false, find_finish]
    rw [if_pos (by omega), hT]
    simp
  · intro hseek
    have hb := (scan_rejected_bytes ALIGN sn os s seek pw data user hs hle hrej hseek
      (F / s) hN).2 hNpos
    rw [hoff2] at hb
    exact hb

/-- Witness of C4, `ALIGN = 4`: a file of two slots of four bytes, a `seek` that
rejects everything and a `miss` that returns 7.  `bp__writer_find` returns 7;
it read the slot at 4, then the slot at 0, and gave the bytes of the slot at 0
to `miss`. -/
theorem find_miss_path_witness :
    bp__writer_find 4 Snappy.runs Sys.reliable 3 w_eight 4 (Ptr.user []) (cb_const 1)
      (cb_const 7) () =
      some ⟨7, { w_eight with tick := 4 }, (),
        [Event.read 4 4 0 4 (Ptr.heap [2, 2, 2, 2]), Event.seek (Ptr.heap [2, 2, 2, 2]) 1,
          Event.read 0 4 0 4 (Ptr.heap [1, 1, 1, 1]), Event.seek (Ptr.heap [1, 1, 1, 1]) 1,
          Event.miss (Ptr.heap [1, 1, 1, 1]) 7]⟩ ∧
    ∃ (T : List Event) (d : Ptr) (q : Int),
      (bp__writer_find 4 Snappy.runs Sys.reliable 3 w_eight 4 (Ptr.user []) (cb_const 1)
        (cb_const 7) ()).map FindResult.trace =
        some (T ++ [Event.read (8 % 4) 4 0 4 d, Event.seek d q, Event.miss d 7]) ∧
      d = Ptr.heap (slot w_eight.file (8 % 4) 4) := by
  have hrej : ∀ n, all_rejected
      (find_loop 4 Snappy.runs Sys.reliable 4 (cb_const 1) n
        (find_init w_eight 4 (Ptr.user []) ())).trace := by
    intro n
    have h3 : ∀ i, find_loop 4 Snappy.runs Sys.reliable 4 (cb_const 1) (3 + i)
        (find_init w_eight 4 (Ptr.user []) ()) =
        find_loop 4 Snappy.runs Sys.reliable 4 (cb_const 1) 3
          (find_init w_eight 4 (Ptr.user []) ()) := by
      intro i
      rw [find_loop_add]
      exact find_loop_stopped _ _ _ _ _ i _ (by decide)
    rcases Nat.lt_or_ge n 3 with hn | hn
    · interval_cases n <;> (unfold all_rejected; decide)
    · obtain ⟨i, rfl⟩ := Nat.exists_eq_add_of_le hn
      rw [h3 i]
      unfold all_rejected
      decide
  obtain ⟨T, d, q, u, lw, hfind, -, -, hbytes⟩ :=
    find_miss_path 4 Snappy.runs Sys.reliable w_eight w_eight 4 8 (Ptr.user []) (cb_const 1)
      (cb_const 7) () (by decide) (by decide) (by decide) (by decide) (by decide) (by decide)
      hrej
  refine ⟨by decide, T, d, q, ?_, hbytes (fun _ _ _ => rfl)⟩
  rw [hfind 3 (by decide)]
  rfl

/-- C3, counterexample.  `ALIGN = 4`, every call of the environment succeeds.
(1) Slot size 3, payloads `A = [1,1,1]`, `B = [2,2,2]`, `C = [3,3,3]` written in
this order to a fresh file (each write returns `BP_OK`), `seek` accepts exactly
`A`, `B` and `C`: `bp__writer_find` returns `0` and the first, and only, slot on
which `seek` returns `0` is the one read at offset 0, with the bytes of `A`.
(2) Slot size 2, payloads `[1,1]`, `[2,2]`, `[3,3]`, `seek` accepts every slot:
the first slot on which `seek` returns `0` is the padding `[0,0]` read at
offset 10. -/
theorem find_first_match_not_last_written :
    (rets_of_writes 4 Snappy.runs Sys.reliable (fresh 4) [[1, 1, 1], [2, 2, 2], [3, 3, 3]] =
        [BP_OK, BP_OK, BP_OK] ∧
      (∀ w, (seek_in [[1, 1, 1], [2, 2, 2], [3, 3, 3]] () w (Ptr.heap [1, 1, 1])).ret = 0) ∧
      (∀ w, (seek_in [[1, 1, 1], [2, 2, 2], [3, 3, 3]] () w (Ptr.heap [2, 2, 2])).ret = 0) ∧
      (∀ w, (seek_in [[1, 1, 1], [2, 2, 2], [3, 3, 3]] () w (Ptr.heap [3, 3, 3])).ret = 0) ∧
      (bp__writer_find 4 Snappy.runs Sys.reliable 4
        (after_writes 4 Snappy.runs Sys.reliable (fresh 4) [[1, 1, 1], [2, 2, 2], [3, 3, 3]])
        3 (Ptr.user []) (seek_in [[1, 1, 1], [2, 2, 2], [3, 3, 3]]) (cb_const 7) ()).map
        (fun r => (r.ret, r.trace)) =
        some (0,
          [Event.read 9 3 0 3 (Ptr.heap [3, 3, 0]), Event.seek (Ptr.heap [3, 3, 0]) 1,
            Event.read 6 3 0 3 (Ptr.heap [2, 0, 3]), Event.seek (Ptr.heap [2, 0, 3]) 1,
            Event.read 3 3 0 3 (Ptr.heap [0, 2, 2]), Event.seek (Ptr.heap [0, 2, 2]) 1,
            Event.read 0 3 0 3 (Ptr.heap [1, 1, 1]), Event.seek (Ptr.heap [1, 1, 1]) 0])) ∧
    (rets_of_writes 4 Snappy.runs Sys.reliable (fresh 4) [[1, 1], [2, 2], [3, 3]] =
        [BP_OK, BP_OK, BP_OK] ∧
      (bp__writer_find 4 Snappy.runs Sys.reliable 1
        (after_writes 4 Snappy.runs Sys.reliable (fresh 4) [[1, 1], [2, 2], [3, 3]])
        2 (Ptr.user []) (cb_const 0) (cb_const 7) ()).map
        (fun r => (r.ret, r.trace)) =
        some (0, [Event.read 10 2 0 2 (Ptr.heap [0, 0]), Event.seek (Ptr.heap [0, 0]) 0])) := by
  refine ⟨⟨by decide, fun _ => rfl, fun _ => rfl, fun _ => rfl, by decide⟩, by decide, by decide⟩

theorem reliable_all (t n : Nat) :
    Sys.reliable.write_all t n = true ∧ Sys.reliable.pread_all t n = true ∧
      Sys.reliable.malloc t n = true := by
  simp [Sys.write_all, Sys.pread_all, Sys.reliable]

theorem sys_write_fields (os : Sys) (w : bp__writer_t) (buf : List Byte) (count : Nat) :
    (sys_write os w buf count).2.filesize = w.filesize ∧
    (sys_write os w buf count).2.padding = w.padding ∧
    (sys_write os w buf count).2.tick = w.tick + 1 ∧
    ∃ k, (sys_write os w buf count).2.file = w.file ++ buf.take k := by
  unfold sys_write
  split
  · exact ⟨rfl, rfl, rfl, 0, by simp⟩
  · exact ⟨rfl, rfl, rfl, _, rfl⟩

/-- The two ways the padding phase of `bp__writer_write` (lines 101 to 108) goes,
whatever the environment does: it fails, and `filesize` is as before; or the
call continues with a handle whose `filesize` was advanced by the padding. -/
theorem write_cases {ALIGN : Nat} (sn : Snappy) (os : Sys) (w : bp__writer_t)
    (size : Nat) (data : Ptr) (hA : 0 < ALIGN) (hA32 : ALIGN < UINT32_MOD)
    (hfs : w.filesize < UINT32_MOD) (hpl : w.padding.length = ALIGN) :
    ((bp__writer_write ALIGN sn os w size data).ret = BP_EFILEWRITE ∧
      (bp__writer_write ALIGN sn os w size data).w.filesize = w.filesize ∧
      (bp__writer_write ALIGN sn os w size data).w.padding = w.padding ∧
      (bp__writer_write ALIGN sn os w size data).offset = none ∧
      (bp__writer_write ALIGN sn os w size data).csize = none ∧
      ∃ zs, (bp__writer_write ALIGN sn os w size data).w.file = w.file ++ zs) ∨
    ∃ w1 : bp__writer_t,
      bp__writer_write ALIGN sn os w size data = write_payload ALIGN sn os w1 size data ∧
      w1.filesize = (w.filesize + pad_len ALIGN w.filesize) % UINT32_MOD ∧
      w1.padding = w.padding ∧
      ∃ zs, w1.file = w.file ++ zs ∧ zs.length = pad_len ALIGN w.filesize := by
  obtain ⟨hiff, hval⟩ := padding_var w.filesize hA hA32
  by_cases hp : pad_len ALIGN w.filesize = 0
  · right
    refine ⟨w, ?_, ?_, rfl, [], by simp, by simp [hp]⟩
    · unfold bp__writer_write
      simp only [hiff.2 hp, ne_eq, not_true_eq_false, if_false]
    · rw [hp, Nat.add_zero, Nat.mod_eq_of_lt hfs]
  · have hne2 : ¬ pad_len ALIGN w.filesize = ALIGN := by
      have := pad_len_lt w.filesize hA; omega
    obtain ⟨hf, hpd, -, k, hk⟩ := sys_write_fields os w w.padding (pad_len ALIGN w.filesize)
    by_cases hwr : (sys_write os w w.padding (pad_len ALIGN w.filesize)).1 =
        ((pad_len ALIGN w.filesize : Nat) : Int)
    · right
      refine ⟨{ (sys_write os w w.padding (pad_len ALIGN w.filesize)).2 with
          filesize := ((sys_write os w w.padding (pad_len ALIGN w.filesize)).2.filesize +
            pad_len ALIGN w.filesize) % UINT32_MOD }, ?_, ?_, hpd, ?_⟩
      · unfold bp__writer_write
        simp only [ne_eq, hne2, not_false_eq_true, if_true, hval hp, hwr, not_true_eq_false,
          if_false]
      · show (_ + _) % _ = _
        rw [hf]
      · show ∃ zs, (sys_write os w w.padding (pad_len ALIGN w.filesize)).2.file = _ ∧ _
        unfold sys_write at hwr ⊢
        cases ho : os.write w.tick (pad_len ALIGN w.filesize) with
        | none =>
          rw [ho] at hwr
          simp only at hwr
          omega
        | some n =>
          rw [ho] at hwr
          simp only at hwr ⊢
          have hmin : min n (pad_len ALIGN w.filesize) = pad_len ALIGN w.filesize := by
            exact_mod_cast hwr
          refine ⟨_, rfl, ?_⟩
          rw [hmin, List.length_take, hpl]
          exact Nat.min_eq_left (Nat.le_of_lt (pad_len_lt w.filesize hA))
    · left
      have hres : bp__writer_write ALIGN sn os w size data =
          ⟨BP_EFILEWRITE, (sys_write os w w.padding (pad_len ALIGN w.filesize)).2, none, none⟩ := by
        unfold bp__writer_write
        simp only [ne_eq, hne2, not_false_eq_true, if_true, hval hp, hwr]
      rw [hres]
      exact ⟨rfl, hf, hpd, rfl, rfl, _, hk⟩

theorem sys_write_eq_count (os : Sys) (w : bp__writer_t) (buf : List Byte) (count k : Nat)
    (h : (sys_write os w buf count).1 = (k : Int)) :
    (sys_write os w buf count).2.file = w.file ++ buf.take k := by
  unfold sys_write at h ⊢
  cases ho : os.write w.tick count with
  | none =>
    rw [ho] at h
    simp only at h
    omega
  | some n =>
    rw [ho] at h
    simp only at h ⊢
    have hmin : min n count = k := by exact_mod_cast h
    rw [hmin]

/-- The three ways the payload phase of `bp__writer_write` (lines 110 to 142)
goes, whatever the environment and the codec do: nothing to write; a record of
`c` bytes is appended and `filesize` advanced by `c`; or an error, with
`filesize` untouched and nothing stored through `offset`. -/
theorem write_payload_cases {ALIGN : Nat} (sn : Snappy) (os : Sys) (w1 : bp__writer_t)
    (size : Nat) (data : Ptr) :
    (size = 0 ∧ write_payload ALIGN sn os w1 size data = ⟨BP_OK, w1, none, none⟩) ∨
    (size ≠ 0 ∧ (write_payload ALIGN sn os w1 size data).ret = BP_OK ∧
      ∃ c bs, (write_payload ALIGN sn os w1 size data).offset = some w1.filesize ∧
        (write_payload ALIGN sn os w1 size data).csize = some c ∧
        (write_payload ALIGN sn os w1 size data).w.filesize =
          (w1.filesize + c) % UINT32_MOD ∧
        (write_payload ALIGN sn os w1 size data).w.padding = w1.padding ∧
        (write_payload ALIGN sn os w1 size data).w.file = w1.file ++ bs ∧
        (size ≤ data.bytes.length → bs.length = c) ∧
        (size ≤ ALIGN → c = size)) ∨
    (size ≠ 0 ∧ (write_payload ALIGN sn os w1 size data).ret ≠ BP_OK ∧
      (write_payload ALIGN sn os w1 size data).offset = none ∧
      (write_payload ALIGN sn os w1 size data).w.filesize = w1.filesize ∧
      (write_payload ALIGN sn os w1 size data).w.padding = w1.padding ∧
      ∃ bs, (write_payload ALIGN sn os w1 size data).w.file = w1.file ++ bs) := by
  by_cases h0 : size = 0
  · left
    refine ⟨h0, ?_⟩
    unfold write_payload
    rw [if_pos h0]
  · right
    by_cases hle : size ≤ ALIGN
    · obtain ⟨hf, hpd, -, k, hk⟩ := sys_write_fields os w1 data.bytes size
      by_cases hwr : (sys_write os w1 data.bytes size).1 = (size : Int)
      · left
        have hres : write_payload ALIGN sn os w1 size data =
            ⟨BP_OK, { (sys_write os w1 data.bytes size).2 with
                filesize := ((sys_write os w1 data.bytes size).2.filesize +
                  (sys_write os w1 data.bytes size).1.toNat) % UINT32_MOD },
              some (sys_write os w1 data.bytes size).2.filesize, some size⟩ := by
          unfold write_payload
          simp only [h0, hle, hwr, ne_eq, not_true_eq_false, if_false, if_true]
        rw [hres]
        refine ⟨h0, rfl, size, data.bytes.take size, ?_, rfl, ?_, hpd, ?_, ?_, fun _ => rfl⟩
        · show some _ = _
          rw [hf]
        · show (_ + _) % _ = _
          rw [hf, hwr, Int.toNat_ofNat]
        · exact sys_write_eq_count os w1 data.bytes size size hwr
        · intro hlen
          rw [List.length_take]
          exact Nat.min_eq_left hlen
      · right
        have hres : write_payload ALIGN sn os w1 size data =
            ⟨BP_EFILEWRITE, (sys_write os w1 data.bytes size).2, none, some size⟩ := by
          unfold write_payload
          simp only [h0, hle, hwr, ne_eq, not_false_eq_true, if_false, if_true]
        rw [hres]
        exact ⟨h0, (by decide : BP_EFILEWRITE ≠ BP_OK), rfl, hf, hpd, _, hk⟩
    · by_cases hm : (sys_malloc os w1 (sn.max_compressed_length size)).1 = false
      · right
        have hres : write_payload ALIGN sn os w1 size data =
            ⟨BP_EALLOC, (sys_malloc os w1 (sn.max_compressed_length size)).2, none, none⟩ := by
          unfold write_payload
          simp only [h0, hle, hm, if_false, if_true]
        rw [hres]
        exact ⟨h0, (by decide : BP_EALLOC ≠ BP_OK), rfl, rfl, rfl, [], by simp [sys_malloc]⟩
      · have hm2 : (sys_malloc os w1 (sn.max_compressed_length size)).1 = true := by
          simpa using hm
        cases hc : sn.compress (data.bytes.take size) (sn.max_compressed_length size) with
        | none =>
          right
          have hres : write_payload ALIGN sn os w1 size data =
              ⟨BP_ESNAPPYC, (sys_malloc os w1 (sn.max_compressed_length size)).2, none, none⟩ := by
            unfold write_payload
            simp only [h0, hle, hm2, hc, Bool.true_eq_false, if_false]
          rw [hres]
          exact ⟨h0, (by decide : BP_ESNAPPYC ≠ BP_OK), rfl, rfl, rfl, [], by simp [sys_malloc]⟩
        | some c =>
          obtain ⟨hf, hpd, -, k, hk⟩ := sys_write_fields os
            (sys_malloc os w1 (sn.max_compressed_length size)).2 c c.length
          by_cases hwr : (sys_write os (sys_malloc os w1 (sn.max_compressed_length size)).2
              c c.length).1 = ((c.length % UINT32_MOD : Nat) : Int)
          · left
            have hres : write_payload ALIGN sn os w1 size data =
                ⟨BP_OK, { (sys_write os (sys_malloc os w1 (sn.max_compressed_length size)).2
                    c c.length).2 with
                    filesize := ((sys_write os
                      (sys_malloc os w1 (sn.max_compressed_length size)).2 c c.length).2.filesize +
                      (sys_write os (sys_malloc os w1 (sn.max_compressed_length size)).2
                        c c.length).1.toNat) % UINT32_MOD },
                  some (sys_write os (sys_malloc os w1 (sn.max_compressed_length size)).2
                    c c.length).2.filesize, some (c.length % UINT32_MOD)⟩ := by
              unfold write_payload
              simp only [h0, hle, hm2, hc, hwr, ne_eq, not_true_eq_false, Bool.true_eq_false, if_false]
            rw [hres]
            refine ⟨h0, rfl, c.length % UINT32_MOD, c.take (c.length % UINT32_MOD), ?_, rfl,
              ?_, hpd, ?_, ?_, fun h => absurd h hle⟩
            · show some _ = _
              rw [hf]; rfl
            · show (_ + _) % _ = _
              rw [hf, hwr, Int.toNat_ofNat]; rfl
            · exact sys_write_eq_count os _ c c.length _ hwr
            · intro _
              rw [List.length_take]
              exact Nat.min_eq_left (Nat.mod_le _ _)
          · right
            have hres : write_payload ALIGN sn os w1 size data =
                ⟨BP_EFILEWRITE, (sys_write os (sys_malloc os w1 (sn.max_compressed_length size)).2
                  c c.length).2, none, some (c.length % UINT32_MOD)⟩ := by
              unfold write_payload
              simp only [h0, hle, hm2, hc, hwr, ne_eq, not_false_eq_true, Bool.true_eq_false, if_false,
                if_true]
            rw [hres]
            exact ⟨h0, (by decide : BP_EFILEWRITE ≠ BP_OK), rfl, hf, hpd, _, hk⟩

/-- With a `seek` that leaves `filesize` alone, the loop of `bp__writer_find`
never changes `filesize`. -/
theorem find_loop_filesize {κ : Type} (ALIGN : Nat) (sn : Snappy) (os : Sys) (size : Nat)
    (seek : bp__writer_cb κ) (hseek : ∀ u w d, (seek u w d).w.filesize = w.filesize)
    (n : Nat) (st : Loop κ) :
    (find_loop ALIGN sn os size seek n st).w.filesize = st.w.filesize := by
  refine find_loop_induct ALIGN sn os size seek (fun x => x.w.filesize = st.w.filesize) ?_ n st rfl
  intro x hx
  cases hrun : x.running with
  | false => rw [find_iter_stopped ALIGN sn os size seek x hrun]; exact hx
  | true =>
    have hp := (read_preserves ALIGN sn os x.w (x.offset - size) x.size_tmp x.data).2.1
    rcases find_iter_cases ALIGN sn os size seek x hrun with
      ⟨_, he⟩ | ⟨_, _, he⟩ | ⟨_, _, _, he⟩ | ⟨_, _, _, he⟩
    · rw [he]; exact hx
    · rw [he]; show (bp__writer_read _ _ _ _ _ _ _).w.filesize = _; rw [hp, hx]
    · rw [he]; show (seek _ _ _).w.filesize = _; rw [hseek, hp, hx]
    · rw [he]; show (seek _ _ _).w.filesize = _; rw [hseek, hp, hx]

/-- After a successful `bp__writer_write` that does not pass `2^32`, `filesize`
is the aligned old `filesize` plus `csize` (plus nothing for a zero-length
write). -/
theorem write_ok_filesize {ALIGN : Nat} (sn : Snappy) (os : Sys) (w : bp__writer_t)
    (size : Nat) (data : Ptr) (hA : 0 < ALIGN) (hA32 : ALIGN < UINT32_MOD)
    (hwf : w.wf ALIGN)
    (hok : (bp__writer_write ALIGN sn os w size data).ret = BP_OK)
    (hfit : align_up ALIGN w.filesize +
      (bp__writer_write ALIGN sn os w size data).csize.getD 0 < UINT32_MOD) :
    (bp__writer_write ALIGN sn os w size data).w.filesize =
      align_up ALIGN w.filesize + (bp__writer_write ALIGN sn os w size data).csize.getD 0 ∧
    (size = 0 → (bp__writer_write ALIGN sn os w size data).csize = none) ∧
    (size ≠ 0 → (bp__writer_write ALIGN sn os w size data).offset =
      some (align_up ALIGN w.filesize)) := by
  have hpl : w.padding.length = ALIGN := by rw [hwf.2, List.length_replicate]
  rcases write_cases sn os w size data hA hA32 hwf.1 hpl with
    ⟨hret, _⟩ | ⟨w1, heq, hfs1, _, _⟩
  · rw [hret] at hok; exact absurd hok (by decide)
  · rw [heq] at hok hfit ⊢
    have hw1 : w1.filesize = align_up ALIGN w.filesize := by
      rw [hfs1]; exact Nat.mod_eq_of_lt (by unfold align_up at hfit; omega)
    rcases @write_payload_cases ALIGN sn os w1 size data with
      ⟨h0, hres⟩ | ⟨h0, _, c, bs, hoff, hcs, hfs, _⟩ | ⟨_, hne, _⟩
    · rw [hres]
      exact ⟨by simp [hw1], fun _ => rfl, fun h => absurd h0 h⟩
    · rw [hcs] at hfit ⊢
      rw [hfs, hoff, hw1]
      simp only [Option.getD_some] at hfit ⊢
      exact ⟨Nat.mod_eq_of_lt hfit, fun h => absurd h h0, fun _ => trivial⟩
    · exact absurd hok hne

/-- C5, counterexample.  `ALIGN = 1024`, fresh file, every call succeeds: the
write of the two bytes `ab` returns `BP_OK` and leaves `filesize = 2`, which is
not a multiple of 1024. -/
theorem filesize_not_aligned_after_write :
    (bp__writer_write 1024 Snappy.runs Sys.reliable (fresh 1024) 2 (Ptr.user [97, 98])).ret =
      BP_OK ∧
    (bp__writer_write 1024 Snappy.runs Sys.reliable (fresh 1024) 2
      (Ptr.user [97, 98])).w.filesize = 2 ∧
    (bp__writer_write 1024 Snappy.runs Sys.reliable (fresh 1024) 2
      (Ptr.user [97, 98])).w.filesize % 1024 ≠ 0 := by
  decide

/-- C5, amended.  For a handle made by `bp__writer_create`, as long as the end
of the file stays below `2^32`:
after a successful `bp__writer_write`, `filesize mod ALIGN` is
`csize mod ALIGN`, where `csize` is the on-disk size of the record (`0` for a
zero-length write, which stores no `csize`); so `filesize` is a multiple of
`ALIGN` after every successful zero-length write, and after a non-empty one
exactly when `csize` is;
after a `bp__writer_find` that returns `0`, with callbacks that leave
`filesize` alone, `filesize` is a multiple of `ALIGN`. -/
theorem filesize_alignment {κ : Type} (ALIGN : Nat) (sn : Snappy) (os : Sys)
    (w : bp__writer_t) (hA : 0 < ALIGN) (hA32 : ALIGN < UINT32_MOD) (hwf : w.wf ALIGN) :
    (∀ size data,
      (bp__writer_write ALIGN sn os w size data).ret = BP_OK →
      align_up ALIGN w.filesize +
        (bp__writer_write ALIGN sn os w size data).csize.getD 0 < UINT32_MOD →
      (bp__writer_write ALIGN sn os w size data).w.filesize % ALIGN =
        (bp__writer_write ALIGN sn os w size data).csize.getD 0 % ALIGN ∧
      (size = 0 → (bp__writer_write ALIGN sn os w size data).w.filesize % ALIGN = 0)) ∧
    (∀ size data (seek miss : bp__writer_cb κ) user fuel (r : FindResult κ),
      (∀ u w2 d, (seek u w2 d).w.filesize = w2.filesize) →
      (∀ u w2 d, (miss u w2 d).w.filesize = w2.filesize) →
      align_up ALIGN w.filesize < UINT32_MOD →
      bp__writer_find ALIGN sn os fuel w size data seek miss user = some r →
      r.ret = 0 →
      r.w.filesize % ALIGN = 0) := by
  constructor
  · intro size data hok hfit
    obtain ⟨hfs, hz, -⟩ := write_ok_filesize sn os w size data hA hA32 hwf hok hfit
    have hmod : (bp__writer_write ALIGN sn os w size data).w.filesize % ALIGN =
        (bp__writer_write ALIGN sn os w size data).csize.getD 0 % ALIGN := by
      rw [hfs, Nat.add_mod, align_up_mod w.filesize hA, Nat.zero_add, Nat.mod_mod]
    refine ⟨hmod, fun h0 => ?_⟩
    rw [hmod, hz h0]
    exact Nat.zero_mod _
  · intro size data seek miss user fuel r hseek hmiss hfit hfind hret
    unfold bp__writer_find at hfind
    by_cases hp : (bp__writer_write ALIGN sn os w 0 Ptr.null).ret = 0
    · have hcs : (bp__writer_write ALIGN sn os w 0 Ptr.null).csize = none := by
        rcases write_cases sn os w 0 Ptr.null hA hA32 hwf.1
          (by rw [hwf.2, List.length_replicate]) with ⟨_, _, _, _, hc, _⟩ | ⟨w1, heq, _⟩
        · exact hc
        · rw [heq]; simp [write_payload]
      have hfs := (write_ok_filesize sn os w 0 Ptr.null hA hA32 hwf hp
        (by rw [hcs]; simpa using hfit)).1
      rw [hcs] at hfs
      simp only [Option.getD_none, Nat.add_zero] at hfs
      simp only [hp, ne_eq, not_true_eq_false, if_false] at hfind
      have hloop := find_loop_filesize ALIGN sn os size seek hseek fuel
        (find_init (bp__writer_write ALIGN sn os w 0 Ptr.null).w size data user)
      generalize find_loop ALIGN sn os size seek fuel
        (find_init (bp__writer_write ALIGN sn os w 0 Ptr.null).w size data user) = st
        at hfind hloop
      have hst : st.w.filesize = align_up ALIGN w.filesize := by
        rw [hloop]; exact hfs
      split at hfind
      · cases hfind
      · have hr : r = find_finish size miss st := (Option.some.inj hfind).symm
        have hrw : r.w.filesize = st.w.filesize := by
          rw [hr]
          unfold find_finish
          split
          · exact hmiss _ _ _
          · rfl
        rw [hrw, hst]
        exact align_up_mod w.filesize hA
    · simp only [hp, ne_eq, not_false_eq_true, if_true] at hfind
      have hr : r.ret = (bp__writer_write ALIGN sn os w 0 Ptr.null).ret := by
        rw [← Option.some.inj hfind]
      rw [hr] at hret
      exact absurd hret hp

/-- Witness of C5 as amended, `ALIGN = 4`, five tracked bytes: after the write
of `[1, 2]` `filesize` is 10 (`10 mod 4 = 2 mod 4`), after a zero-length write
and after a `bp__writer_find` it is 8. -/
theorem filesize_alignment_witness :
    (bp__writer_write 4 Snappy.runs Sys.reliable w_five 2 (Ptr.user [1, 2])).w.filesize % 4 =
      2 % 4 ∧
    (bp__writer_write 4 Snappy.runs Sys.reliable w_five 0 Ptr.null).w.filesize % 4 = 0 ∧
    ∃ r, bp__writer_find 4 Snappy.runs Sys.reliable 3 w_five 4 (Ptr.user []) (cb_const 1)
      (cb_const 0) () = some r ∧ r.ret = 0 ∧ r.w.filesize % 4 = 0 := by
  have h := @filesize_alignment Unit 4 Snappy.runs Sys.reliable w_five (by decide) (by decide)
    ⟨by decide, rfl⟩
  refine ⟨(h.1 2 (Ptr.user [1, 2]) (by decide) (by decide)).1,
    (h.1 0 Ptr.null (by decide) (by decide)).2 rfl, ?_⟩
  have hev : (bp__writer_find 4 Snappy.runs Sys.reliable 3 w_five 4 (Ptr.user []) (cb_const 1)
      (cb_const 0) ()).isSome = true ∧
      (bp__writer_find 4 Snappy.runs Sys.reliable 3 w_five 4 (Ptr.user []) (cb_const 1)
        (cb_const 0) ()).map FindResult.ret = some 0 := by decide
  obtain ⟨r, hr⟩ := Option.isSome_iff_exists.1 hev.1
  have hret : r.ret = 0 := by
    have h2 := hev.2
    rw [hr] at h2
    exact Option.some.inj h2
  exact ⟨r, hr, hret, h.2 4 (Ptr.user []) (cb_const 1) (cb_const 0) () 3 r (fun _ _ _ => rfl)
    (fun _ _ _ => rfl) (by decide) hr hret⟩

theorem align_up_idem {ALIGN : Nat} (f : Nat) (hA : 0 < ALIGN) :
    align_up ALIGN (align_up ALIGN f) = align_up ALIGN f := by
  have h := align_up_mod f hA
  show align_up ALIGN f + pad_len ALIGN (align_up ALIGN f) = _
  rw [(pad_len_eq_zero_iff _ hA).2 h, Nat.add_zero]

/-- One call of `bp__writer_write`, whatever the environment does: the handle
stays well formed; without wrap, a record starts at the aligned old `filesize`
and `filesize` becomes its end, and a call that writes no record (zero length,
or failed) keeps the aligned `filesize`. -/
theorem write_step {ALIGN : Nat} (sn : Snappy) (os : Sys) (w : bp__writer_t)
    (size : Nat) (data : Ptr) (hA : 0 < ALIGN) (hA32 : ALIGN < UINT32_MOD)
    (hwf : w.wf ALIGN) :
    (bp__writer_write ALIGN sn os w size data).w.wf ALIGN ∧
    (no_wrap ALIGN (w, bp__writer_write ALIGN sn os w size data) →
      (is_record (bp__writer_write ALIGN sn os w size data) →
        ∃ c, (bp__writer_write ALIGN sn os w size data).offset =
            some (align_up ALIGN w.filesize) ∧
          (bp__writer_write ALIGN sn os w size data).csize = some c ∧
          (bp__writer_write ALIGN sn os w size data).w.filesize =
            align_up ALIGN w.filesize + c) ∧
      (¬ is_record (bp__writer_write ALIGN sn os w size data) →
        align_up ALIGN (bp__writer_write ALIGN sn os w size data).w.filesize =
          align_up ALIGN w.filesize)) := by
  have hpl : w.padding.length = ALIGN := by rw [hwf.2, List.length_replicate]
  have hM : 0 < UINT32_MOD := by decide
  unfold no_wrap is_record
  rcases write_cases sn os w size data hA hA32 hwf.1 hpl with
    ⟨hret, hfs, hpd, hoff, _, _⟩ | ⟨w1, heq, hfs1, hpd1, _⟩
  · refine ⟨⟨by rw [hfs]; exact hwf.1, by rw [hpd]; exact hwf.2⟩, fun _ => ⟨?_, ?_⟩⟩
    · intro h; exact absurd hoff h.2
    · intro _; rw [hfs]
  · rw [heq]
    have hw1lt : w1.filesize < UINT32_MOD := by rw [hfs1]; exact Nat.mod_lt _ hM
    rcases @write_payload_cases ALIGN sn os w1 size data with
      ⟨_, hres⟩ | ⟨_, hok, c, bs, hoff, hcs, hfs, hpd, _⟩ | ⟨_, hne, hoff, hfs, hpd, _⟩
    · rw [hres]
      refine ⟨⟨hw1lt, by rw [hpd1]; exact hwf.2⟩, fun hnw => ⟨?_, ?_⟩⟩
      · intro h; exact absurd rfl h.2
      · intro _
        have hau : align_up ALIGN w.filesize < UINT32_MOD := by
          dsimp only at hnw; omega
        have hw1 : w1.filesize = align_up ALIGN w.filesize := by
          rw [hfs1]; exact Nat.mod_eq_of_lt hau
        show align_up ALIGN w1.filesize = _
        rw [hw1, align_up_idem w.filesize hA]
    · refine ⟨⟨by rw [hfs]; exact Nat.mod_lt _ hM, by rw [hpd, hpd1]; exact hwf.2⟩,
        fun hnw => ⟨?_, ?_⟩⟩
      · intro _
        simp only [hok, if_true, hcs, Option.getD_some] at hnw
        have hw1 : w1.filesize = align_up ALIGN w.filesize := by
          rw [hfs1]; exact Nat.mod_eq_of_lt (by unfold align_up at hnw; omega)
        refine ⟨c, by rw [hoff, hw1], hcs, ?_⟩
        rw [hfs, hw1]
        exact Nat.mod_eq_of_lt hnw
      · intro h
        exact absurd ⟨hok, by rw [hoff]; exact Option.some_ne_none _⟩ h
    · refine ⟨⟨by rw [hfs]; exact hw1lt, by rw [hpd, hpd1]; exact hwf.2⟩, fun hnw => ⟨?_, ?_⟩⟩
      · intro h; exact absurd h.1 hne
      · intro _
        have hau : align_up ALIGN w.filesize < UINT32_MOD := by
          dsimp only at hnw; omega
        have hw1 : w1.filesize = align_up ALIGN w.filesize := by
          rw [hfs1]; exact Nat.mod_eq_of_lt hau
        rw [hfs, hw1, align_up_idem w.filesize hA]

theorem run_writes_append (ALIGN : Nat) (sn : Snappy) (os : Sys) (w : bp__writer_t)
    (l1 l2 : List (Nat × Ptr)) :
    run_writes ALIGN sn os w (l1 ++ l2) =
      run_writes ALIGN sn os w l1 ++ run_writes ALIGN sn os (end_writes ALIGN sn os w l1) l2 := by
  induction l1 generalizing w with
  | nil => rfl
  | cons rq rest ih =>
    show _ :: run_writes ALIGN sn os _ (rest ++ l2) = _ :: (_ ++ _)
    rw [ih]
    rfl

theorem end_writes_append (ALIGN : Nat) (sn : Snappy) (os : Sys) (w : bp__writer_t)
    (l1 l2 : List (Nat × Ptr)) :
    end_writes ALIGN sn os w (l1 ++ l2) =
      end_writes ALIGN sn os (end_writes ALIGN sn os w l1) l2 := by
  induction l1 generalizing w with
  | nil => rfl
  | cons rq rest ih =>
    show end_writes ALIGN sn os _ (rest ++ l2) = _
    rw [ih]
    rfl

theorem end_writes_wf {ALIGN : Nat} (sn : Snappy) (os : Sys) (w : bp__writer_t)
    (l : List (Nat × Ptr)) (hA : 0 < ALIGN) (hA32 : ALIGN < UINT32_MOD) (hwf : w.wf ALIGN) :
    (end_writes ALIGN sn os w l).wf ALIGN := by
  induction l generalizing w with
  | nil => exact hwf
  | cons rq rest ih =>
    exact ih _ (write_step sn os w rq.1 rq.2 hA hA32 hwf).1

/-- Calls that write no record and do not wrap keep the aligned `filesize`. -/
theorem quiet_run {ALIGN : Nat} (sn : Snappy) (os : Sys) (w : bp__writer_t)
    (l : List (Nat × Ptr)) (hA : 0 < ALIGN) (hA32 : ALIGN < UINT32_MOD) (hwf : w.wf ALIGN)
    (hnw : ∀ p ∈ run_writes ALIGN sn os w l, no_wrap ALIGN p)
    (hq : ∀ p ∈ run_writes ALIGN sn os w l, ¬ is_record p.2) :
    align_up ALIGN (end_writes ALIGN sn os w l).filesize = align_up ALIGN w.filesize := by
  induction l generalizing w with
  | nil => rfl
  | cons rq rest ih =>
    have hstep := write_step sn os w rq.1 rq.2 hA hA32 hwf
    have h1 := (hstep.2 (hnw _ (List.mem_cons_self _ _))).2 (hq _ (List.mem_cons_self _ _))
    show align_up ALIGN (end_writes ALIGN sn os _ rest).filesize = _
    rw [ih _ hstep.1 (fun p hp => hnw p (List.mem_cons_of_mem _ hp))
      (fun p hp => hq p (List.mem_cons_of_mem _ hp)), h1]

/-- C6. Record starts are aligned and records do not overlap.  Take any handle
made by `bp__writer_create`, any environment, and any sequence of calls of
`bp__writer_write` that does not wrap `filesize`: the calls `before`, then a
call `a`, then the calls `mid`, then a call `b`.  If `a` writes a record
(returns `BP_OK` and an offset `o`, with on-disk size `c`), then `o` is a
multiple of `ALIGN`.  If moreover no call of `mid` writes a record and `b`
writes one, at offset `o2`, then `o2` is the least multiple of `ALIGN` that is
at least `o + c`; in particular `o + c ≤ o2`. -/
theorem record_offsets (ALIGN : Nat) (sn : Snappy) (os : Sys) (w : bp__writer_t)
    (before : List (Nat × Ptr)) (a : Nat × Ptr) (mid : List (Nat × Ptr)) (b : Nat × Ptr)
    (hA : 0 < ALIGN) (hA32 : ALIGN < UINT32_MOD) (hwf : w.wf ALIGN)
    (hnw : ∀ p ∈ run_writes ALIGN sn os w (before ++ (a :: mid ++ [b])), no_wrap ALIGN p)
    (o c : Nat)
    (hra : (bp__writer_write ALIGN sn os (end_writes ALIGN sn os w before) a.1 a.2).ret = BP_OK)
    (hoa : (bp__writer_write ALIGN sn os (end_writes ALIGN sn os w before) a.1 a.2).offset
      = some o)
    (hca : (bp__writer_write ALIGN sn os (end_writes ALIGN sn os w before) a.1 a.2).csize
      = some c) :
    ALIGN ∣ o ∧
    ∀ o2,
      (∀ p ∈ run_writes ALIGN sn os
        (bp__writer_write ALIGN sn os (end_writes ALIGN sn os w before) a.1 a.2).w mid,
        ¬ is_record p.2) →
      (bp__writer_write ALIGN sn os (end_writes ALIGN sn os w (before ++ a :: mid))
        b.1 b.2).ret = BP_OK →
      (bp__writer_write ALIGN sn os (end_writes ALIGN sn os w (before ++ a :: mid))
        b.1 b.2).offset = some o2 →
      o2 = align_up ALIGN (o + c) ∧ o + c ≤ o2 ∧ ALIGN ∣ o2 ∧
        ∀ m, ALIGN ∣ m → o + c ≤ m → o2 ≤ m := by
  rw [run_writes_append] at hnw
  rw [end_writes_append]
  have hwa := end_writes_wf sn os w before hA hA32 hwf
  generalize end_writes ALIGN sn os w before = wa at hnw hra hoa hca hwa ⊢
  have hnw2 : ∀ p ∈ run_writes ALIGN sn os wa (a :: mid ++ [b]), no_wrap ALIGN p :=
    fun p hp => hnw p (List.mem_append_right _ hp)
  have hrun : run_writes ALIGN sn os wa (a :: mid ++ [b]) =
      (wa, bp__writer_write ALIGN sn os wa a.1 a.2) ::
        (run_writes ALIGN sn os (bp__writer_write ALIGN sn os wa a.1 a.2).w mid ++
          run_writes ALIGN sn os
            (end_writes ALIGN sn os (bp__writer_write ALIGN sn os wa a.1 a.2).w mid) [b]) := by
    show _ :: run_writes ALIGN sn os _ (mid ++ [b]) = _
    rw [run_writes_append]
  rw [hrun] at hnw2
  have hend : end_writes ALIGN sn os wa (a :: mid) =
      end_writes ALIGN sn os (bp__writer_write ALIGN sn os wa a.1 a.2).w mid := rfl
  rw [hend]
  have hsa := write_step sn os wa a.1 a.2 hA hA32 hwa
  obtain ⟨c2, hoa2, hca2, hfa⟩ := (hsa.2 (hnw2 _ (List.mem_cons_self _ _))).1
    ⟨hra, by rw [hoa]; exact Option.some_ne_none _⟩
  have ho : o = align_up ALIGN wa.filesize := by
    rw [hoa] at hoa2; exact Option.some.inj hoa2
  have hc : c = c2 := by
    rw [hca] at hca2; exact Option.some.inj hca2
  refine ⟨by rw [ho]; exact (align_up_least wa.filesize hA).1, ?_⟩
  intro o2 hq hrb hob
  generalize bp__writer_write ALIGN sn os wa a.1 a.2 = ra at hnw2 hsa hfa hq hrb hob hoa hca ⊢
  have hquiet := quiet_run sn os ra.w mid hA hA32 hsa.1
    (fun p hp => hnw2 p (List.mem_cons_of_mem _ (List.mem_append_left _ hp))) hq
  have hwm := end_writes_wf sn os ra.w mid hA hA32 hsa.1
  have hsb := write_step sn os (end_writes ALIGN sn os ra.w mid) b.1 b.2 hA hA32 hwm
  have hmemb : (end_writes ALIGN sn os ra.w mid,
      bp__writer_write ALIGN sn os (end_writes ALIGN sn os ra.w mid) b.1 b.2) ∈
      (wa, ra) :: (run_writes ALIGN sn os ra.w mid ++
        run_writes ALIGN sn os (end_writes ALIGN sn os ra.w mid) [b]) :=
    List.mem_cons_of_mem _ (List.mem_append_right _ (List.mem_cons_self _ _))
  obtain ⟨_, hob2, _, _⟩ := (hsb.2 (hnw2 _ hmemb)).1
    ⟨hrb, by rw [hob]; exact Option.some_ne_none _⟩
  have ho2 : o2 = align_up ALIGN (o + c) := by
    rw [hob] at hob2
    rw [Option.some.inj hob2, hquiet, hfa, ← ho, ← hc]
  rw [ho2]
  have hl := align_up_least (o + c) hA
  exact ⟨rfl, hl.2.1, hl.1, hl.2.2⟩

/-- Witness of C6, `ALIGN = 1024`, fresh file.  The two bytes `ab` are written at
offset 0; then come a zero-length write and a write whose payload write is
short; the next record is put at offset 1024. -/
theorem record_offsets_witness :
    (bp__writer_write 1024 Snappy.runs (Sys.short_at 2 1) (fresh 1024) 2
      (Ptr.user [97, 98])).offset = some 0 ∧
    (bp__writer_write 1024 Snappy.runs (Sys.short_at 2 1)
      (end_writes 1024 Snappy.runs (Sys.short_at 2 1) (fresh 1024)
        ([] ++ (2, Ptr.user [97, 98]) :: [(0, Ptr.null), (2, Ptr.user [5, 6])]))
      3 (Ptr.user [1, 2, 3])).offset = some 1024 ∧
    1024 = align_up 1024 (0 + 2) := by
  have h := record_offsets 1024 Snappy.runs (Sys.short_at 2 1) (fresh 1024) []
    (2, Ptr.user [97, 98]) [(0, Ptr.null), (2, Ptr.user [5, 6])] (3, Ptr.user [1, 2, 3])
    (by decide) (by decide) ⟨by decide, rfl⟩ (by decide) 0 2 (by decide) (by decide) (by decide)
  have h2 := h.2 1024 (by decide) (by decide) (by decide)
  exact ⟨by decide, by decide, h2.1⟩

theorem align_up_block {ALIGN : Nat} (k s : Nat) (hs : 1 ≤ s) (hle : s ≤ ALIGN) :
    align_up ALIGN (k * ALIGN + s) = (k + 1) * ALIGN := by
  have hA : 0 < ALIGN := by omega
  obtain ⟨hdvd, hge, hleast⟩ := align_up_least (k * ALIGN + s) hA
  have hmul : (k + 1) * ALIGN = k * ALIGN + ALIGN := by rw [Nat.add_mul, Nat.one_mul]
  have h1 : align_up ALIGN (k * ALIGN + s) ≤ (k + 1) * ALIGN :=
    hleast _ (Nat.dvd_mul_left _ _) (by omega)
  obtain ⟨q, hq⟩ := hdvd
  have hk : k < q := by
    by_contra hcon
    have h2 : ALIGN * q ≤ ALIGN * k := Nat.mul_le_mul_left _ (Nat.le_of_not_lt hcon)
    rw [Nat.mul_comm ALIGN k] at h2
    omega
  have h3 : ALIGN * (k + 1) ≤ ALIGN * q := Nat.mul_le_mul_left _ hk
  rw [Nat.mul_comm ALIGN (k + 1)] at h3
  omega

/-- A raw write in a reliable environment keeps a handle well formed with
`filesize` the length of the file, and appends the padding and the payload. -/
theorem write_slot {ALIGN : Nat} (sn : Snappy) (os : Sys) (w : bp__writer_t)
    (p : List Byte) (hA : 0 < ALIGN) (hA32 : ALIGN < UINT32_MOD) (hwf : w.wf ALIGN)
    (hlen : w.file.length = w.filesize) (hp : 1 ≤ p.length) (hle : p.length ≤ ALIGN)
    (hw : ∀ t n, os.write_all t n = true)
    (hfit : align_up ALIGN w.filesize + p.length < UINT32_MOD) :
    (bp__writer_write ALIGN sn os w p.length (Ptr.user p)).ret = BP_OK ∧
    (bp__writer_write ALIGN sn os w p.length (Ptr.user p)).w.wf ALIGN ∧
    (bp__writer_write ALIGN sn os w p.length (Ptr.user p)).w.file.length =
      (bp__writer_write ALIGN sn os w p.length (Ptr.user p)).w.filesize ∧
    (bp__writer_write ALIGN sn os w p.length (Ptr.user p)).w.filesize =
      align_up ALIGN w.filesize + p.length ∧
    (bp__writer_write ALIGN sn os w p.length (Ptr.user p)).w.file =
      w.file ++ List.replicate (align_up ALIGN w.filesize - w.filesize) 0 ++ p := by
  obtain ⟨hret, -, -, hfs, hfile, -⟩ := write_record_raw sn os w p hA hA32 hwf hlen hp
    (fun _ => hw _ _) hle (hw _ _) hfit
  refine ⟨hret, (write_step sn os w p.length (Ptr.user p) hA hA32 hwf).1, ?_, hfs, hfile⟩
  rw [hfs, hfile]
  simp only [List.length_append, List.length_replicate, hlen]
  have := (align_up_least w.filesize hA).2.1
  omega

/-- The handle after three complete writes of payloads of `s ≤ ALIGN` bytes to
a fresh file: each record starts at a multiple of `ALIGN`. -/
theorem after_three_slots {ALIGN : Nat} (sn : Snappy) (os : Sys) (A B C : List Byte) (s : Nat)
    (hs : 1 ≤ s) (hsle : s ≤ ALIGN) (h3 : 3 * ALIGN < UINT32_MOD)
    (hlA : A.length = s) (hlB : B.length = s) (hlC : C.length = s)
    (hw : ∀ t n, os.write_all t n = true) :
    rets_of_writes ALIGN sn os (fresh ALIGN) [A, B, C] = [BP_OK, BP_OK, BP_OK] ∧
    (after_writes ALIGN sn os (fresh ALIGN) [A, B, C]).wf ALIGN ∧
    (after_writes ALIGN sn os (fresh ALIGN) [A, B, C]).filesize = 2 * ALIGN + s ∧
    (after_writes ALIGN sn os (fresh ALIGN) [A, B, C]).file =
      A ++ List.replicate (ALIGN - s) 0 ++ B ++ List.replicate (ALIGN - s) 0 ++ C := by
  have hA : 0 < ALIGN := by omega
  have hA32 : ALIGN < UINT32_MOD := by omega
  have hf0 : align_up ALIGN (fresh ALIGN).filesize = 0 := by
    have := @align_up_mod ALIGN 0 hA
    show 0 + pad_len ALIGN 0 = 0
    rw [(pad_len_eq_zero_iff 0 hA).2 (Nat.zero_mod _)]
  have hwf0 : (fresh ALIGN).wf ALIGN := ⟨by show 0 < UINT32_MOD; decide, rfl⟩
  have hau1 : align_up ALIGN s = ALIGN := by
    have := @align_up_block ALIGN 0 s hs hsle
    simpa using this
  have hau2 : align_up ALIGN (ALIGN + s) = 2 * ALIGN := by
    have := @align_up_block ALIGN 1 s hs hsle
    rw [Nat.one_mul] at this
    exact this
  obtain ⟨r1, wf1, len1, fs1, file1⟩ := write_slot sn os (fresh ALIGN) A hA hA32 hwf0 rfl
    (by omega) (by omega) hw (by rw [hf0]; omega)
  have e : after_writes ALIGN sn os (fresh ALIGN) [A, B, C] =
      (bp__writer_write ALIGN sn os
        (bp__writer_write ALIGN sn os
          (bp__writer_write ALIGN sn os (fresh ALIGN) A.length (Ptr.user A)).w
          B.length (Ptr.user B)).w C.length (Ptr.user C)).w := rfl
  have er : rets_of_writes ALIGN sn os (fresh ALIGN) [A, B, C] =
      [(bp__writer_write ALIGN sn os (fresh ALIGN) A.length (Ptr.user A)).ret,
        (bp__writer_write ALIGN sn os
          (bp__writer_write ALIGN sn os (fresh ALIGN) A.length (Ptr.user A)).w
          B.length (Ptr.user B)).ret,
        (bp__writer_write ALIGN sn os
          (bp__writer_write ALIGN sn os
            (bp__writer_write ALIGN sn os (fresh ALIGN) A.length (Ptr.user A)).w
            B.length (Ptr.user B)).w C.length (Ptr.user C)).ret] := rfl
  rw [e, er]
  generalize bp__writer_write ALIGN sn os (fresh ALIGN) A.length (Ptr.user A) = ra
    at r1 wf1 len1 fs1 file1 ⊢
  rw [hf0, hlA, Nat.zero_add] at fs1
  rw [hf0] at file1
  obtain ⟨r2, wf2, len2, fs2, file2⟩ := write_slot sn os ra.w B hA hA32 wf1 len1
    (by omega) (by omega) hw (by rw [fs1, hau1]; omega)
  generalize bp__writer_write ALIGN sn os ra.w B.length (Ptr.user B) = rb
    at r2 wf2 len2 fs2 file2 ⊢
  rw [fs1, hau1, hlB] at fs2
  rw [fs1, hau1, file1] at file2
  obtain ⟨r3, wf3, len3, fs3, file3⟩ := write_slot sn os rb.w C hA hA32 wf2 len2
    (by omega) (by omega) hw (by rw [fs2, hau2]; omega)
  generalize bp__writer_write ALIGN sn os rb.w C.length (Ptr.user C) = rc
    at r3 wf3 len3 fs3 file3 ⊢
  rw [fs2, hau2, hlC] at fs3
  rw [fs2, hau2, file2] at file3
  refine ⟨by rw [r1, r2, r3], wf3, fs3, ?_⟩
  rw [file3]
  have hz : (fresh ALIGN).file ++ List.replicate (0 - (fresh ALIGN).filesize) 0 ++ A = A := by
    simp [fresh]
  rw [hz]
  have h4 : 2 * ALIGN - (ALIGN + s) = ALIGN - s := by omega
  rw [h4]

theorem slot_in_padding (P : List Byte) (n k s : Nat) (hk : k + s ≤ n) :
    slot (P ++ List.replicate n 0) (P.length + k) s = List.replicate s 0 := by
  unfold slot
  rw [List.drop_append, List.drop_replicate, List.take_replicate]
  congr 1
  omega

theorem slot_at_end (Q C R : List Byte) :
    slot (Q ++ C ++ R) Q.length C.length = C := by
  unfold slot
  rw [List.append_assoc, List.drop_left, List.take_left]

/-- The scan over the padding at the end of the file: as long as whole slots of
`s` bytes fit in the `n` zero bytes that end the file, each of them is read and
rejected, and the handle keeps its file and its `filesize`. -/
theorem pad_scan {κ : Type} (ALIGN : Nat) (sn : Snappy) (os : Sys) (s : Nat)
    (seek : bp__writer_cb κ) (pw : bp__writer_t) (data : Ptr) (user : κ)
    (P : List Byte) (n : Nat) (hs : 1 ≤ s) (hle : s ≤ ALIGN)
    (hfile : pw.file = P ++ List.replicate n 0) (hfs : pw.filesize = P.length + n)
    (hlt : pw.filesize < UINT32_MOD)
    (hr : ∀ t m, os.pread_all t m = true) (hm : ∀ t m, os.malloc t m = true)
    (hzero : 0 < n → ∀ u w, (seek u w (Ptr.heap (List.replicate s 0))).ret ≠ 0)
    (hkeep : 0 < n →
      ∀ u w d, (seek u w d).w.file = w.file ∧ (seek u w d).w.filesize = w.filesize)
    (j : Nat) (hj : j * s ≤ n) :
    (find_loop ALIGN sn os s seek j (find_init pw s data user)).running = true ∧
    (find_loop ALIGN sn os s seek j (find_init pw s data user)).offset + j * s =
      pw.filesize ∧
    (find_loop ALIGN sn os s seek j (find_init pw s data user)).size_tmp = s ∧
    (find_loop ALIGN sn os s seek j (find_init pw s data user)).w.file = pw.file ∧
    (find_loop ALIGN sn os s seek j (find_init pw s data user)).w.filesize = pw.filesize ∧
    ∀ e ∈ (find_loop ALIGN sn os s seek j (find_init pw s data user)).trace,
      e.is_pad s := by
  induction j with
  | zero =>
    refine ⟨rfl, by simp [find_loop, find_init], rfl, rfl, rfl, ?_⟩
    intro e he
    simp [find_loop, find_init] at he
  | succ j ih =>
    have hmul : (j + 1) * s = j * s + s := by rw [Nat.add_mul, Nat.one_mul]
    have hn : 0 < n := by omega
    have hzero := hzero hn
    have hkeep := hkeep hn
    obtain ⟨hrun, hoff, hsz, hfl, hfz, htr⟩ := ih (by omega)
    rw [find_loop_succ]
    generalize find_loop ALIGN sn os s seek j (find_init pw s data user) = st
      at hrun hoff hsz hfl hfz htr ⊢
    have hread := @read_raw ALIGN sn os st.w (st.offset - s) s st.data (by omega) hle
      (by rw [Nat.mod_eq_of_lt (by omega), hfz]; omega)
      (by rw [hfl, hfile, List.length_append, List.length_replicate]; omega)
      (hm _ _) (hr _ _)
    have hoffs : st.offset - s = P.length + (n - (j + 1) * s) := by omega
    have hslot : slot st.w.file (st.offset - s) s = List.replicate s 0 := by
      rw [hfl, hfile, hoffs]
      exact slot_in_padding P n _ s (by omega)
    rw [hslot] at hread
    have hiter := find_iter_cases ALIGN sn os s seek st hrun
    rw [hsz, hread] at hiter
    rcases hiter with ⟨hc, _⟩ | ⟨_, hne, _⟩ | ⟨_, _, hq, _⟩ | ⟨_, _, hq, he⟩
    · omega
    · exact absurd rfl hne
    · exact absurd hq (hzero _ _)
    · rw [he]
      refine ⟨hrun, ?_, rfl, ?_, ?_, ?_⟩
      · show st.offset - s + (j + 1) * s = _
        omega
      · show (seek _ _ _).w.file = _
        rw [(hkeep _ _ _).1]
        exact hfl
      · show (seek _ _ _).w.filesize = _
        rw [(hkeep _ _ _).2]
        exact hfz
      · intro e hmem
        rcases List.mem_append.1 hmem with hmem | hmem
        · exact htr e hmem
        · rcases List.mem_cons.1 hmem with h1 | h1
          · rw [h1]
            exact ⟨rfl, rfl⟩
          · rw [List.mem_singleton.1 h1]
            exact ⟨rfl, hq⟩

/-- C3, amended: slot sizes that divide `ALIGN`.  Three payloads `A`, `B`, `C`
of `s` bytes each, with `s` dividing `ALIGN`, are written in this order to a
fresh file (`3 * ALIGN < 2^32`); every write, read and allocation succeeds;
`seek` accepts `C`; and, when `s < ALIGN`, `seek` rejects the slot of `s` zero
bytes and leaves the file and `filesize` alone.  Then the three writes return
`BP_OK`, and `bp__writer_find` with slot size `s` returns `0` for every fuel of
at least `ALIGN / s`.  Its trace is: reads of slots of padding, each rejected
by `seek` (none when `s = ALIGN`), then the read of the slot at `2 * ALIGN`,
which yields the bytes of `C`, then `seek` on that buffer, which matches.
`miss` is not called. -/
theorem find_last_written_slot {κ : Type} (ALIGN : Nat) (sn : Snappy) (os : Sys) (s : Nat)
    (A B C : List Byte) (data : Ptr) (seek miss : bp__writer_cb κ) (user : κ)
    (hA : 0 < ALIGN) (h3 : 3 * ALIGN < UINT32_MOD) (hs : 1 ≤ s) (hdvd : s ∣ ALIGN)
    (hlA : A.length = s) (hlB : B.length = s) (hlC : C.length = s)
    (hw : ∀ t n, os.write_all t n = true) (hr : ∀ t n, os.pread_all t n = true)
    (hm : ∀ t n, os.malloc t n = true)
    (haccC : ∀ u w, (seek u w (Ptr.heap C)).ret = 0)
    (hzero : s < ALIGN → ∀ u w, (seek u w (Ptr.heap (List.replicate s 0))).ret ≠ 0)
    (hkeep : s < ALIGN →
      ∀ u w d, (seek u w d).w.file = w.file ∧ (seek u w d).w.filesize = w.filesize) :
    rets_of_writes ALIGN sn os (fresh ALIGN) [A, B, C] = [BP_OK, BP_OK, BP_OK] ∧
    ∀ fuel, ALIGN / s ≤ fuel →
      ∃ (u2 : κ) (w2 : bp__writer_t) (T : List Event),
        bp__writer_find ALIGN sn os fuel (after_writes ALIGN sn os (fresh ALIGN) [A, B, C])
          s data seek miss user =
          some ⟨0, w2, u2,
            T ++ [Event.read (2 * ALIGN) s 0 s (Ptr.heap C), Event.seek (Ptr.heap C) 0]⟩ ∧
        ∀ e ∈ T, e.is_pad s := by
  have hA32 : ALIGN < UINT32_MOD := by omega
  have hsle : s ≤ ALIGN := Nat.le_of_dvd hA hdvd
  obtain ⟨hrets, hwf3, hfs3, hfile3⟩ :=
    after_three_slots sn os A B C s hs hsle h3 hlA hlB hlC hw
  refine ⟨hrets, ?_⟩
  intro fuel hfuel
  generalize after_writes ALIGN sn os (fresh ALIGN) [A, B, C] = w3 at hwf3 hfs3 hfile3 ⊢
  -- the padding write of `bp__writer_find`
  have hau : align_up ALIGN w3.filesize = 3 * ALIGN := by
    rw [hfs3]; exact align_up_block 2 s hs hsle
  have hpl : pad_len ALIGN w3.filesize = ALIGN - s := by
    have : w3.filesize + pad_len ALIGN w3.filesize = 3 * ALIGN := hau
    omega
  have hz : bp__writer_write ALIGN sn os w3 0 Ptr.null = ⟨BP_OK, padded ALIGN w3, none, none⟩ := by
    rw [write_eq_payload_of_padded sn os w3 0 Ptr.null hA hA32 hwf3.2 (fun _ => hw _ _)]
    simp [write_payload]
  have hpfs : (padded ALIGN w3).filesize = 3 * ALIGN := by
    rw [padded_filesize_of_lt w3 (by rw [hau]; omega), hau]
  have hpfile : (padded ALIGN w3).file =
      (A ++ List.replicate (ALIGN - s) 0 ++ B ++ List.replicate (ALIGN - s) 0 ++ C) ++
        List.replicate (ALIGN - s) 0 := by
    rw [padded_file, hpl, hfile3]
  have hPlen : (A ++ List.replicate (ALIGN - s) 0 ++ B ++ List.replicate (ALIGN - s) 0
      ++ C).length = 2 * ALIGN + s := by
    simp only [List.length_append, List.length_replicate, hlA, hlB, hlC]; omega
  generalize padded ALIGN w3 = pw at hz hpfs hpfile
  -- the scan over the padding
  obtain ⟨m, hm2⟩ := hdvd
  have hmpos : 0 < m := by
    rcases Nat.eq_zero_or_pos m with h0 | h0
    · rw [h0, Nat.mul_zero] at hm2; omega
    · exact h0
  have hn : (m - 1) * s = ALIGN - s := by
    rw [Nat.sub_mul, Nat.one_mul, Nat.mul_comm m s, ← hm2]
  have hdiv : ALIGN / s = m := by
    rw [hm2]; exact Nat.mul_div_cancel_left m hs
  obtain ⟨hrun, hoff, hsz, hfl, hfz, htr⟩ := pad_scan ALIGN sn os s seek pw data user
    (A ++ List.replicate (ALIGN - s) 0 ++ B ++ List.replicate (ALIGN - s) 0 ++ C)
    (ALIGN - s) hs hsle hpfile (by rw [hpfs, hPlen]; omega) (by rw [hpfs]; omega) hr hm
    (fun h => hzero (by omega)) (fun h => hkeep (by omega)) (m - 1) (Nat.le_of_eq hn)
  -- the slot of `C`
  rw [hdiv] at hfuel
  obtain ⟨i, hi⟩ := Nat.exists_eq_add_of_le hfuel
  have hfuel2 : fuel = (m - 1) + (1 + i) := by omega
  unfold bp__writer_find
  rw [hz]
  simp only [BP_OK, ne_eq, not_true_eq_false, if_false]
  rw [hfuel2, find_loop_add, find_loop_add]
  generalize find_loop ALIGN sn os s seek (m - 1) (find_init pw s data user) = st
    at hrun hoff hsz hfl hfz htr ⊢
  have hoffv : st.offset = 2 * ALIGN + s := by rw [hpfs, hn] at hoff; omega
  have hread := @read_raw ALIGN sn os st.w (st.offset - s) s st.data (by omega) hsle
    (by rw [Nat.mod_eq_of_lt (by omega), hfz, hpfs]; omega)
    (by rw [hfl, hpfile, List.length_append, hPlen, List.length_replicate]; omega)
    (hm _ _) (hr _ _)
  have hslot : slot st.w.file (st.offset - s) s = C := by
    rw [hfl, hpfile, hoffv]
    have hQ : (A ++ List.replicate (ALIGN - s) 0 ++ B ++ List.replicate (ALIGN - s) 0).length
        = 2 * ALIGN + s - s := by
      simp only [List.length_append, List.length_replicate, hlA, hlB]; omega
    rw [← hQ, ← hlC]
    exact slot_at_end _ C _
  rw [hslot] at hread
  have hiter := find_iter_cases ALIGN sn os s seek st hrun
  rw [hsz, hread] at hiter
  rcases hiter with ⟨hc, _⟩ | ⟨_, hne, _⟩ | ⟨_, _, _, he⟩ | ⟨_, _, hq, _⟩
  · omega
  · exact absurd rfl hne
  · refine ⟨(seek st.user { st.w with tick := st.w.tick + 2 } (Ptr.heap C)).user,
      (seek st.user { st.w with tick := st.w.tick + 2 } (Ptr.heap C)).w, st.trace, ?_, htr⟩
    have h1 : find_loop ALIGN sn os s seek 1 st = find_iter ALIGN sn os s seek st := rfl
    rw [h1, he, find_loop_stopped ALIGN sn os s seek i _ rfl]
    simp only [Bool.false_eq_true, if_false, find_finish]
    rw [if_neg (by omega)]
    have h2 : st.offset - s = 2 * ALIGN := by omega
    rw [h2]
  · exact absurd (haccC _ _) hq

/-- Witness of C3 as amended, `ALIGN = 4`, slot size 2: `[1,1]`, `[2,2]`, `[3,3]`
written to a fresh file, `seek` accepting exactly these three.  The scan reads
the padding `[0,0]` at offset 10, which is rejected, then the slot at offset 8,
which holds `[3,3]` and matches. -/
theorem find_last_written_slot_witness :
    (bp__writer_find 4 Snappy.runs Sys.reliable 2
      (after_writes 4 Snappy.runs Sys.reliable (fresh 4) [[1, 1], [2, 2], [3, 3]])
      2 (Ptr.user []) (seek_in [[1, 1], [2, 2], [3, 3]]) (cb_const 7) ()).map
      FindResult.trace =
      some [Event.read 10 2 0 2 (Ptr.heap [0, 0]), Event.seek (Ptr.heap [0, 0]) 1,
        Event.read 8 2 0 2 (Ptr.heap [3, 3]), Event.seek (Ptr.heap [3, 3]) 0] ∧
    ∃ (u2 : Unit) (w2 : bp__writer_t) (T : List Event),
      bp__writer_find 4 Snappy.runs Sys.reliable 2
        (after_writes 4 Snappy.runs Sys.reliable (fresh 4) [[1, 1], [2, 2], [3, 3]])
        2 (Ptr.user []) (seek_in [[1, 1], [2, 2], [3, 3]]) (cb_const 7) () =
        some ⟨0, w2, u2,
          T ++ [Event.read (2 * 4) 2 0 2 (Ptr.heap [3, 3]), Event.seek (Ptr.heap [3, 3]) 0]⟩ ∧
      ∀ e ∈ T, e.is_pad 2 :=
  ⟨by decide,
    (find_last_written_slot 4 Snappy.runs Sys.reliable 2 [1, 1] [2, 2] [3, 3]
      (Ptr.user []) (seek_in [[1, 1], [2, 2], [3, 3]]) (cb_const 7) ()
      (by decide) (by decide) (by decide) (by decide) rfl rfl rfl
      (fun t n => (reliable_all t n).1)
      (fun t n => (reliable_all t n).2.1) (fun t n => (reliable_all t n).2.2)
      (fun _ _ => rfl) (fun _ _ _ => by simp [seek_in, Ptr.bytes])
      (fun _ _ _ _ => ⟨rfl, rfl⟩)).2 2 (by decide)⟩

/-- C11. Decompression dispatch and errors in `bp__writer_read`, for a request
inside `filesize` whose buffer is allocated and whose `pread` returns `size`.
For `size > ALIGN`, when the second buffer is allocated too: the call returns
`BP_ESNAPPYD` exactly when the length query fails or the decompression fails;
then `*size` and `*data` are as they were; otherwise it returns `BP_OK`, `*data`
is a buffer with the decompressed bytes and `*size` their length (as a
`uint32_t`).  For `1 ≤ size ≤ ALIGN`: the call returns `BP_OK`, `*size` is
unchanged, `*data` is a buffer with the bytes `[offset, offset + size)` of the
file, and the result is the same whatever the codec is. -/
theorem read_decompression_dispatch (ALIGN : Nat) (sn : Snappy) (os : Sys) (w : bp__writer_t)
    (offset size : Nat) (data : Ptr) (hb : offset + size ≤ w.filesize)
    (hm : os.malloc w.tick size = true)
    (hrd : (sys_pread os (sys_malloc os w size).2 size offset).1 = (size : Int)) :
    (ALIGN < size →
      (∀ usize, sn.uncompressed_length (slot w.file offset size) = some usize →
        os.malloc (w.tick + 2) usize = true) →
      ((bp__writer_read ALIGN sn os w offset size data).ret = BP_ESNAPPYD ↔
        (sn.uncompressed_length (slot w.file offset size) = none ∨
          ∃ usize, sn.uncompressed_length (slot w.file offset size) = some usize ∧
            sn.uncompress (slot w.file offset size) usize = none)) ∧
      ((bp__writer_read ALIGN sn os w offset size data).ret = BP_ESNAPPYD →
        (bp__writer_read ALIGN sn os w offset size data).size = size ∧
        (bp__writer_read ALIGN sn os w offset size data).data = data) ∧
      ((bp__writer_read ALIGN sn os w offset size data).ret ≠ BP_ESNAPPYD →
        ∃ usize u, sn.uncompressed_length (slot w.file offset size) = some usize ∧
          sn.uncompress (slot w.file offset size) usize = some u ∧
          (bp__writer_read ALIGN sn os w offset size data).ret = BP_OK ∧
          (bp__writer_read ALIGN sn os w offset size data).data = Ptr.heap u ∧
          (bp__writer_read ALIGN sn os w offset size data).size = u.length % UINT32_MOD ∧
          (u.length < UINT32_MOD →
            (bp__writer_read ALIGN sn os w offset size data).size = u.length))) ∧
    (1 ≤ size → size ≤ ALIGN →
      (bp__writer_read ALIGN sn os w offset size data).ret = BP_OK ∧
      (bp__writer_read ALIGN sn os w offset size data).size = size ∧
      (bp__writer_read ALIGN sn os w offset size data).data =
        Ptr.heap (slot w.file offset size) ∧
      ∀ sn2 : Snappy, bp__writer_read ALIGN sn2 os w offset size data =
        bp__writer_read ALIGN sn os w offset size data) := by
  have hnb : ¬ w.filesize < (offset + size) % UINT32_MOD := by
    have := Nat.mod_le (offset + size) UINT32_MOD
    omega
  have hm1 : (sys_malloc os w size).1 = true := hm
  have hdata := sys_pread_data os (sys_malloc os w size).2 size offset hrd
  have hfile : (sys_malloc os w size).2.file = w.file := rfl
  rw [hfile] at hdata
  have htick : (sys_pread os (sys_malloc os w size).2 size offset).2.2.tick = w.tick + 2 := by
    unfold sys_pread
    split <;> rfl
  constructor
  · intro hgt hm2
    have h0 : ¬ size = 0 := by omega
    have hle : ¬ size ≤ ALIGN := by omega
    have hmal : ∀ usize, sn.uncompressed_length (slot w.file offset size) = some usize →
        (sys_malloc os (sys_pread os (sys_malloc os w size).2 size offset).2.2 usize).1
          = true := by
      intro usize hul
      show os.malloc _ usize = true
      rw [htick]
      exact hm2 usize hul
    cases hul : sn.uncompressed_length (slot w.file offset size) with
    | none =>
      have hres : bp__writer_read ALIGN sn os w offset size data =
          ⟨BP_ESNAPPYD, size, data,
            (sys_pread os (sys_malloc os w size).2 size offset).2.2⟩ := by
        unfold bp__writer_read
        simp only [hnb, h0, hm1, hrd, hle, hdata, hul, if_false, Bool.true_eq_false, ne_eq,
          not_true_eq_false]
      rw [hres]
      exact ⟨⟨fun _ => Or.inl rfl, fun _ => rfl⟩, fun _ => ⟨rfl, rfl⟩, fun h => absurd rfl h⟩
    | some usize =>
      have hm3 := hmal usize hul
      cases hun : sn.uncompress (slot w.file offset size) usize with
      | none =>
        have hres : bp__writer_read ALIGN sn os w offset size data =
            ⟨BP_ESNAPPYD, size, data,
              (sys_malloc os (sys_pread os (sys_malloc os w size).2 size offset).2.2
                usize).2⟩ := by
          unfold bp__writer_read
          simp only [hnb, h0, hm1, hrd, hle, hdata, hul, hm3, hun, if_false,
            Bool.true_eq_false, ne_eq, not_true_eq_false]
        rw [hres]
        exact ⟨⟨fun _ => Or.inr ⟨usize, rfl, hun⟩, fun _ => rfl⟩, fun _ => ⟨rfl, rfl⟩,
          fun h => absurd rfl h⟩
      | some u =>
        have hres : bp__writer_read ALIGN sn os w offset size data =
            ⟨BP_OK, u.length % UINT32_MOD, Ptr.heap u,
              (sys_malloc os (sys_pread os (sys_malloc os w size).2 size offset).2.2
                usize).2⟩ := by
          unfold bp__writer_read
          simp only [hnb, h0, hm1, hrd, hle, hdata, hul, hm3, hun, if_false,
            Bool.true_eq_false, ne_eq, not_true_eq_false]
        rw [hres]
        have hne : BP_OK ≠ BP_ESNAPPYD := by decide
        refine ⟨⟨fun h => absurd h hne, ?_⟩, fun h => absurd h hne,
          fun _ => ⟨usize, u, rfl, hun, rfl, rfl, rfl, fun hlt => Nat.mod_eq_of_lt hlt⟩⟩
        rintro (h | ⟨us, h1, h2⟩)
        · cases h
        · cases h1
          rw [hun] at h2
          cases h2
  · intro h1 hle
    have h0 : ¬ size = 0 := by omega
    have hres : ∀ sn2 : Snappy, bp__writer_read ALIGN sn2 os w offset size data =
        ⟨BP_OK, size, Ptr.heap (slot w.file offset size),
          (sys_pread os (sys_malloc os w size).2 size offset).2.2⟩ := by
      intro sn2
      unfold bp__writer_read
      simp only [hnb, h0, hm1, hrd, hle, hdata, if_false, if_true, Bool.true_eq_false, ne_eq,
        not_true_eq_false]
    refine ⟨by rw [hres sn], by rw [hres sn], by rw [hres sn], fun sn2 => ?_⟩
    rw [hres sn2, hres sn]

/-- Witness of C11, `ALIGN = 4`, on a file that starts with a compressed record
of five bytes: reading `(0, 5)` yields the four decompressed bytes and
`*size = 4`; reading `(3, 5)`, which is no output of the codec, returns
`BP_ESNAPPYD` and leaves `*size` and `*data` alone; reading `(1, 3)` yields the
three bytes as they are. -/
theorem read_decompression_dispatch_witness :
    ((bp__writer_read 4 Snappy.runs Sys.reliable w_rec 0 5 Ptr.null).ret = BP_OK ∧
      (bp__writer_read 4 Snappy.runs Sys.reliable w_rec 0 5 Ptr.null).data =
        Ptr.heap [9, 9, 8, 7] ∧
      (bp__writer_read 4 Snappy.runs Sys.reliable w_rec 0 5 Ptr.null).size = 4) ∧
    ((bp__writer_read 4 Snappy.runs Sys.reliable w_rec 3 5 Ptr.null).ret = BP_ESNAPPYD ∧
      (bp__writer_read 4 Snappy.runs Sys.reliable w_rec 3 5 Ptr.null).size = 5 ∧
      (bp__writer_read 4 Snappy.runs Sys.reliable w_rec 3 5 Ptr.null).data = Ptr.null) ∧
    ((bp__writer_read 4 Snappy.runs Sys.reliable w_rec 1 3 Ptr.null).ret = BP_OK ∧
      (bp__writer_read 4 Snappy.runs Sys.reliable w_rec 1 3 Ptr.null).size = 3 ∧
      (bp__writer_read 4 Snappy.runs Sys.reliable w_rec 1 3 Ptr.null).data =
        Ptr.heap [9, 9, 8]) := by
  have h1 := (read_decompression_dispatch 4 Snappy.runs Sys.reliable w_rec 0 5 Ptr.null
    (by decide) rfl (by decide)).1 (by decide) (fun _ _ => rfl)
  have h2 := (read_decompression_dispatch 4 Snappy.runs Sys.reliable w_rec 3 5 Ptr.null
    (by decide) rfl (by decide)).1 (by decide) (fun _ _ => rfl)
  have h3 := (read_decompression_dispatch 4 Snappy.runs Sys.reliable w_rec 1 3 Ptr.null
    (by decide) rfl (by decide)).2 (by decide) (by decide)
  obtain ⟨usize, u, hul, hun, hret, hdata, -, hsize⟩ := h1.2.2 (by decide)
  have hu : u = [9, 9, 8, 7] := by
    have : usize = 4 := by
      have h : Snappy.runs.uncompressed_length (slot w_rec.file 0 5) = some 4 := by decide
      rw [h] at hul
      exact (Option.some.inj hul).symm
    subst this
    have h : Snappy.runs.uncompress (slot w_rec.file 0 5) 4 = some [9, 9, 8, 7] := by decide
    rw [h] at hun
    exact (Option.some.inj hun).symm
  subst hu
  have hE := h2.1.2 (Or.inl (by decide))
  exact ⟨⟨hret, hdata, hsize (by decide)⟩, ⟨hE, (h2.2.1 hE).1, (h2.2.1 hE).2⟩,
    ⟨h3.1, h3.2.1, h3.2.2.1⟩⟩

/-- One call of `bp__writer_write`, whatever the environment and the codec do,
only appends to the file and keeps `filesize` at most the length of the
file. -/
theorem write_keeps_le {ALIGN : Nat} (sn : Snappy) (os : Sys) (w : bp__writer_t)
    (size : Nat) (data : Ptr) (hA : 0 < ALIGN) (hA32 : ALIGN < UINT32_MOD)
    (hwf : w.wf ALIGN) (hinv : w.filesize ≤ w.file.length)
    (hdata : size ≤ data.bytes.length) :
    (bp__writer_write ALIGN sn os w size data).w.filesize ≤
      (bp__writer_write ALIGN sn os w size data).w.file.length ∧
    ∃ bs, (bp__writer_write ALIGN sn os w size data).w.file = w.file ++ bs := by
  have hpl : w.padding.length = ALIGN := by rw [hwf.2, List.length_replicate]
  rcases write_cases sn os w size data hA hA32 hwf.1 hpl with
    ⟨_, hfs, _, _, _, zs, hzs⟩ | ⟨w1, heq, hfs1, _, zs, hzs, hzl⟩
  · refine ⟨?_, zs, hzs⟩
    rw [hfs, hzs, List.length_append]
    omega
  · rw [heq]
    have hw1 : w1.filesize ≤ w1.file.length := by
      rw [hfs1, hzs, List.length_append, hzl]
      have := Nat.mod_le (w.filesize + pad_len ALIGN w.filesize) UINT32_MOD
      omega
    rcases @write_payload_cases ALIGN sn os w1 size data with
      ⟨_, hres⟩ | ⟨_, _, c, bs, _, _, hfs, _, hfile, hbl, _⟩ | ⟨_, _, _, hfs, _, bs, hfile⟩
    · rw [hres]
      exact ⟨hw1, zs, hzs⟩
    · refine ⟨?_, zs ++ bs, by rw [hfile, hzs, List.append_assoc]⟩
      rw [hfs, hfile, List.length_append, hbl hdata]
      have := Nat.mod_le (w1.filesize + c) UINT32_MOD
      omega
    · refine ⟨?_, zs ++ bs, by rw [hfile, hzs, List.append_assoc]⟩
      rw [hfs, hfile, List.length_append]
      omega

/-- With callbacks that leave the handle alone, the loop of `bp__writer_find`
keeps the file and `filesize` of the handle. -/
theorem find_loop_keeps {κ : Type} (ALIGN : Nat) (sn : Snappy) (os : Sys) (size : Nat)
    (seek : bp__writer_cb κ) (hseek : ∀ u w d, (seek u w d).w = w)
    (n : Nat) (st : Loop κ) :
    (find_loop ALIGN sn os size seek n st).w.file = st.w.file ∧
    (find_loop ALIGN sn os size seek n st).w.filesize = st.w.filesize := by
  refine find_loop_induct ALIGN sn os size seek
    (fun x => x.w.file = st.w.file ∧ x.w.filesize = st.w.filesize) ?_ n st ⟨rfl, rfl⟩
  intro x hx
  cases hrun : x.running with
  | false => rw [find_iter_stopped ALIGN sn os size seek x hrun]; exact hx
  | true =>
    have hp := read_preserves ALIGN sn os x.w (x.offset - size) x.size_tmp x.data
    rcases find_iter_cases ALIGN sn os size seek x hrun with
      ⟨_, he⟩ | ⟨_, _, he⟩ | ⟨_, _, _, he⟩ | ⟨_, _, _, he⟩
    · rw [he]; exact hx
    · rw [he]
      exact ⟨hp.1.trans hx.1, hp.2.1.trans hx.2⟩
    · rw [he]
      show (seek _ _ _).w.file = _ ∧ (seek _ _ _).w.filesize = _
      rw [hseek]
      exact ⟨hp.1.trans hx.1, hp.2.1.trans hx.2⟩
    · rw [he]
      show (seek _ _ _).w.file = _ ∧ (seek _ _ _).w.filesize = _
      rw [hseek]
      exact ⟨hp.1.trans hx.1, hp.2.1.trans hx.2⟩

/-- C12. The tracked `filesize` never exceeds the length of the file.  The
property holds after a successful `bp__writer_create`, and every operation
keeps it (together with the well-formedness of the handle): `bp__writer_write`
whatever the environment and the codec do (success, failed or short padding
write, failed allocation or compression, short payload write), which moreover
only appends to the file; `bp__writer_read`, which changes neither the file nor
`filesize`; `bp__writer_find` with callbacks that leave the handle alone. -/
theorem filesize_le_file_length {κ : Type} (ALIGN : Nat) (sn : Snappy) (os : Sys)
    (hA : 0 < ALIGN) (hA32 : ALIGN < UINT32_MOD) :
    (∀ w0 disk, (bp__writer_create ALIGN os w0 disk).1 = BP_OK →
      (bp__writer_create ALIGN os w0 disk).2.wf ALIGN ∧
      (bp__writer_create ALIGN os w0 disk).2.filesize ≤
        (bp__writer_create ALIGN os w0 disk).2.file.length) ∧
    (∀ w size data, w.wf ALIGN → w.filesize ≤ w.file.length → size ≤ data.bytes.length →
      (bp__writer_write ALIGN sn os w size data).w.wf ALIGN ∧
      (bp__writer_write ALIGN sn os w size data).w.filesize ≤
        (bp__writer_write ALIGN sn os w size data).w.file.length ∧
      ∃ bs, (bp__writer_write ALIGN sn os w size data).w.file = w.file ++ bs) ∧
    (∀ w offset size data, w.wf ALIGN → w.filesize ≤ w.file.length →
      (bp__writer_read ALIGN sn os w offset size data).w.wf ALIGN ∧
      (bp__writer_read ALIGN sn os w offset size data).w.filesize ≤
        (bp__writer_read ALIGN sn os w offset size data).w.file.length ∧
      (bp__writer_read ALIGN sn os w offset size data).w.file = w.file) ∧
    (∀ w size data (seek miss : bp__writer_cb κ) user fuel (r : FindResult κ),
      w.wf ALIGN → w.filesize ≤ w.file.length →
      (∀ u w2 d, (seek u w2 d).w = w2) → (∀ u w2 d, (miss u w2 d).w = w2) →
      bp__writer_find ALIGN sn os fuel w size data seek miss user = some r →
      r.w.filesize ≤ r.w.file.length ∧ ∃ bs, r.w.file = w.file ++ bs) := by
  have hM : 0 < UINT32_MOD := by decide
  have hE : BP_EFILE ≠ BP_OK := by decide
  refine ⟨?_, ?_, ?_, ?_⟩
  · intro w0 disk hok
    unfold bp__writer_create at hok ⊢
    by_cases h1 : os.open_ok = false
    · rw [if_pos h1] at hok; exact absurd hok hE
    · rw [if_neg h1] at hok ⊢
      by_cases h2 : os.lseek_ok = false
      · rw [if_pos h2] at hok; exact absurd hok hE
      · rw [if_neg h2]
        exact ⟨⟨Nat.mod_lt _ hM, rfl⟩, Nat.mod_le _ _⟩
  · intro w size data hwf hinv hdata
    obtain ⟨h1, h2⟩ := write_keeps_le sn os w size data hA hA32 hwf hinv hdata
    exact ⟨(write_step sn os w size data hA hA32 hwf).1, h1, h2⟩
  · intro w offset size data hwf hinv
    obtain ⟨hf, hfs, hpd⟩ := read_preserves ALIGN sn os w offset size data
    exact ⟨⟨by rw [hfs]; exact hwf.1, by rw [hpd]; exact hwf.2⟩, by rw [hf, hfs]; exact hinv, hf⟩
  · intro w size data seek miss user fuel r hwf hinv hseek hmiss hfind
    obtain ⟨hp1, bs, hp2⟩ := write_keeps_le sn os w 0 Ptr.null hA hA32 hwf hinv
      (Nat.zero_le _)
    unfold bp__writer_find at hfind
    by_cases hp : (bp__writer_write ALIGN sn os w 0 Ptr.null).ret = 0
    · simp only [hp, ne_eq, not_true_eq_false, if_false] at hfind
      obtain ⟨hl1, hl2⟩ := find_loop_keeps ALIGN sn os size seek hseek fuel
        (find_init (bp__writer_write ALIGN sn os w 0 Ptr.null).w size data user)
      generalize find_loop ALIGN sn os size seek fuel
        (find_init (bp__writer_write ALIGN sn os w 0 Ptr.null).w size data user) = st
        at hfind hl1 hl2
      split at hfind
      · cases hfind
      · have hr : r = find_finish size miss st := (Option.some.inj hfind).symm
        have hrw : r.w = st.w := by
          rw [hr]
          unfold find_finish
          split
          · exact hmiss _ _ _
          · rfl
        rw [hrw, hl1, hl2]
        exact ⟨hp1, bs, hp2⟩
    · simp only [hp, ne_eq, not_false_eq_true, if_true] at hfind
      have hr : r.w = (bp__writer_write ALIGN sn os w 0 Ptr.null).w := by
        rw [← Option.some.inj hfind]
      rw [hr]
      exact ⟨hp1, bs, hp2⟩

/-- Witness of C12, `ALIGN = 4`: a handle made on a file of three bytes, then a
write whose payload write is short (one byte of two reaches the file): the file
has grown to five bytes and `filesize` is 4. -/
theorem filesize_le_file_length_witness :
    (bp__writer_create 4 (Sys.short_at 1 1) (fresh 4) [5, 5, 5]).2.filesize = 3 ∧
    (bp__writer_write 4 Snappy.runs (Sys.short_at 1 1)
      (bp__writer_create 4 (Sys.short_at 1 1) (fresh 4) [5, 5, 5]).2 2 (Ptr.user [1, 2])).w.filesize
      ≤ (bp__writer_write 4 Snappy.runs (Sys.short_at 1 1)
      (bp__writer_create 4 (Sys.short_at 1 1) (fresh 4) [5, 5, 5]).2 2 (Ptr.user [1, 2])).w.file.length
    ∧ (bp__writer_write 4 Snappy.runs (Sys.short_at 1 1)
      (bp__writer_create 4 (Sys.short_at 1 1) (fresh 4) [5, 5, 5]).2 2 (Ptr.user [1, 2])).w.file =
      [5, 5, 5, 0, 1] := by
  have h := @filesize_le_file_length Unit 4 Snappy.runs (Sys.short_at 1 1) (by decide)
    (by decide)
  have hc := h.1 (fresh 4) [5, 5, 5] (by decide)
  have hw := h.2.1 (bp__writer_create 4 (Sys.short_at 1 1) (fresh 4) [5, 5, 5]).2 2
    (Ptr.user [1, 2]) hc.1 hc.2 (by decide)
  exact ⟨by decide, hw.2.1, by decide⟩

theorem counts_append_read (T : List Event) (off sz : Nat) (ret : Int) (so : Nat) (d : Ptr) :
    reads (T ++ [Event.read off sz ret so d]) = reads T + 1 ∧
    seeks (T ++ [Event.read off sz ret so d]) = seeks T ∧
    misses (T ++ [Event.read off sz ret so d]) = misses T := by
  simp [reads, seeks, misses, List.countP_append, List.countP_cons, Event.is_read,
    Event.is_seek, Event.is_miss]

theorem counts_append_read_seek (T : List Event) (off sz : Nat) (ret : Int) (so : Nat)
    (d d2 : Ptr) (q : Int) :
    reads (T ++ [Event.read off sz ret so d, Event.seek d2 q]) = reads T + 1 ∧
    seeks (T ++ [Event.read off sz ret so d, Event.seek d2 q]) = seeks T + 1 ∧
    misses (T ++ [Event.read off sz ret so d, Event.seek d2 q]) = misses T := by
  simp [reads, seeks, misses, List.countP_append, List.countP_cons, Event.is_read,
    Event.is_seek, Event.is_miss]

theorem counts_append_miss (T : List Event) (d : Ptr) (m : Int) :
    reads (T ++ [Event.miss d m]) = reads T ∧
    seeks (T ++ [Event.miss d m]) = seeks T ∧
    misses (T ++ [Event.miss d m]) = misses T + 1 := by
  simp [reads, seeks, misses, List.countP_append, List.countP_cons, Event.is_read,
    Event.is_seek, Event.is_miss]

/-- One test-and-body of the loop keeps `count_inv`, and if the loop still runs
afterwards exactly one more read was made. -/
theorem count_inv_iter {κ : Type} (ALIGN : Nat) (sn : Snappy) (os : Sys) (s F : Nat)
    (seek : bp__writer_cb κ) (st : Loop κ) (h : count_inv F s st) :
    count_inv F s (find_iter ALIGN sn os s seek st) ∧
    ((find_iter ALIGN sn os s seek st).running = true →
      st.running = true ∧
      reads (find_iter ALIGN sn os s seek st).trace = reads st.trace + 1) := by
  cases hrun : st.running with
  | false =>
    rw [find_iter_stopped ALIGN sn os s seek st hrun]
    exact ⟨h, fun h2 => by rw [hrun] at h2; cases h2⟩
  | true =>
    obtain ⟨hsr, hm, hle, hoff⟩ := h
    have hoff := hoff hrun
    have hmul : (reads st.trace + 1) * s = reads st.trace * s + s := by
      rw [Nat.add_mul, Nat.one_mul]
    rcases find_iter_cases ALIGN sn os s seek st hrun with
      ⟨_, he⟩ | ⟨hc, _, he⟩ | ⟨hc, _, _, he⟩ | ⟨hc, _, _, he⟩
    · rw [he]
      exact ⟨⟨hsr, hm, hle, fun h2 => by cases h2⟩, fun h2 => by cases h2⟩
    · rw [he]
      obtain ⟨c1, c2, c3⟩ := counts_append_read st.trace (st.offset - s) st.size_tmp
        (bp__writer_read ALIGN sn os st.w (st.offset - s) st.size_tmp st.data).ret
        (bp__writer_read ALIGN sn os st.w (st.offset - s) st.size_tmp st.data).size
        (bp__writer_read ALIGN sn os st.w (st.offset - s) st.size_tmp st.data).data
      refine ⟨⟨?_, ?_, ?_, fun h2 => by cases h2⟩, fun h2 => by cases h2⟩
      · show seeks (_ ++ _) ≤ reads (_ ++ _)
        rw [c1, c2]; omega
      · show misses (_ ++ _) = 0
        rw [c3]; exact hm
      · show reads (_ ++ _) * s ≤ F
        rw [c1]; omega
    · rw [he]
      obtain ⟨c1, c2, c3⟩ := counts_append_read_seek st.trace (st.offset - s) st.size_tmp 0
        (bp__writer_read ALIGN sn os st.w (st.offset - s) st.size_tmp st.data).size
        (bp__writer_read ALIGN sn os st.w (st.offset - s) st.size_tmp st.data).data
        (bp__writer_read ALIGN sn os st.w (st.offset - s) st.size_tmp st.data).data 0
      refine ⟨⟨?_, ?_, ?_, fun h2 => by cases h2⟩, fun h2 => by cases h2⟩
      · show seeks (_ ++ _) ≤ reads (_ ++ _)
        rw [c1, c2]; omega
      · show misses (_ ++ _) = 0
        rw [c3]; exact hm
      · show reads (_ ++ _) * s ≤ F
        rw [c1]; omega
    · rw [he]
      obtain ⟨c1, c2, c3⟩ := counts_append_read_seek st.trace (st.offset - s) st.size_tmp 0
        (bp__writer_read ALIGN sn os st.w (st.offset - s) st.size_tmp st.data).size
        (bp__writer_read ALIGN sn os st.w (st.offset - s) st.size_tmp st.data).data
        (bp__writer_read ALIGN sn os st.w (st.offset - s) st.size_tmp st.data).data
        (seek st.user
          (bp__writer_read ALIGN sn os st.w (st.offset - s) st.size_tmp st.data).w
          (bp__writer_read ALIGN sn os st.w (st.offset - s) st.size_tmp st.data).data).ret
      refine ⟨⟨?_, ?_, ?_, fun _ => ?_⟩, fun _ => ⟨rfl, c1⟩⟩
      · show seeks (_ ++ _) ≤ reads (_ ++ _)
        rw [c1, c2]; omega
      · show misses (_ ++ _) = 0
        rw [c3]; exact hm
      · show reads (_ ++ _) * s ≤ F
        rw [c1]; omega
      · show st.offset - s + reads (_ ++ _) * s = F
        rw [c1]; omega

/-- After `n` tests of the loop condition: `count_inv` holds, and if the loop
still runs exactly `n` reads were made. -/
theorem count_inv_loop {κ : Type} (ALIGN : Nat) (sn : Snappy) (os : Sys) (s : Nat)
    (seek : bp__writer_cb κ) (w : bp__writer_t) (data : Ptr) (user : κ) (n : Nat) :
    count_inv w.filesize s (find_loop ALIGN sn os s seek n (find_init w s data user)) ∧
    ((find_loop ALIGN sn os s seek n (find_init w s data user)).running = true →
      reads (find_loop ALIGN sn os s seek n (find_init w s data user)).trace = n) := by
  induction n with
  | zero =>
    refine ⟨⟨?_, ?_, ?_, fun _ => ?_⟩, fun _ => ?_⟩
    all_goals simp [find_loop, find_init, reads, seeks, misses]
  | succ n ih =>
    rw [find_loop_succ]
    obtain ⟨h1, h2⟩ := count_inv_iter ALIGN sn os s w.filesize seek _ ih.1
    refine ⟨h1, fun hrun => ?_⟩
    obtain ⟨hr0, hr1⟩ := h2 hrun
    rw [hr1, ih.2 hr0]

/-- C16. `bp__writer_find` terminates with a linear bound.  For every slot size
`s ≥ 1`, every handle, environment, codec and callbacks, with `F` the `filesize`
that the pad-only write leaves: the loop has been left after `F / s + 1` tests
of its condition, so `bp__writer_find` returns the same result for every fuel
of at least `F / s + 1`; it made at most `F / s` reads and at most `F / s`
calls of `seek`, and at most one call of `miss`. -/
theorem find_terminates {κ : Type} (ALIGN : Nat) (sn : Snappy) (os : Sys) (w : bp__writer_t)
    (s : Nat) (data : Ptr) (seek miss : bp__writer_cb κ) (user : κ) (hs : 1 ≤ s) :
    (find_loop ALIGN sn os s seek ((bp__writer_write ALIGN sn os w 0 Ptr.null).w.filesize / s + 1)
      (find_init (bp__writer_write ALIGN sn os w 0 Ptr.null).w s data user)).running = false ∧
    ∃ r : FindResult κ,
      (∀ k, (bp__writer_write ALIGN sn os w 0 Ptr.null).w.filesize / s + 1 ≤ k →
        bp__writer_find ALIGN sn os k w s data seek miss user = some r) ∧
      reads r.trace ≤ (bp__writer_write ALIGN sn os w 0 Ptr.null).w.filesize / s ∧
      seeks r.trace ≤ (bp__writer_write ALIGN sn os w 0 Ptr.null).w.filesize / s ∧
      misses r.trace ≤ 1 := by
  generalize hpw : bp__writer_write ALIGN sn os w 0 Ptr.null = p
  obtain ⟨⟨hsr, hm, hle, hoff⟩, hn⟩ := count_inv_loop ALIGN sn os s seek p.w data user
    (p.w.filesize / s + 1)
  have hspos : 0 < s := hs
  have hstop : (find_loop ALIGN sn os s seek (p.w.filesize / s + 1)
      (find_init p.w s data user)).running = false := by
    cases hrun : (find_loop ALIGN sn os s seek (p.w.filesize / s + 1)
      (find_init p.w s data user)).running with
    | false => rfl
    | true =>
      rw [hn hrun] at hle
      have h1 := Nat.div_add_mod p.w.filesize s
      have h2 := Nat.mod_lt p.w.filesize hspos
      have h3 : (p.w.filesize / s + 1) * s = s * (p.w.filesize / s) + s := by
        rw [Nat.add_mul, Nat.one_mul, Nat.mul_comm]
      omega
  have hrd : reads (find_loop ALIGN sn os s seek (p.w.filesize / s + 1)
      (find_init p.w s data user)).trace ≤ p.w.filesize / s :=
    (Nat.le_div_iff_mul_le hspos).2 hle
  refine ⟨hstop, ?_⟩
  by_cases hp : p.ret = 0
  · refine ⟨find_finish s miss (find_loop ALIGN sn os s seek (p.w.filesize / s + 1)
      (find_init p.w s data user)), ?_, ?_⟩
    · intro k hk
      obtain ⟨i, rfl⟩ := Nat.exists_eq_add_of_le hk
      unfold bp__writer_find
      rw [hpw]
      simp only [hp, ne_eq, not_true_eq_false, if_false]
      rw [find_loop_add, find_loop_stopped ALIGN sn os s seek i _ hstop]
      simp only [hstop, Bool.false_eq_true, if_false]
    · generalize find_loop ALIGN sn os s seek (p.w.filesize / s + 1)
        (find_init p.w s data user) = st at hsr hm hrd
      unfold find_finish
      split
      · obtain ⟨c1, c2, c3⟩ := counts_append_miss st.trace st.data
          (miss st.user st.w st.data).ret
        refine ⟨?_, ?_, ?_⟩
        · show reads (_ ++ _) ≤ _
          rw [c1]; exact hrd
        · show seeks (_ ++ _) ≤ _
          rw [c2]; omega
        · show misses (_ ++ _) ≤ 1
          rw [c3]; omega
      · exact ⟨hrd, by show seeks st.trace ≤ _; omega, by show misses st.trace ≤ 1; omega⟩
  · refine ⟨⟨p.ret, p.w, user, []⟩, ?_, ?_⟩
    · intro k _
      unfold bp__writer_find
      rw [hpw]
      simp only [hp, ne_eq, not_false_eq_true, if_true]
    · simp [reads, seeks, misses]

/-- Witness of C16, `ALIGN = 4`, a file of two slots of four bytes, everything
rejected: the loop is left after three tests of its condition, with two reads,
two calls of `seek` and one call of `miss`. -/
theorem find_terminates_witness :
    ∃ r : FindResult Unit,
      bp__writer_find 4 Snappy.runs Sys.reliable 3 w_eight 4 (Ptr.user [9]) (cb_const 1)
        (cb_const 0) () = some r ∧
      reads r.trace = 2 ∧ seeks r.trace = 2 ∧ misses r.trace = 1 := by
  obtain ⟨-, r, hr, -, -, -⟩ := find_terminates 4 Snappy.runs Sys.reliable w_eight 4
    (Ptr.user [9]) (cb_const 1) (cb_const 0) () (by decide)
  have h3 := hr 3 (by decide)
  refine ⟨r, h3, ?_⟩
  have hev : (bp__writer_find 4 Snappy.runs Sys.reliable 3 w_eight 4 (Ptr.user [9]) (cb_const 1)
      (cb_const 0) ()).map (fun x => (reads x.trace, seeks x.trace, misses x.trace)) =
      some (2, 2, 1) := by decide
  rw [h3] at hev
  have := Option.some.inj hev
  simp only [Prod.mk.injEq] at this
  exact this

/-- An empty read inside `filesize` returns on line 48: nothing is called and
nothing changes. -/
theorem read_empty (ALIGN : Nat) (sn : Snappy) (os : Sys) (w : bp__writer_t)
    (offset : Nat) (data : Ptr) (h32 : offset < UINT32_MOD) (hb : offset ≤ w.filesize) :
    bp__writer_read ALIGN sn os w offset 0 data = ⟨BP_OK, 0, data, w⟩ := by
  unfold bp__writer_read
  rw [Nat.add_zero, Nat.mod_eq_of_lt h32, if_neg (by omega), if_pos rfl]

/-- C17. `bp__writer_find` with slot size `0` makes no progress.  Let the
pad-only write succeed and leave `filesize = F`, and let `seek` never return
`0` and never lower `filesize`.  Then after any number `n` of tests of the loop
condition the loop is still running with `offset = F` (so the condition
`offset >= 0` holds again), `data` is still the seed, the `2 * n` calls made so
far are empty reads at `F` (returning `0`, leaving `*size = 0` and `*data` the
seed) and calls of `seek` on the seed, `miss` was not called, and
`bp__writer_find` has not returned. -/
theorem find_size_zero_spins {κ : Type} (ALIGN : Nat) (sn : Snappy) (os : Sys)
    (w : bp__writer_t) (seed : Ptr) (seek miss : bp__writer_cb κ) (user : κ)
    (hA : 0 < ALIGN) (hA32 : ALIGN < UINT32_MOD) (hwf : w.wf ALIGN)
    (hret : (bp__writer_write ALIGN sn os w 0 Ptr.null).ret = 0)
    (hnever : ∀ u w2 d, (seek u w2 d).ret ≠ 0)
    (hmono : ∀ u w2 d, w2.filesize ≤ (seek u w2 d).w.filesize) (n : Nat) :
    (find_loop ALIGN sn os 0 seek n
      (find_init (bp__writer_write ALIGN sn os w 0 Ptr.null).w 0 seed user)).running = true ∧
    (find_loop ALIGN sn os 0 seek n
      (find_init (bp__writer_write ALIGN sn os w 0 Ptr.null).w 0 seed user)).offset =
      (bp__writer_write ALIGN sn os w 0 Ptr.null).w.filesize ∧
    (find_loop ALIGN sn os 0 seek n
      (find_init (bp__writer_write ALIGN sn os w 0 Ptr.null).w 0 seed user)).data = seed ∧
    (find_loop ALIGN sn os 0 seek n
      (find_init (bp__writer_write ALIGN sn os w 0 Ptr.null).w 0 seed user)).trace.length
      = 2 * n ∧
    (∀ e ∈ (find_loop ALIGN sn os 0 seek n
      (find_init (bp__writer_write ALIGN sn os w 0 Ptr.null).w 0 seed user)).trace,
      e.is_idle (bp__writer_write ALIGN sn os w 0 Ptr.null).w.filesize seed) ∧
    bp__writer_find ALIGN sn os n w 0 seed seek miss user = none := by
  have hpwf := (write_step sn os w 0 Ptr.null hA hA32 hwf).1
  generalize hp : bp__writer_write ALIGN sn os w 0 Ptr.null = p at hret hpwf ⊢
  have key : (find_loop ALIGN sn os 0 seek n (find_init p.w 0 seed user)).running = true ∧
      (find_loop ALIGN sn os 0 seek n (find_init p.w 0 seed user)).offset = p.w.filesize ∧
      (find_loop ALIGN sn os 0 seek n (find_init p.w 0 seed user)).data = seed ∧
      (find_loop ALIGN sn os 0 seek n (find_init p.w 0 seed user)).size_tmp = 0 ∧
      p.w.filesize ≤
        (find_loop ALIGN sn os 0 seek n (find_init p.w 0 seed user)).w.filesize ∧
      (find_loop ALIGN sn os 0 seek n (find_init p.w 0 seed user)).trace.length = 2 * n ∧
      ∀ e ∈ (find_loop ALIGN sn os 0 seek n (find_init p.w 0 seed user)).trace,
        e.is_idle p.w.filesize seed := by
    induction n with
    | zero =>
      refine ⟨rfl, rfl, rfl, rfl, Nat.le_refl _, rfl, ?_⟩
      intro e he
      simp [find_loop, find_init] at he
    | succ n ih =>
      obtain ⟨hrun, hoff, hdata, hsz, hfs, hlen, htr⟩ := ih
      rw [find_loop_succ]
      generalize find_loop ALIGN sn os 0 seek n (find_init p.w 0 seed user) = st
        at hrun hoff hdata hsz hfs hlen htr ⊢
      have hread := read_empty ALIGN sn os st.w (st.offset - 0) st.data
        (by rw [Nat.sub_zero, hoff]; exact hpwf.1) (by rw [Nat.sub_zero, hoff]; exact hfs)
      have hiter := find_iter_cases ALIGN sn os 0 seek st hrun
      rw [hsz, hread] at hiter
      rcases hiter with ⟨hc, _⟩ | ⟨_, hne, _⟩ | ⟨_, _, hq, _⟩ | ⟨_, _, hq, he⟩
      · omega
      · exact absurd rfl hne
      · exact absurd hq (hnever _ _ _)
      · rw [he]
        refine ⟨hrun, ?_, hdata, rfl, ?_, ?_, ?_⟩
        · show st.offset - 0 = _
          rw [Nat.sub_zero, hoff]
        · show p.w.filesize ≤ (seek _ _ _).w.filesize
          exact Nat.le_trans hfs (hmono _ _ _)
        · show (st.trace ++ [_, _]).length = _
          rw [List.length_append, hlen]
          simp only [List.length_cons, List.length_nil]
          omega
        · intro e hmem
          rcases List.mem_append.1 hmem with hmem | hmem
          · exact htr e hmem
          · rcases List.mem_cons.1 hmem with h1 | h1
            · rw [h1]
              exact ⟨by rw [Nat.sub_zero, hoff], rfl, rfl, rfl, hdata⟩
            · rw [List.mem_singleton.1 h1]
              exact ⟨hdata, hq⟩
  obtain ⟨hrun, hoff, hdata, -, -, hlen, htr⟩ := key
  refine ⟨hrun, hoff, hdata, hlen, htr, ?_⟩
  unfold bp__writer_find
  rw [hp]
  simp only [hret, ne_eq, not_true_eq_false, if_false, hrun, if_true]

/-- Witness of C17, `ALIGN = 4`, a file of eight tracked bytes, `seek` always
returning 1: after five tests of the loop condition the loop still runs at
`offset = 8` with the seed in `data`, and `bp__writer_find` has not returned. -/
theorem find_size_zero_spins_witness :
    (find_loop 4 Snappy.runs Sys.reliable 0 (cb_const 1) 5
      (find_init (bp__writer_write 4 Snappy.runs Sys.reliable w_eight 0 Ptr.null).w 0
        (Ptr.user [9]) ())).offset = 8 ∧
    (find_loop 4 Snappy.runs Sys.reliable 0 (cb_const 1) 5
      (find_init (bp__writer_write 4 Snappy.runs Sys.reliable w_eight 0 Ptr.null).w 0
        (Ptr.user [9]) ())).trace.length = 2 * 5 ∧
    bp__writer_find 4 Snappy.runs Sys.reliable 5 w_eight 0 (Ptr.user [9]) (cb_const 1)
      (cb_const 0) () = none := by
  have h := find_size_zero_spins 4 Snappy.runs Sys.reliable w_eight (Ptr.user [9]) (cb_const 1)
    (cb_const 0) () (by decide) (by decide) ⟨by decide, rfl⟩ (by decide)
    (fun _ _ _ => (by decide : (1 : Int) ≠ 0)) (fun _ _ _ => Nat.le_refl _) 5
  exact ⟨h.2.1, h.2.2.2.1, h.2.2.2.2.2⟩

/-- What a successful `bp__writer_read` leaves in `*data`: a buffer from
`malloc` when the size is not zero, what was there when it is. -/
theorem read_ok_data (ALIGN : Nat) (sn : Snappy) (os : Sys) (w : bp__writer_t)
    (offset size : Nat) (data : Ptr)
    (hok : (bp__writer_read ALIGN sn os w offset size data).ret = 0) :
    (size ≠ 0 → ∃ b, (bp__writer_read ALIGN sn os w offset size data).data = Ptr.heap b) ∧
    (size = 0 → (bp__writer_read ALIGN sn os w offset size data).data = data) := by
  unfold bp__writer_read at hok ⊢
  dsimp only at hok ⊢
  split at hok
  · simp [BP_EFILEREAD_OOB] at hok
  · rw [if_neg (by assumption)]
    split at hok
    · rename_i h0
      rw [if_pos h0]
      exact ⟨fun h => absurd h0 h, fun _ => rfl⟩
    · rename_i h0
      rw [if_neg h0]
      refine ⟨fun _ => ?_, fun h => absurd h h0⟩
      split at hok
      · simp [BP_EALLOC] at hok
      · rename_i hm
        rw [if_neg hm]
        split at hok
        · simp [BP_EFILEREAD] at hok
        · rename_i hr
          rw [if_neg hr]
          split at hok
          · rename_i hle
            rw [if_pos hle]
            exact ⟨_, rfl⟩
          · rename_i hle
            rw [if_neg hle]
            split at hok
            · simp [BP_ESNAPPYD] at hok
            · rename_i usize hul
              split at hok
              · simp [BP_EALLOC] at hok
              · rename_i hm2
                split at hok
                · simp [BP_ESNAPPYD] at hok
                · rename_i u hun
                  simp only [hul, hm2, hun, if_false]
                  exact ⟨_, rfl⟩

theorem seed_inv_iter {κ : Type} (ALIGN : Nat) (sn : Snappy) (os : Sys) (size F : Nat)
    (seed : Ptr) (seek : bp__writer_cb κ) (hs : 1 ≤ size) (st : Loop κ)
    (h : seed_inv size F seed st) :
    seed_inv size F seed (find_iter ALIGN sn os size seek st) := by
  cases hrun : st.running with
  | false => rw [find_iter_stopped ALIGN sn os size seek st hrun]; exact h
  | true =>
    have hcur := h.1 hrun
    rcases find_iter_cases ALIGN sn os size seek st hrun with
      ⟨hc, he⟩ | ⟨hc, _, he⟩ | ⟨hc, _, _, he⟩ | ⟨hc, hr, hq, he⟩
    · rw [he]
      refine ⟨fun h2 => (by cases h2), fun _ _ => ?_⟩
      rcases hcur with ⟨ht, hd, ho, _⟩ | hB
      · exact Or.inl ⟨by omega, ht, hd⟩
      · exact Or.inr hB
    · rw [he]
      exact ⟨fun h2 => (by cases h2), fun _ hlt => absurd hc (Nat.not_le_of_lt hlt)⟩
    · rw [he]
      exact ⟨fun h2 => (by cases h2), fun _ hlt => absurd hc (Nat.not_le_of_lt hlt)⟩
    · have hdat := read_ok_data ALIGN sn os st.w (st.offset - size) st.size_tmp st.data hr
      have hheap : size ≤ F ∧ ∃ b,
          (bp__writer_read ALIGN sn os st.w (st.offset - size) st.size_tmp st.data).data
            = Ptr.heap b := by
        rcases hcur with ⟨_, _, ho, hsz⟩ | ⟨hle, _, _, _, _, _, b, _, hd⟩
        · exact ⟨by omega, hdat.1 (by omega)⟩
        · refine ⟨hle, ?_⟩
          by_cases h0 : st.size_tmp = 0
          · exact ⟨b, by rw [hdat.2 h0, hd]⟩
          · exact hdat.1 h0
      obtain ⟨hle, b, hb⟩ := hheap
      rw [he]
      refine ⟨fun _ => Or.inr ⟨hle, st.trace, st.offset - size, st.size_tmp,
        (bp__writer_read ALIGN sn os st.w (st.offset - size) st.size_tmp st.data).size,
        (seek st.user (bp__writer_read ALIGN sn os st.w (st.offset - size) st.size_tmp st.data).w
          (bp__writer_read ALIGN sn os st.w (st.offset - size) st.size_tmp st.data).data).ret,
        b, ?_, hb⟩, fun h2 => ?_⟩
      · show st.trace ++ [_, _] = _
        rw [hb]
      · rw [hrun] at h2; cases h2

/-- The invariant `seed_inv` holds all along the loop. -/
theorem seed_inv_loop {κ : Type} (ALIGN : Nat) (sn : Snappy) (os : Sys) (size : Nat)
    (seed : Ptr) (seek : bp__writer_cb κ) (hs : 1 ≤ size) (w : bp__writer_t) (user : κ)
    (n : Nat) :
    seed_inv size w.filesize seed
      (find_loop ALIGN sn os size seek n (find_init w size seed user)) := by
  refine find_loop_induct ALIGN sn os size seek (seed_inv size w.filesize seed)
    (seed_inv_iter ALIGN sn os size w.filesize seed seek hs) n _ ?_
  exact ⟨fun _ => Or.inl ⟨rfl, rfl, rfl, rfl⟩, fun h => (by cases h)⟩

/-- C13, counterexample.  `ALIGN = 4`, a file of two slots of four bytes, slot
size 4, seed `Ptr.user [9]`, `seek` rejecting both slots, every call of the
environment succeeding: the scan is exhausted without a match and `miss` is
called once, on the buffer of the last read (the bytes of the slot at offset
0), which is not the seed. -/
theorem miss_not_given_seed :
    (bp__writer_find 4 Snappy.runs Sys.reliable 3 w_eight 4 (Ptr.user [9]) (cb_const 1)
      (cb_const 7) ()).map (fun r => (r.ret, r.trace.getLast?)) =
      some (7, some (Event.miss (Ptr.heap [1, 1, 1, 1]) 7)) ∧
    misses [Event.read 4 4 0 4 (Ptr.heap [2, 2, 2, 2]), Event.seek (Ptr.heap [2, 2, 2, 2]) 1,
      Event.read 0 4 0 4 (Ptr.heap [1, 1, 1, 1]), Event.seek (Ptr.heap [1, 1, 1, 1]) 1,
      Event.miss (Ptr.heap [1, 1, 1, 1]) 7] = 1 ∧
    (bp__writer_find 4 Snappy.runs Sys.reliable 3 w_eight 4 (Ptr.user [9]) (cb_const 1)
      (cb_const 7) ()).map FindResult.trace =
      some [Event.read 4 4 0 4 (Ptr.heap [2, 2, 2, 2]), Event.seek (Ptr.heap [2, 2, 2, 2]) 1,
        Event.read 0 4 0 4 (Ptr.heap [1, 1, 1, 1]), Event.seek (Ptr.heap [1, 1, 1, 1]) 1,
        Event.miss (Ptr.heap [1, 1, 1, 1]) 7] ∧
    Ptr.heap [1, 1, 1, 1] ≠ Ptr.user [9] := by
  decide

/-- C13, amended.  Let the pad-only write succeed and leave the handle `pw`
with `filesize = F`, and let the slot size be at least 1.
If `F < size`, no slot is read: for every fuel of at least 1 `bp__writer_find`
calls `miss` on the seed, makes no other call, and returns what `miss`
returned.
If `size ≤ F` and the scan is exhausted after `n` tests of the loop
condition (the loop was left with `offset < size`), then the last two calls of
the loop are a successful read and `seek` on the buffer `b` that this read
left in `data`, and for every fuel of at least `n` `bp__writer_find` calls
`miss` on that buffer, not on the seed, and returns what `miss` returned. -/
theorem miss_gets_seed_or_last_buffer {κ : Type} (ALIGN : Nat) (sn : Snappy) (os : Sys)
    (w pw : bp__writer_t) (size F : Nat) (seed : Ptr) (seek miss : bp__writer_cb κ) (user : κ)
    (hs : 1 ≤ size)
    (hret : (bp__writer_write ALIGN sn os w 0 Ptr.null).ret = 0)
    (hpw : pw = (bp__writer_write ALIGN sn os w 0 Ptr.null).w)
    (hF : F = pw.filesize) :
    (F < size → ∀ k, 1 ≤ k →
      bp__writer_find ALIGN sn os k w size seed seek miss user =
        some ⟨(miss user pw seed).ret, (miss user pw seed).w, (miss user pw seed).user,
          [Event.miss seed (miss user pw seed).ret]⟩) ∧
    (size ≤ F → ∀ n,
      (find_loop ALIGN sn os size seek n (find_init pw size seed user)).running = false →
      (find_loop ALIGN sn os size seek n (find_init pw size seed user)).offset < size →
      ∃ (T : List Event) (off sz so : Nat) (q : Int) (b : List Byte) (u : κ)
          (lw : bp__writer_t),
        (find_loop ALIGN sn os size seek n (find_init pw size seed user)).trace =
          T ++ [Event.read off sz 0 so (Ptr.heap b), Event.seek (Ptr.heap b) q] ∧
        ∀ k, n ≤ k →
          bp__writer_find ALIGN sn os k w size seed seek miss user =
            some ⟨(miss u lw (Ptr.heap b)).ret, (miss u lw (Ptr.heap b)).w,
              (miss u lw (Ptr.heap b)).user,
              T ++ [Event.read off sz 0 so (Ptr.heap b), Event.seek (Ptr.heap b) q,
                Event.miss (Ptr.heap b) (miss u lw (Ptr.heap b)).ret]⟩) := by
  constructor
  · intro hlt k hk
    obtain ⟨i, rfl⟩ := Nat.exists_eq_add_of_le hk
    have h1 : find_loop ALIGN sn os size seek 1 (find_init pw size seed user) =
        { find_init pw size seed user with running := false } := by
      show find_iter ALIGN sn os size seek (find_init pw size seed user) = _
      rcases find_iter_cases ALIGN sn os size seek (find_init pw size seed user) rfl with
        ⟨_, he⟩ | ⟨hc, _, _⟩ | ⟨hc, _, _, _⟩ | ⟨hc, _, _, _⟩
      · exact he
      · exact absurd hc (Nat.not_le_of_lt (by show pw.filesize < size; omega))
      · exact absurd hc (Nat.not_le_of_lt (by show pw.filesize < size; omega))
      · exact absurd hc (Nat.not_le_of_lt (by show pw.filesize < size; omega))
    unfold bp__writer_find
    simp only [hret, ne_eq, not_true_eq_false, if_false]
    rw [← hpw, find_loop_add, h1, find_loop_stopped ALIGN sn os size seek i _ rfl]
    simp only [Bool.false_eq_true, if_false, find_finish]
    rw [if_pos (by show pw.filesize < size; omega)]
    rfl
  · intro hle n hstop hex
    have hinv := seed_inv_loop ALIGN sn os size seed seek hs pw user n
    rcases hinv.2 hstop hex with ⟨hlt, _, _⟩ | ⟨_, T, off, sz, so, q, b, hT, hd⟩
    · omega
    · refine ⟨T, off, sz, so, q, b,
        (find_loop ALIGN sn os size seek n (find_init pw size seed user)).user,
        (find_loop ALIGN sn os size seek n (find_init pw size seed user)).w, hT, ?_⟩
      intro k hk
      obtain ⟨i, rfl⟩ := Nat.exists_eq_add_of_le hk
      unfold bp__writer_find
      simp only [hret, ne_eq, not_true_eq_false, if_false]
      rw [← hpw, find_loop_add, find_loop_stopped ALIGN sn os size seek i _ hstop]
      simp only [hstop, Bool.false_eq_true, if_false, find_finish]
      rw [if_pos hex, hT, hd]
      simp

/-- Witness of C13 as amended, `ALIGN = 4`.  On a fresh empty file with slot
size 4 `miss` is called on the seed `Ptr.user [9]`.  On a file of two slots of
four bytes, with everything rejected, the scan is exhausted after three tests
of the loop condition and `miss` is called on a buffer from `malloc`. -/
theorem miss_gets_seed_or_last_buffer_witness :
    bp__writer_find 4 Snappy.runs Sys.reliable 1 (fresh 4) 4 (Ptr.user [9]) (cb_const 1)
      (cb_const 7) () =
      some ⟨7, fresh 4, (), [Event.miss (Ptr.user [9]) 7]⟩ ∧
    ∃ (T : List Event) (off sz so : Nat) (q : Int) (b : List Byte),
      (bp__writer_find 4 Snappy.runs Sys.reliable 3 w_eight 4 (Ptr.user [9]) (cb_const 1)
        (cb_const 7) ()).map FindResult.trace =
        some (T ++ [Event.read off sz 0 so (Ptr.heap b), Event.seek (Ptr.heap b) q,
          Event.miss (Ptr.heap b) 7]) := by
  have h1 := (miss_gets_seed_or_last_buffer 4 Snappy.runs Sys.reliable (fresh 4) (fresh 4) 4 0
    (Ptr.user [9]) (cb_const 1) (cb_const 7) () (by decide) (by decide) (by decide)
    (by decide)).1 (by decide) 1 (Nat.le_refl 1)
  obtain ⟨T, off, sz, so, q, b, u, lw, -, h2⟩ :=
    (miss_gets_seed_or_last_buffer 4 Snappy.runs Sys.reliable w_eight w_eight 4 8
      (Ptr.user [9]) (cb_const 1) (cb_const 7) () (by decide) (by decide) (by decide)
      (by decide)).2 (by decide) 3 (by decide) (by decide)
  refine ⟨h1, T, off, sz, so, q, b, ?_⟩
  rw [h2 3 (Nat.le_refl 3)]
  rfl

/-- C15, failing run.  `ALIGN = 4`, every call of the environment succeeding.
Two records of 7 bytes are written to a fresh file; each is compressed to 8
bytes, so the file is two slots of 8 bytes and `filesize` is 16.
`bp__writer_find` with `size = 8` and a `seek` that rejects everything reads the
slot at offset 8 with `*size = 8`, and `bp__writer_read` stores the decompressed
length 7 in `size_tmp`; the next iteration issues its read at offset 0 with a
requested size of 7, not 8, and gets the first six bytes of the first record
instead of the record. -/
theorem find_read_size_drifts :
    (after_writes 4 Snappy.runs Sys.reliable (fresh 4)
      [[1, 2, 3, 4, 5, 6, 7], [7, 6, 5, 4, 3, 2, 1]]).file =
      [0, 1, 2, 3, 4, 5, 6, 7, 0, 7, 6, 5, 4, 3, 2, 1] ∧
    (after_writes 4 Snappy.runs Sys.reliable (fresh 4)
      [[1, 2, 3, 4, 5, 6, 7], [7, 6, 5, 4, 3, 2, 1]]).filesize = 16 ∧
    (bp__writer_find 4 Snappy.runs Sys.reliable 3
      (after_writes 4 Snappy.runs Sys.reliable (fresh 4)
        [[1, 2, 3, 4, 5, 6, 7], [7, 6, 5, 4, 3, 2, 1]])
      8 Ptr.null (cb_const 1) (cb_const 7) ()).map FindResult.trace =
      some [Event.read 8 8 0 7 (Ptr.heap [7, 6, 5, 4, 3, 2, 1]),
        Event.seek (Ptr.heap [7, 6, 5, 4, 3, 2, 1]) 1,
        Event.read 0 7 0 6 (Ptr.heap [1, 2, 3, 4, 5, 6]),
        Event.seek (Ptr.heap [1, 2, 3, 4, 5, 6]) 1,
        Event.miss (Ptr.heap [1, 2, 3, 4, 5, 6]) 7] := by
  decide

theorem scan_trace_append (file : List Byte) (F s : Nat) (a b : List Int) (k : Nat) :
    scan_trace file F s k (a ++ b) =
      scan_trace file F s k a ++ scan_trace file F s (k + a.length) b := by
  induction a generalizing k with
  | nil => simp [scan_trace]
  | cons q a ih =>
    have h : k + 1 + a.length = k + (a.length + 1) := by omega
    show Event.read _ _ _ _ _ :: Event.seek _ _ :: scan_trace file F s (k + 1) (a ++ b) = _
    rw [ih (k + 1), h]
    rfl

/-- The calls of `scan_trace` for one more answer. -/
theorem scan_trace_snoc (file : List Byte) (F s : Nat) (qs : List Int) (q : Int) :
    scan_trace file F s 0 (qs ++ [q]) =
      scan_trace file F s 0 qs ++
        [Event.read (F - (qs.length + 1) * s) s 0 s
            (Ptr.heap (slot file (F - (qs.length + 1) * s) s)),
          Event.seek (Ptr.heap (slot file (F - (qs.length + 1) * s) s)) q] := by
  rw [scan_trace_append]
  simp [scan_trace]

/-- One test-and-body of the loop keeps `order_inv`, when `seek` leaves the
bytes of the file alone. -/
theorem order_inv_iter {κ : Type} (ALIGN : Nat) (sn : Snappy) (os : Sys) (s : Nat)
    (seek : bp__writer_cb κ) (file : List Byte) (F n : Nat) (st : Loop κ)
    (hs : 1 ≤ s) (hle : s ≤ ALIGN)
    (hseek : ∀ u w2 d, (seek u w2 d).w.file = w2.file)
    (h : order_inv file F s n st) :
    order_inv file F s (n + 1) (find_iter ALIGN sn os s seek st) := by
  obtain ⟨hfile, qs, hq, hlen, hcase⟩ := h
  rcases hcase with ⟨hrun, hn, hoff, hsz, hret, htr⟩ | hstop | hstop | hstop
  · have hmul : (n + 1) * s = n * s + s := by rw [Nat.add_mul, Nat.one_mul]
    have hpres := read_preserves ALIGN sn os st.w (st.offset - s) st.size_tmp st.data
    rcases find_iter_cases ALIGN sn os s seek st hrun with
      ⟨hc, he⟩ | ⟨hc, hr, he⟩ | ⟨hc, hr, hq0, he⟩ | ⟨hc, hr, hq1, he⟩
    · rw [he]
      refine ⟨hfile, qs, hq, hlen, Or.inr (Or.inl ⟨rfl, hc, ?_, htr⟩)⟩
      rw [hn, hmul]
      show F < n * s + s
      have : st.offset < s := hc
      omega
    · rw [he]
      refine ⟨hpres.1.trans hfile, qs, hq, hlen, Or.inr (Or.inr (Or.inl
        ⟨rfl, hc, hr, ?_,
          (bp__writer_read ALIGN sn os st.w (st.offset - s) st.size_tmp st.data).size,
          (bp__writer_read ALIGN sn os st.w (st.offset - s) st.size_tmp st.data).data, ?_⟩))⟩
      · rw [hn, hmul]; omega
      · show st.trace ++ _ = _
        rw [htr, hsz, hn]
        have ho : st.offset - s = F - (n + 1) * s := by rw [hmul]; omega
        rw [ho]
    · rw [hsz] at hr hq0 he hpres
      obtain ⟨hsize, hdata⟩ := read_ok_raw ALIGN sn os st.w (st.offset - s) s st.data hle hr
      have hdata := hdata (by omega)
      have ho : st.offset - s = F - (qs.length + 1) * s := by rw [hn, hmul]; omega
      rw [he]
      refine ⟨?_, qs, hq, hlen, Or.inr (Or.inr (Or.inr ⟨rfl, hc, rfl, ?_, ?_⟩))⟩
      · show (seek _ _ _).w.file = file
        rw [hseek, hpres.1, hfile]
      · rw [hn, hmul]; omega
      · show st.trace ++ _ = _
        rw [scan_trace_snoc, htr, hsize, hdata, hfile, ho]
    · rw [hsz] at hr hq1 he hpres
      obtain ⟨hsize, hdata⟩ := read_ok_raw ALIGN sn os st.w (st.offset - s) s st.data hle hr
      have hdata := hdata (by omega)
      have ho : st.offset - s = F - (qs.length + 1) * s := by rw [hn, hmul]; omega
      rw [he]
      refine ⟨?_, qs ++ [(seek st.user
          (bp__writer_read ALIGN sn os st.w (st.offset - s) s st.data).w
          (bp__writer_read ALIGN sn os st.w (st.offset - s) s st.data).data).ret], ?_, ?_,
        Or.inl ⟨hrun, ?_, ?_, hsize, rfl, ?_⟩⟩
      · show (seek _ _ _).w.file = file
        rw [hseek, hpres.1, hfile]
      · intro q hmem
        rcases List.mem_append.1 hmem with h1 | h1
        · exact hq q h1
        · rw [List.mem_singleton.1 h1]; exact hq1
      · rw [List.length_append, List.length_singleton, hn, hmul]; omega
      · rw [List.length_append, List.length_singleton, hn]
      · show st.offset - s + (n + 1) * s = F
        rw [hmul]; omega
      · show st.trace ++ _ = _
        rw [scan_trace_snoc, htr, hsize, hdata, hfile, ho]
  · rw [find_iter_stopped ALIGN sn os s seek st hstop.1]
    exact ⟨hfile, qs, hq, hlen, Or.inr (Or.inl hstop)⟩
  · rw [find_iter_stopped ALIGN sn os s seek st hstop.1]
    exact ⟨hfile, qs, hq, hlen, Or.inr (Or.inr (Or.inl hstop))⟩
  · rw [find_iter_stopped ALIGN sn os s seek st hstop.1]
    exact ⟨hfile, qs, hq, hlen, Or.inr (Or.inr (Or.inr hstop))⟩

/-- After `n` tests of the loop condition `order_inv` holds, when `seek` leaves
the bytes of the file alone. -/
theorem order_inv_loop {κ : Type} (ALIGN : Nat) (sn : Snappy) (os : Sys) (s : Nat)
    (seek : bp__writer_cb κ) (w : bp__writer_t) (data : Ptr) (user : κ)
    (hs : 1 ≤ s) (hle : s ≤ ALIGN)
    (hseek : ∀ u w2 d, (seek u w2 d).w.file = w2.file) (n : Nat) :
    order_inv w.file w.filesize s n (find_loop ALIGN sn os s seek n (find_init w s data user)) := by
  induction n with
  | zero =>
    refine ⟨rfl, [], by simp, by simp, Or.inl ⟨rfl, rfl, ?_, rfl, rfl, rfl⟩⟩
    simp [find_loop, find_init]
  | succ n ih =>
    rw [find_loop_succ]
    exact order_inv_iter ALIGN sn os s seek w.file w.filesize n _ hs hle hseek ih

/-- C14. Scan order and early stop of `bp__writer_find`.  Let the slot size `s`
satisfy `1 ≤ s ≤ ALIGN`, let the pad-only write succeed and leave the handle `pw`
with `filesize = F`, and let `seek` leave the bytes of the file alone.  Then
`bp__writer_find` returns one result `r` for every fuel of at least `F / s + 1`,
and there is a list `qs` of non-zero answers of `seek` such that the calls made
are, in order: for `k = 0, 1, ...` below the length of `qs` the read of `s` bytes
at `F - (k + 1) * s` and `seek` on a buffer with the bytes
`[F - (k + 1) * s, F - k * s)` of the file, answered by the entry `k` of `qs`;
and then one of:
the read of the next slot and `seek` on it answered by `0`, after which no call
is made, `miss` is not called, and the result is `0`;
one call of `miss`, no slot being left;
one read of the next slot that failed. -/
theorem scan_order_early_stop {κ : Type} (ALIGN : Nat) (sn : Snappy) (os : Sys)
    (w pw : bp__writer_t) (s F : Nat) (data : Ptr) (seek miss : bp__writer_cb κ) (user : κ)
    (hs : 1 ≤ s) (hle : s ≤ ALIGN)
    (hret : (bp__writer_write ALIGN sn os w 0 Ptr.null).ret = 0)
    (hpw : pw = (bp__writer_write ALIGN sn os w 0 Ptr.null).w)
    (hF : F = pw.filesize)
    (hseek : ∀ u w2 d, (seek u w2 d).w.file = w2.file) :
    ∃ (r : FindResult κ) (qs : List Int),
      (∀ k, F / s + 1 ≤ k →
        bp__writer_find ALIGN sn os k w s data seek miss user = some r) ∧
      (∀ q ∈ qs, q ≠ 0) ∧
      ((r.ret = 0 ∧ (qs.length + 1) * s ≤ F ∧
          r.trace = scan_trace pw.file F s 0 (qs ++ [0])) ∨
       (F < (qs.length + 1) * s ∧ qs.length * s ≤ F ∧
          ∃ d, r.trace = scan_trace pw.file F s 0 qs ++ [Event.miss d r.ret]) ∨
       (r.ret ≠ 0 ∧ (qs.length + 1) * s ≤ F ∧
          ∃ so d, r.trace = scan_trace pw.file F s 0 qs ++
            [Event.read (F - (qs.length + 1) * s) s r.ret so d])) := by
  subst hF
  have hspos : 0 < s := hs
  obtain ⟨-, qs, hq, hlen, hcase⟩ :=
    order_inv_loop ALIGN sn os s seek pw data user hs hle hseek (pw.filesize / s + 1)
  have hfind : ∀ st : Loop κ,
      st = find_loop ALIGN sn os s seek (pw.filesize / s + 1) (find_init pw s data user) →
      st.running = false → ∀ k, pw.filesize / s + 1 ≤ k →
      bp__writer_find ALIGN sn os k w s data seek miss user = some (find_finish s miss st) := by
    intro st hst hstop k hk
    obtain ⟨i, rfl⟩ := Nat.exists_eq_add_of_le hk
    unfold bp__writer_find
    simp only [hret, ne_eq, not_true_eq_false, if_false]
    rw [← hpw, find_loop_add, ← hst, find_loop_stopped ALIGN sn os s seek i _ hstop]
    simp only [hstop, Bool.false_eq_true, if_false]
  generalize hst : find_loop ALIGN sn os s seek (pw.filesize / s + 1)
    (find_init pw s data user) = st at hcase
  have hfind := hfind st hst.symm
  rcases hcase with ⟨-, hn, hoff, -⟩ | ⟨hstop, hex, hlt, htr⟩ |
    ⟨hstop, hc, hr, hb, so, d, htr⟩ | ⟨hstop, hc, hr, hb, htr⟩
  · exfalso
    rw [hn] at hlen
    have h1 := Nat.div_add_mod pw.filesize s
    have h2 := Nat.mod_lt pw.filesize hspos
    have h3 : (pw.filesize / s + 1) * s = s * (pw.filesize / s) + s := by
      rw [Nat.add_mul, Nat.one_mul, Nat.mul_comm]
    omega
  · refine ⟨find_finish s miss st, qs, hfind hstop, hq, Or.inr (Or.inl ⟨hlt, hlen, st.data, ?_⟩)⟩
    unfold find_finish
    rw [if_pos hex, htr]
  · refine ⟨find_finish s miss st, qs, hfind hstop, hq, Or.inr (Or.inr ?_)⟩
    unfold find_finish
    rw [if_neg (by omega)]
    exact ⟨hr, hb, so, d, htr⟩
  · refine ⟨find_finish s miss st, qs, hfind hstop, hq, Or.inl ?_⟩
    unfold find_finish
    rw [if_neg (by omega)]
    exact ⟨hr, hb, htr⟩

/-- Witness of C14, `ALIGN = 4`, a file of two slots of four bytes, a `seek`
that answers `0` on the bytes `[1, 1, 1, 1]` of the slot at offset 0 only:
the slot at offset 4 is read and tested first, then the slot at offset 0, and
`bp__writer_find` returns `0` without a call of `miss`. -/
theorem scan_order_early_stop_witness :
    (∃ (r : FindResult Unit) (qs : List Int),
      (∀ k, 8 / 4 + 1 ≤ k →
        bp__writer_find 4 Snappy.runs Sys.reliable k w_eight 4 Ptr.null
          (seek_in [[1, 1, 1, 1]]) (cb_const 7) () = some r) ∧
      (∀ q ∈ qs, q ≠ 0) ∧
      ((r.ret = 0 ∧ (qs.length + 1) * 4 ≤ 8 ∧
          r.trace = scan_trace w_eight.file 8 4 0 (qs ++ [0])) ∨
       (8 < (qs.length + 1) * 4 ∧ qs.length * 4 ≤ 8 ∧
          ∃ d, r.trace = scan_trace w_eight.file 8 4 0 qs ++ [Event.miss d r.ret]) ∨
       (r.ret ≠ 0 ∧ (qs.length + 1) * 4 ≤ 8 ∧
          ∃ so d, r.trace = scan_trace w_eight.file 8 4 0 qs ++
            [Event.read (8 - (qs.length + 1) * 4) 4 r.ret so d]))) ∧
    (bp__writer_find 4 Snappy.runs Sys.reliable 3 w_eight 4 Ptr.null
      (seek_in [[1, 1, 1, 1]]) (cb_const 7) ()).map (fun r => (r.ret, r.trace)) =
      some (0, [Event.read 4 4 0 4 (Ptr.heap [2, 2, 2, 2]), Event.seek (Ptr.heap [2, 2, 2, 2]) 1,
        Event.read 0 4 0 4 (Ptr.heap [1, 1, 1, 1]), Event.seek (Ptr.heap [1, 1, 1, 1]) 0]) ∧
    scan_trace w_eight.file 8 4 0 [1, 0] =
      [Event.read 4 4 0 4 (Ptr.heap [2, 2, 2, 2]), Event.seek (Ptr.heap [2, 2, 2, 2]) 1,
        Event.read 0 4 0 4 (Ptr.heap [1, 1, 1, 1]), Event.seek (Ptr.heap [1, 1, 1, 1]) 0] :=
  ⟨scan_order_early_stop 4 Snappy.runs Sys.reliable w_eight w_eight 4 8 Ptr.null
      (seek_in [[1, 1, 1, 1]]) (cb_const 7) () (by decide) (by decide) (by decide) (by decide)
      (by decide) (fun _ _ _ => rfl),
    by decide, by decide⟩

end Bplus
